import Mathlib

/-!
# simplewayback: the CDX query builder and the row decoder

A shallow embedding of `simplewayback.go`.  Go strings are byte sequences, the
receiver `*CDXAPI` is threaded explicitly through every method, and a method
that returns `error` returns the (possibly mutated) receiver together with
`none` for `nil` or `some e` for an error.
-/

namespace Simplewayback

/-! ## Go strings -/

/-- One byte of a Go string. -/
abbrev Byte := Fin 256

/-- A Go `string`: an immutable sequence of bytes. -/
abbrev GoString := List Byte

/-- The bytes of an ASCII source literal. -/
def ascii (s : String) : GoString :=
  s.toList.map (fun c => Fin.ofNat c.toNat)

/-- The byte-wise comparison `a <= b` of Go strings (the order of `sort.Strings`). -/
def strLE : GoString → GoString → Bool
  | [], _ => true
  | _ :: _, [] => false
  | a :: as, b :: bs => if a < b then true else if b < a then false else strLE as bs

/-- ASCII decimal digit test (`'0' <= c && c <= '9'`). -/
def isDigit (c : Byte) : Bool :=
  decide (48 ≤ c.val ∧ c.val ≤ 57)

/-- The ASCII digit for a value below ten. -/
def digitByte (d : Nat) : Byte :=
  Fin.ofNat (48 + d % 10)

/-- Decimal digits of `n`, most significant first; `fuel` bounds the number of digits. -/
def decDigits : Nat → Nat → GoString
  | 0, _ => []
  | fuel + 1, n => if n < 10 then [digitByte n] else decDigits fuel (n / 10) ++ [digitByte n]

/-- Decimal rendering of a natural number (`%d` of a non-negative `int`). -/
def natToDec (n : Nat) : GoString :=
  decDigits (n + 1) n

/-- Go `strconv.Itoa` (also `fmt.Sprint` of an `int`). -/
def Itoa (n : Int) : GoString :=
  if n < 0 then ascii "-" ++ natToDec n.natAbs else natToDec n.natAbs

/-! ## `net/url`: query escaping and `url.Values` -/

/-- Go `shouldEscape(c, encodeQueryComponent)`: everything except the unreserved
characters (ASCII letters, digits, `-`, `_`, `.`, `~`) is escaped. -/
def shouldEscape (c : Byte) : Bool :=
  !(decide (97 ≤ c.val ∧ c.val ≤ 122) || decide (65 ≤ c.val ∧ c.val ≤ 90) ||
    decide (48 ≤ c.val ∧ c.val ≤ 57) ||
    c == 45 || c == 95 || c == 46 || c == 126)

/-- The table `upperhex = "0123456789ABCDEF"`, indexed by a nibble. -/
def upperhex (n : Nat) : Byte :=
  if n % 16 < 10 then Fin.ofNat (48 + n % 16) else Fin.ofNat (55 + n % 16)

/-- The escaped form of one byte in a query component. -/
def escapeByte (c : Byte) : GoString :=
  if c = 32 then [43]
  else if shouldEscape c then [37, upperhex (c.val / 16), upperhex (c.val % 16)]
  else [c]

/-- Go `url.QueryEscape`. -/
def QueryEscape (s : GoString) : GoString :=
  s.flatMap escapeByte

/-- Go `ishex`. -/
def ishex (c : Byte) : Bool :=
  decide (48 ≤ c.val ∧ c.val ≤ 57) || decide (97 ≤ c.val ∧ c.val ≤ 102) ||
    decide (65 ≤ c.val ∧ c.val ≤ 70)

/-- Go `unhex`. -/
def unhex (c : Byte) : Nat :=
  if 48 ≤ c.val ∧ c.val ≤ 57 then c.val - 48
  else if 97 ≤ c.val ∧ c.val ≤ 102 then c.val - 97 + 10
  else if 65 ≤ c.val ∧ c.val ≤ 70 then c.val - 65 + 10
  else 0

/-- Go `url.QueryUnescape`: `%XX` becomes the byte `XX`, `+` becomes a space; a `%`
not followed by two hex digits is an error (`none`). -/
def QueryUnescape : GoString → Option GoString
  | [] => some []
  | c :: rest =>
    if c = 37 then
      match rest with
      | h :: l :: rest2 =>
        if ishex h && ishex l then
          (QueryUnescape rest2).map (fun t => Fin.ofNat (unhex h * 16 + unhex l) :: t)
        else none
      | _ => none
    else if c = 43 then (QueryUnescape rest).map (fun t => (32 : Byte) :: t)
    else (QueryUnescape rest).map (fun t => c :: t)

/-- Go `url.Values` as this package uses it.  Only `Set`, `Get`, `Del` and `Encode`
are ever called, so every key holds exactly one value; the map is kept as a list of
key/value entries with distinct keys. -/
structure Values where
  entries : List (GoString × GoString)
  deriving DecidableEq

/-- Lookup of the value stored under `key`, `""` when the key is absent. -/
def getEntry : List (GoString × GoString) → GoString → GoString
  | [], _ => []
  | (k, x) :: rest, key => if k = key then x else getEntry rest key

/-- Replacement of the value stored under `key`, or insertion of a new entry. -/
def setEntry : List (GoString × GoString) → GoString → GoString → List (GoString × GoString)
  | [], key, value => [(key, value)]
  | (k, x) :: rest, key, value =>
    if k = key then (k, value) :: rest else (k, x) :: setEntry rest key value

/-- Removal of the entry stored under `key`. -/
def delEntry : List (GoString × GoString) → GoString → List (GoString × GoString)
  | [], _ => []
  | (k, x) :: rest, key => if k = key then delEntry rest key else (k, x) :: delEntry rest key

/-- Go `Values.Get`. -/
def Values.Get (v : Values) (key : GoString) : GoString :=
  getEntry v.entries key

/-- Go `Values.Set`. -/
def Values.Set (v : Values) (key value : GoString) : Values :=
  ⟨setEntry v.entries key value⟩

/-- Go `Values.Del`. -/
def Values.Del (v : Values) (key : GoString) : Values :=
  ⟨delEntry v.entries key⟩

/-- The keys of the map after `sort.Strings`. -/
def Values.sortedKeys (v : Values) : List GoString :=
  (v.entries.map Prod.fst).insertionSort (fun a b => strLE a b = true)

/-- One `key=value` pair as `Encode` writes it. -/
def encodePair (v : Values) (k : GoString) : GoString :=
  QueryEscape k ++ ascii "=" ++ QueryEscape (v.Get k)

/-- Pairs joined by `&`. -/
def joinAmp : List GoString → GoString
  | [] => []
  | [p] => p
  | p :: q :: rest => p ++ ascii "&" ++ joinAmp (q :: rest)

/-- Go `Values.Encode`: the pairs `key=value`, both escaped, sorted by key and
joined by `&`. -/
def Values.Encode (v : Values) : GoString :=
  joinAmp (v.sortedKeys.map (encodePair v))

/-! ## `regexp`: the rewrite of synthetic keys -/

/-- The rest of `s` after the literal `pre`, when `s` starts with it. -/
def stripLiteral : GoString → GoString → Option GoString
  | [], s => some s
  | _ :: _, [] => none
  | p :: ps, c :: cs => if p = c then stripLiteral ps cs else none

/-- A match of the pattern `(name\d+)=` anchored at the start of `s`: the literal
`name`, the whole run of digits that follows (at least one), then `=`.  Returns the
number of bytes matched. -/
def matchKeyAt (name s : GoString) : Option Nat :=
  match stripLiteral name s with
  | none => none
  | some t =>
    match t.takeWhile isDigit, t.dropWhile isDigit with
    | _ :: ds, c :: _ => if c = 61 then some (name.length + (ds.length + 1) + 1) else none
    | _, _ => none

/-- The scan of `ReplaceAllString`: matches are taken leftmost and do not overlap.
`skip` counts the bytes of the current match that are still to be dropped. -/
def rewriteKeysAux (name : GoString) : GoString → Nat → GoString
  | [], _ => []
  | _ :: rest, skip + 1 => rewriteKeysAux name rest skip
  | c :: rest, 0 =>
    match matchKeyAt name (c :: rest) with
    | some n => name ++ ascii "=" ++ rewriteKeysAux name rest (n - 1)
    | none => c :: rewriteKeysAux name rest 0

/-- The call `regexp.MustCompile("(name\d+)=").ReplaceAllString(s, "name=")` for a
literal `name`. -/
def rewriteKeys (name s : GoString) : GoString :=
  rewriteKeysAux name s 0

/-! ## Errors -/

/-- The package's error values, and the errors handed up from the standard library. -/
inductive Error where
  | ErrorInvalidMatchType
  | ErrorInvalidURL
  | ErrorInvalidOutputFormat
  | ErrorInvalidFromTo
  | ErrorInvalidField
  | ErrorInvalidNumber
  | ErrorPaginationResumption
  | ErrorInvalidScheme
  | ErrorBadResponse
  | library (msg : GoString)
  deriving DecidableEq

deriving instance DecidableEq for Except

/-! ## `strconv` -/

/-- The value of a string of decimal digits, `none` if some byte is not a digit. -/
def digitsValue : GoString → Nat → Option Nat
  | [], acc => some acc
  | c :: rest, acc => if isDigit c then digitsValue rest (acc * 10 + (c.val - 48)) else none

/-- Go `strconv.Atoi` on a 64-bit platform: an optional sign, then one or more decimal
digits; a value outside the `int` range is an error. -/
def Atoi (s : GoString) : Except Error Int :=
  let bad : Except Error Int := .error (.library (ascii "strconv.Atoi"))
  let body : GoString := match s with
    | c :: rest => if c = 45 ∨ c = 43 then rest else s
    | [] => []
  let neg : Bool := match s with
    | c :: _ => decide (c = 45)
    | [] => false
  match body with
  | [] => bad
  | _ :: _ =>
    match digitsValue body 0 with
    | none => bad
    | some n =>
      let v : Int := if neg then -(n : Int) else (n : Int)
      if -9223372036854775808 ≤ v ∧ v ≤ 9223372036854775807 then .ok v else bad

/-! ## `time` -/

/-- A Go `time.Time` without monotonic clock reading: the instant as seconds and
nanoseconds since the Unix epoch, and the offset east of UTC that the time's location
has at that instant. -/
structure Time where
  sec : Int
  nsec : Nat
  offset : Int
  deriving DecidableEq

/-- The proleptic Gregorian date `(year, month, day)` of a day counted from 1970-01-01. -/
def civilFromDays (days : Int) : Int × Int × Int :=
  let z := days + 719468
  let era := z / 146097
  let doe := z % 146097
  let yoe := (doe - doe / 1460 + doe / 36524 - doe / 146096) / 365
  let doy := doe - (365 * yoe + yoe / 4 - yoe / 100)
  let mp := (5 * doy + 2) / 153
  let d := doy - (153 * mp + 2) / 5 + 1
  let m := if mp < 10 then mp + 3 else mp - 9
  let y := yoe + era * 400
  (if m ≤ 2 then y + 1 else y, m, d)

/-- The day number, counted from 1970-01-01, of a proleptic Gregorian date. -/
def daysFromCivil (y m d : Int) : Int :=
  let y1 := if m ≤ 2 then y - 1 else y
  let era := y1 / 400
  let yoe := y1 % 400
  let mp := if m > 2 then m - 3 else m + 9
  let doy := (153 * mp + 2) / 5 + d - 1
  let doe := yoe * 365 + yoe / 4 - yoe / 100 + doy
  era * 146097 + doe - 719468

/-- Go `daysIn(month, year)`. -/
def daysIn (m y : Int) : Int :=
  if m = 2 then (if y % 4 = 0 ∧ (y % 100 ≠ 0 ∨ y % 400 = 0) then 29 else 28)
  else if m = 4 ∨ m = 6 ∨ m = 9 ∨ m = 11 then 30 else 31

/-- Go `appendInt(b, x, width)`: a minus sign for a negative `x`, then the decimal
digits of its magnitude, zero-padded on the left to `width`. -/
def appendInt (x : Int) (width : Nat) : GoString :=
  let ds := natToDec x.natAbs
  (if x < 0 then ascii "-" else []) ++ List.replicate (width - ds.length) (48 : Byte) ++ ds

/-- Go `t.Format("20060102150405")`: year, month, day, hour, minute and second of
the time in its location. -/
def Time.Format (t : Time) : GoString :=
  let abs := t.sec + t.offset
  let ymd := civilFromDays (abs / 86400)
  let r := abs % 86400
  appendInt ymd.1 4 ++ appendInt ymd.2.1 2 ++ appendInt ymd.2.2 2 ++
    appendInt (r / 3600) 2 ++ appendInt (r % 3600 / 60) 2 ++ appendInt (r % 60) 2

/-- Go `t.Sub(u)`: the difference in nanoseconds, saturated to the range of
`time.Duration`. -/
def Time.Sub (t u : Time) : Int :=
  let d := (t.sec - u.sec) * 1000000000 + ((t.nsec : Int) - (u.nsec : Int))
  if d < -9223372036854775808 then -9223372036854775808
  else if 9223372036854775807 < d then 9223372036854775807
  else d

/-- Go `getnum(s, fixed)`: one or two leading digits (exactly two when `fixed`). -/
def getnum (s : GoString) (fixed : Bool) : Option (Int × GoString) :=
  match s with
  | [] => none
  | a :: rest =>
    if isDigit a then
      match rest with
      | b :: rest2 =>
        if isDigit b then some (((a.val - 48) * 10 + (b.val - 48) : Nat), rest2)
        else if fixed then none else some (((a.val - 48 : Nat) : Int), rest)
      | [] => if fixed then none else some (((a.val - 48 : Nat) : Int), rest)
    else none

/-- The fractional second that `time.Parse` accepts after the seconds field although
the layout has none: a period or comma followed by digits, of which the first nine
count.  Returns the nanoseconds and the rest of the input. -/
def parseFraction (s : GoString) : Nat × GoString :=
  match s with
  | p :: d :: rest =>
    if (p = 46 ∨ p = 44) ∧ isDigit d then
      let ds := (d :: rest).takeWhile isDigit
      let used := ds.take 9
      match digitsValue used 0 with
      | some n => (n * 10 ^ (9 - used.length), (d :: rest).dropWhile isDigit)
      | none => (0, (d :: rest).dropWhile isDigit)
    else (0, s)
  | _ => (0, s)

/-- Go `time.Parse("20060102150405", value)`: a four-digit year, two-digit month and
day, a one- or two-digit hour, two-digit minute and second, an optional fractional
second, and nothing after it; the fields are range-checked and the result is in UTC. -/
def timeParse (value : GoString) : Except Error Time :=
  let bad : Except Error Time := .error (.library (ascii "time.Parse"))
  match value with
  | y0 :: y1 :: y2 :: y3 :: v1 =>
    match digitsValue [y0, y1, y2, y3] 0 with
    | none => bad
    | some year =>
      match getnum v1 true with
      | none => bad
      | some (month, v2) =>
        if month ≤ 0 ∨ 12 < month then bad else
        match getnum v2 true with
        | none => bad
        | some (day, v3) =>
          match getnum v3 false with
          | none => bad
          | some (hour, v4) =>
            if 24 ≤ hour then bad else
            match getnum v4 true with
            | none => bad
            | some (minute, v5) =>
              if 60 ≤ minute then bad else
              match getnum v5 true with
              | none => bad
              | some (second, v6) =>
                if 60 ≤ second then bad else
                let frac := parseFraction v6
                match frac.2 with
                | _ :: _ => bad
                | [] =>
                  if day < 1 ∨ daysIn month year < day then bad
                  else .ok ⟨daysFromCivil year month day * 86400 + hour * 3600 + minute * 60 + second,
                        frac.1, 0⟩
  | _ => bad

/-! ## The package: constants and tables -/

/-- The constant `cdxURL`. -/
def cdxURL : GoString := ascii "https://web.archive.org/cdx/search/cdx?"

/-- The constant `dataURL`. -/
def dataURL : GoString := ascii "http://web.archive.org/web"

/-- The `matchType` constants (`iota`). -/
def MatchTypeExact : Int := 0
/-- Second `matchType` constant. -/
def MatchTypePrefix : Int := 1
/-- Third `matchType` constant. -/
def MatchTypeHost : Int := 2
/-- Fourth `matchType` constant. -/
def MatchTypeDomain : Int := 3

/-- The `outputFormat` constants (`iota`). -/
def OutputFormatJSON : Int := 0
/-- Second `outputFormat` constant. -/
def OutputFormatCDX : Int := 1

/-- The `field` constants (`iota`). -/
def FieldURLKey : Int := 0
/-- Second `field` constant. -/
def FieldTimestamp : Int := 1
/-- Third `field` constant. -/
def FieldOriginal : Int := 2
/-- Fourth `field` constant. -/
def FieldMimetype : Int := 3
/-- Fifth `field` constant. -/
def FieldStatuscode : Int := 4
/-- Sixth `field` constant. -/
def FieldDigest : Int := 5
/-- Seventh `field` constant. -/
def FieldLength : Int := 6

/-- The map `fields`; `none` is the `!ok` of a failed lookup. -/
def fields (fld : Int) : Option GoString :=
  if fld = FieldURLKey then some (ascii "urlkey")
  else if fld = FieldTimestamp then some (ascii "timestamp")
  else if fld = FieldOriginal then some (ascii "original")
  else if fld = FieldMimetype then some (ascii "mimetype")
  else if fld = FieldStatuscode then some (ascii "statuscode")
  else if fld = FieldDigest then some (ascii "digest")
  else if fld = FieldLength then some (ascii "length")
  else none

/-- The map `matchTypes`. -/
def matchTypes (m : Int) : Option GoString :=
  if m = MatchTypeExact then some (ascii "exact")
  else if m = MatchTypePrefix then some (ascii "prefix")
  else if m = MatchTypeHost then some (ascii "host")
  else if m = MatchTypeDomain then some (ascii "domain")
  else none

/-- The map `outputFormats`. -/
def outputFormats (f : Int) : Option GoString :=
  if f = OutputFormatJSON then some (ascii "json")
  else if f = OutputFormatCDX then some (ascii "cdx")
  else none

/-- What the package takes from the standard library without looking inside. -/
structure Env where
  /-- The error of `regexp.Compile(regex)`, `none` when the pattern compiles. -/
  regexpCompile : GoString → Option Error
  /-- Go `neturl.Parse(url)`: the `Scheme` of the parsed URL, or the error. -/
  urlParse : GoString → Except Error GoString
  /-- Go `json.Unmarshal(body, &splitBuf)` for `splitBuf` of type `[][]string`. -/
  jsonUnmarshal : GoString → Except Error (List (List GoString))

/-- A `*http.Response`: the status code, and what reading the whole body yields. -/
structure HTTPResponse where
  StatusCode : Int
  Body : Except Error GoString
  deriving DecidableEq

/-- The struct `CDXAPI`. -/
structure CDXAPI where
  params : Values
  regFilterKeys : List GoString
  collapsingKeys : List GoString
  useResumptionKey : Bool
  resumptionKey : GoString
  usePagination : Bool
  page : Int
  apiKey : GoString
  urlBuf : GoString
  deriving DecidableEq

/-- The literal `&CDXAPI{params: &neturl.Values{}, urlBuf: &bytes.Buffer{}}`. -/
def CDXAPI.empty : CDXAPI :=
  ⟨⟨[]⟩, [], [], false, [], false, 0, [], []⟩

/-! ## Builder operations -/

/-- Method `SetAPIKey`. -/
def CDXAPI.SetAPIKey (cdx : CDXAPI) (apiKey : GoString) : Option Error × CDXAPI :=
  (none, { cdx with apiKey := apiKey })

/-- Method `APIKey`. -/
def CDXAPI.APIKey (cdx : CDXAPI) : GoString :=
  cdx.apiKey

/-- Method `SetMatchType`. -/
def CDXAPI.SetMatchType (cdx : CDXAPI) (mType : Int) : Option Error × CDXAPI :=
  match matchTypes mType with
  | none => (some .ErrorInvalidMatchType, cdx)
  | some name => (none, { cdx with params := cdx.params.Set (ascii "matchType") name })

/-- Method `MatchType`. -/
def CDXAPI.MatchType (cdx : CDXAPI) : Int :=
  let v := cdx.params.Get (ascii "matchType")
  if v = ascii "exact" then MatchTypeExact
  else if v = ascii "prefix" then MatchTypePrefix
  else if v = ascii "host" then MatchTypeHost
  else if v = ascii "domain" then MatchTypeDomain
  else MatchTypeExact

/-- Method `ResetMatchType`. -/
def CDXAPI.ResetMatchType (cdx : CDXAPI) : CDXAPI :=
  { cdx with params := cdx.params.Set (ascii "matchType") (ascii "exact") }

/-- Method `SetOutputFormat`. -/
def CDXAPI.SetOutputFormat (cdx : CDXAPI) (format : Int) : Option Error × CDXAPI :=
  match outputFormats format with
  | none => (some .ErrorInvalidOutputFormat, cdx)
  | some name =>
    if format = OutputFormatCDX then (none, { cdx with params := cdx.params.Del (ascii "output") })
    else (none, { cdx with params := cdx.params.Set (ascii "output") name })

/-- Method `OutputFormat`. -/
def CDXAPI.OutputFormat (cdx : CDXAPI) : Int :=
  if cdx.params.Get (ascii "output") = ascii "json" then OutputFormatJSON else OutputFormatCDX

/-- Method `ResetOutputFormat`. -/
def CDXAPI.ResetOutputFormat (cdx : CDXAPI) : CDXAPI :=
  { cdx with params := cdx.params.Del (ascii "output") }

/-- Method `SetURL`. -/
def CDXAPI.SetURL (env : Env) (cdx : CDXAPI) (url : GoString) : Option Error × CDXAPI :=
  match env.urlParse url with
  | .error err => (some err, cdx)
  | .ok scheme =>
    if !(scheme = ascii "http" ∨ scheme = ascii "https" ∨ scheme = ascii "") then
      (some .ErrorInvalidScheme, cdx)
    else (none, { cdx with params := cdx.params.Set (ascii "url") url })

/-- Method `URL`. -/
def CDXAPI.URL (cdx : CDXAPI) : GoString :=
  cdx.params.Get (ascii "url")

/-- The constructor `NewCDXAPI`. -/
def NewCDXAPI (env : Env) (url : GoString) : Except Error CDXAPI :=
  match CDXAPI.SetURL env CDXAPI.empty url with
  | (some err, _) => .error err
  | (none, cdx) => .ok cdx

/-- Method `SetLimit`. -/
def CDXAPI.SetLimit (cdx : CDXAPI) (limit : Int) : Option Error × CDXAPI :=
  if limit ≤ 0 then (some .ErrorInvalidNumber, cdx)
  else (none, { cdx with params := cdx.params.Set (ascii "limit") (Itoa limit) })

/-- Method `Limit`. -/
def CDXAPI.Limit (cdx : CDXAPI) : Int :=
  let lims := cdx.params.Get (ascii "limit")
  if lims = ascii "" then -1
  else match Atoi lims with
    | .error _ => -1
    | .ok lim => lim

/-- Method `ResetLimit`. -/
def CDXAPI.ResetLimit (cdx : CDXAPI) : CDXAPI :=
  { cdx with params := cdx.params.Del (ascii "limit") }

/-- The buffer `buf` that `AddRegexFilter` fills: `!` when negated, the field's name,
`:` and the pattern. -/
def filterValue (name regex : GoString) (negate : Bool) : GoString :=
  (if negate then ascii "!" else []) ++ name ++ ascii ":" ++ regex

/-- The buffer `buf` that `AddCollapsing` fills: the field's name, and `:` and the
number when it is positive. -/
def collapseValue (name : GoString) (n : Int) : GoString :=
  name ++ (if n > 0 then ascii ":" ++ Itoa n else [])

/-- Method `AddRegexFilter`. -/
def CDXAPI.AddRegexFilter (env : Env) (cdx : CDXAPI) (fld : Int) (regex : GoString)
    (negate : Bool) : Option Error × CDXAPI :=
  match fields fld with
  | none => (some .ErrorInvalidField, cdx)
  | some name =>
    match env.regexpCompile regex with
    | some err => (some err, cdx)
    | none =>
      let buf := filterValue name regex negate
      let key := ascii "filter" ++ natToDec cdx.regFilterKeys.length
      (none, { cdx with regFilterKeys := cdx.regFilterKeys ++ [key],
                        params := cdx.params.Set key buf })

/-- Method `ResetRegexFilters`. -/
def CDXAPI.ResetRegexFilters (cdx : CDXAPI) : CDXAPI :=
  { cdx with params := cdx.regFilterKeys.foldl Values.Del cdx.params, regFilterKeys := [] }

/-- Method `SetTimeFilter`. -/
def CDXAPI.SetTimeFilter (cdx : CDXAPI) (tFrom tTo : Time) : Option Error × CDXAPI :=
  if tTo.Sub tFrom < 0 then (some .ErrorInvalidFromTo, cdx)
  else (none, { cdx with params :=
    (cdx.params.Set (ascii "from") tFrom.Format).Set (ascii "to") tTo.Format })

/-- Method `TimeFilter`; `time.Time{}` is the zero time, January 1 of year 1, UTC. -/
def CDXAPI.TimeFilter (cdx : CDXAPI) : Time × Time :=
  let zero : Time := ⟨-62135596800, 0, 0⟩
  match timeParse (cdx.params.Get (ascii "from")) with
  | .error _ => (zero, zero)
  | .ok tFrom =>
    match timeParse (cdx.params.Get (ascii "to")) with
    | .error _ => (zero, zero)
    | .ok tTo => (tFrom, tTo)

/-- Method `ResetTimeFilter`. -/
def CDXAPI.ResetTimeFilter (cdx : CDXAPI) : CDXAPI :=
  { cdx with params := (cdx.params.Del (ascii "from")).Del (ascii "to") }

/-- Method `AddCollapsing`. -/
def CDXAPI.AddCollapsing (cdx : CDXAPI) (fld : Int) (n : Int) : Option Error × CDXAPI :=
  match fields fld with
  | none => (some .ErrorInvalidField, cdx)
  | some name =>
    if n < 0 then (some .ErrorInvalidNumber, cdx)
    else
      let buf := collapseValue name n
      let key := ascii "collapse" ++ natToDec cdx.collapsingKeys.length
      (none, { cdx with collapsingKeys := cdx.collapsingKeys ++ [key],
                        params := cdx.params.Set key buf })

/-- Method `ResetCollapsing`. -/
def CDXAPI.ResetCollapsing (cdx : CDXAPI) : CDXAPI :=
  { cdx with params := cdx.collapsingKeys.foldl Values.Del cdx.params, collapsingKeys := [] }

/-- Method `SetGzip`. -/
def CDXAPI.SetGzip (cdx : CDXAPI) (enabled : Bool) : Option Error × CDXAPI :=
  if enabled then (none, { cdx with params := cdx.params.Del (ascii "gzip") })
  else (none, { cdx with params := cdx.params.Set (ascii "gzip") (ascii "false") })

/-- Method `Gzip`. -/
def CDXAPI.Gzip (cdx : CDXAPI) : Bool :=
  !(cdx.params.Get (ascii "gzip") = ascii "false")

/-- Method `ResetGzip`. -/
def CDXAPI.ResetGzip (cdx : CDXAPI) : CDXAPI :=
  { cdx with params := cdx.params.Del (ascii "gzip") }

/-- Method `SetOffset`. -/
def CDXAPI.SetOffset (cdx : CDXAPI) (offset : Int) : Option Error × CDXAPI :=
  if offset ≤ 0 then (some .ErrorInvalidNumber, cdx)
  else (none, { cdx with params := cdx.params.Set (ascii "offset") (Itoa offset) })

/-- Method `Offset`. -/
def CDXAPI.Offset (cdx : CDXAPI) : Int :=
  let offs := cdx.params.Get (ascii "offset")
  if offs = ascii "" then -1
  else match Atoi offs with
    | .error _ => -1
    | .ok res => res

/-- Method `ResetOffset`. -/
def CDXAPI.ResetOffset (cdx : CDXAPI) : CDXAPI :=
  { cdx with params := cdx.params.Del (ascii "offset") }

/-- Method `SetResumptionKey`. -/
def CDXAPI.SetResumptionKey (cdx : CDXAPI) (enabled : Bool) (key : GoString) :
    Option Error × CDXAPI :=
  if cdx.usePagination then (some .ErrorPaginationResumption, cdx)
  else if enabled then
    (none, { cdx with useResumptionKey := enabled,
                      params := (cdx.params.Set (ascii "resumeKey") key).Set
                        (ascii "showResumeKey") (ascii "true") })
  else
    (none, { cdx with useResumptionKey := enabled,
                      params := (cdx.params.Del (ascii "resumeKey")).Del (ascii "showResumeKey") })

/-- Method `ResumptionKeyEnabled`. -/
def CDXAPI.ResumptionKeyEnabled (cdx : CDXAPI) : Bool :=
  cdx.useResumptionKey

/-- Method `ResumptionKey`. -/
def CDXAPI.ResumptionKey (cdx : CDXAPI) : GoString :=
  cdx.params.Get (ascii "resumeKey")

/-- Method `ResetResumptionKey`; the error of `SetResumptionKey` is dropped. -/
def CDXAPI.ResetResumptionKey (cdx : CDXAPI) : CDXAPI :=
  (cdx.SetResumptionKey false (ascii "")).2

/-- Method `SetPagination`. -/
def CDXAPI.SetPagination (cdx : CDXAPI) (enabled : Bool) (page : Int) : Option Error × CDXAPI :=
  if cdx.useResumptionKey then (some .ErrorPaginationResumption, cdx)
  else if page < 0 then (some .ErrorInvalidNumber, cdx)
  else if enabled then
    (none, { cdx with page := page, params := cdx.params.Set (ascii "page") (Itoa page),
                      usePagination := enabled })
  else
    (none, { cdx with page := -1, params := cdx.params.Del (ascii "page"),
                      usePagination := enabled })

/-- Method `PaginationEnabled`. -/
def CDXAPI.PaginationEnabled (cdx : CDXAPI) : Bool :=
  cdx.usePagination

/-- Method `PaginationPage`. -/
def CDXAPI.PaginationPage (cdx : CDXAPI) : Int :=
  cdx.page

/-- Method `ResetPagination`; the error of `SetPagination` is dropped. -/
def CDXAPI.ResetPagination (cdx : CDXAPI) : CDXAPI :=
  (cdx.SetPagination false 0).2

/-! ## The URL builder -/

/-- Method `buildURL`: the error, and the content of the buffer `urlDst` after the call. -/
def CDXAPI.buildURL (cdx : CDXAPI) (urlDst : GoString) : Option Error × GoString :=
  if cdx.params.Get (ascii "url") = ascii "" then (some .ErrorInvalidURL, urlDst)
  else
    let encoded := cdx.params.Encode
    let encoded :=
      if cdx.collapsingKeys.length > 0 then rewriteKeys (ascii "collapse") encoded else encoded
    let encoded :=
      if cdx.regFilterKeys.length > 0 then rewriteKeys (ascii "filter") encoded else encoded
    (none, cdxURL ++ encoded)

/-! ## Queries -/

/-- The struct `CDXRawQuery`. -/
structure CDXRawQuery where
  resp : HTTPResponse
  deriving DecidableEq

/-- Method `RawPerform`.  `net` is what `http.NewRequest` followed by `client.Do`
yields for the request.  The receiver changes in its `urlBuf` only. -/
def CDXAPI.RawPerform (cdx : CDXAPI) (net : Except Error HTTPResponse) :
    Except Error CDXRawQuery × CDXAPI :=
  match cdx.buildURL cdx.urlBuf with
  | (some err, buf) => (.error err, { cdx with urlBuf := buf })
  | (none, buf) =>
    let cdx := { cdx with urlBuf := buf }
    match net with
    | .error err => (.error err, cdx)
    | .ok resp =>
      if resp.StatusCode ≠ 200 then (.error .ErrorBadResponse, cdx)
      else (.ok ⟨resp⟩, cdx)

/-- The struct `cdxResultReader`. -/
structure cdxResultReader where
  resp : Option HTTPResponse
  original : GoString
  timestamp : Time
  eof : Bool
  deriving DecidableEq

/-- The struct `CDXResult`. -/
structure CDXResult where
  URLKey : GoString
  Timestamp : Time
  Original : GoString
  MimeType : GoString
  StatusCode : Int
  Digest : GoString
  Length : Int
  Data : cdxResultReader
  deriving DecidableEq

/-- How a call ends: it returns, or the Go runtime panics on an index out of range. -/
inductive Outcome (α : Type) where
  | returned (a : α)
  | panicked (index length : Nat)
  deriving DecidableEq

/-- The body of the loop of `Perform` for a row with two or more fields: either the
record to append, or the way the call ends at this row. -/
def decodeRow (row : List GoString) : Except (Outcome (List CDXResult × Option Error)) CDXResult :=
  match row[4]? with
  | none => .error (.panicked 4 row.length)
  | some f4 =>
    let row := if f4 = ascii "-" then row.set 4 (ascii "0") else row
    match row[7]? with
    | none => .error (.panicked 7 row.length)
    | some _ =>
      match timeParse (row.getD 1 []) with
      | .error err => .error (.returned ([], some err))
      | .ok t =>
        match Atoi (row.getD 4 []) with
        | .error err => .error (.returned ([], some err))
        | .ok code =>
          match Atoi (row.getD 6 []) with
          | .error err => .error (.returned ([], some err))
          | .ok ln =>
            .ok { URLKey := row.getD 0 [], Timestamp := t, Original := row.getD 2 [],
                  MimeType := row.getD 3 [], StatusCode := code, Digest := row.getD 5 [],
                  Length := ln,
                  Data := { resp := none, original := row.getD 2 [], timestamp := t,
                            eof := false } }

/-- The loop `for i := 1; i < len(splitBuf); i++` of `Perform`, run over the rows that
follow row 0; `result` holds the records appended so far. -/
def decodeRows (cdx : CDXAPI) (result : List CDXResult) :
    List (List GoString) → Outcome (List CDXResult × Option Error) × CDXAPI
  | [] => (.returned (result, none), cdx)
  | [] :: rest => decodeRows cdx result rest
  | [key] :: rest =>
    if cdx.ResumptionKeyEnabled then
      decodeRows { cdx with params := cdx.params.Set (ascii "resumeKey") key } result rest
    else decodeRows cdx result rest
  | (f0 :: f1 :: fs) :: rest =>
    match decodeRow (f0 :: f1 :: fs) with
    | .error out => (out, cdx)
    | .ok rec => decodeRows cdx (result ++ [rec]) rest

/-- Method `Perform`.  `net` is as for `RawPerform`; the receiver is returned as the
call leaves it, also when the call panics. -/
def CDXAPI.Perform (env : Env) (cdx : CDXAPI) (net : Except Error HTTPResponse) :
    Outcome (List CDXResult × Option Error) × CDXAPI :=
  let isJSON := decide (cdx.params.Get (ascii "output") = ascii "json")
  let cdx := if !isJSON then { cdx with params := cdx.params.Set (ascii "output") (ascii "json") }
    else cdx
  match cdx.RawPerform net with
  | (.error err, cdx) => (.returned ([], some err), cdx)
  | (.ok qry, cdx) =>
    match qry.resp.Body with
    | .error err => (.returned ([], some err), cdx)
    | .ok qryRes =>
      match env.jsonUnmarshal qryRes with
      | .error err => (.returned ([], some err), cdx)
      | .ok splitBuf =>
        match decodeRows cdx [] (splitBuf.drop 1) with
        | (.panicked i n, cdx) => (.panicked i n, cdx)
        | (.returned (result, some err), cdx) => (.returned (result, some err), cdx)
        | (.returned (result, none), cdx) =>
          let cdx := if !isJSON then { cdx with params := cdx.params.Del (ascii "output") }
            else cdx
          (.returned (result, none), cdx)

/-! ## Sequences of calls -/

/-- A call of one of the methods that change a `CDXAPI`, with its arguments. -/
inductive Op where
  | SetAPIKey (apiKey : GoString)
  | SetMatchType (mType : Int)
  | ResetMatchType
  | SetOutputFormat (format : Int)
  | ResetOutputFormat
  | SetURL (url : GoString)
  | SetLimit (limit : Int)
  | ResetLimit
  | AddRegexFilter (fld : Int) (regex : GoString) (negate : Bool)
  | ResetRegexFilters
  | SetTimeFilter (tFrom tTo : Time)
  | ResetTimeFilter
  | AddCollapsing (fld : Int) (n : Int)
  | ResetCollapsing
  | SetGzip (enabled : Bool)
  | ResetGzip
  | SetOffset (offset : Int)
  | ResetOffset
  | SetResumptionKey (enabled : Bool) (key : GoString)
  | ResetResumptionKey
  | SetPagination (enabled : Bool) (page : Int)
  | ResetPagination
  | RawPerform (net : Except Error HTTPResponse)
  | Perform (net : Except Error HTTPResponse)

/-- The receiver after one call. -/
def applyOp (env : Env) (cdx : CDXAPI) : Op → CDXAPI
  | .SetAPIKey apiKey => (cdx.SetAPIKey apiKey).2
  | .SetMatchType mType => (cdx.SetMatchType mType).2
  | .ResetMatchType => cdx.ResetMatchType
  | .SetOutputFormat format => (cdx.SetOutputFormat format).2
  | .ResetOutputFormat => cdx.ResetOutputFormat
  | .SetURL url => (CDXAPI.SetURL env cdx url).2
  | .SetLimit limit => (cdx.SetLimit limit).2
  | .ResetLimit => cdx.ResetLimit
  | .AddRegexFilter fld regex negate => (CDXAPI.AddRegexFilter env cdx fld regex negate).2
  | .ResetRegexFilters => cdx.ResetRegexFilters
  | .SetTimeFilter tFrom tTo => (cdx.SetTimeFilter tFrom tTo).2
  | .ResetTimeFilter => cdx.ResetTimeFilter
  | .AddCollapsing fld n => (cdx.AddCollapsing fld n).2
  | .ResetCollapsing => cdx.ResetCollapsing
  | .SetGzip enabled => (cdx.SetGzip enabled).2
  | .ResetGzip => cdx.ResetGzip
  | .SetOffset offset => (cdx.SetOffset offset).2
  | .ResetOffset => cdx.ResetOffset
  | .SetResumptionKey enabled key => (cdx.SetResumptionKey enabled key).2
  | .ResetResumptionKey => cdx.ResetResumptionKey
  | .SetPagination enabled page => (cdx.SetPagination enabled page).2
  | .ResetPagination => cdx.ResetPagination
  | .RawPerform net => (cdx.RawPerform net).2
  | .Perform net => (CDXAPI.Perform env cdx net).2

/-- The receiver after a sequence of calls, first call first. -/
def applyOps (env : Env) (cdx : CDXAPI) (ops : List Op) : CDXAPI :=
  ops.foldl (applyOp env) cdx

/-- The error a builder call returns (`none` for the resets, which return nothing). -/
def opError (env : Env) (cdx : CDXAPI) : Op → Option Error
  | .SetAPIKey apiKey => (cdx.SetAPIKey apiKey).1
  | .SetMatchType mType => (cdx.SetMatchType mType).1
  | .SetOutputFormat format => (cdx.SetOutputFormat format).1
  | .SetURL url => (CDXAPI.SetURL env cdx url).1
  | .SetLimit limit => (cdx.SetLimit limit).1
  | .AddRegexFilter fld regex negate => (CDXAPI.AddRegexFilter env cdx fld regex negate).1
  | .SetTimeFilter tFrom tTo => (cdx.SetTimeFilter tFrom tTo).1
  | .AddCollapsing fld n => (cdx.AddCollapsing fld n).1
  | .SetGzip enabled => (cdx.SetGzip enabled).1
  | .SetOffset offset => (cdx.SetOffset offset).1
  | .SetResumptionKey enabled key => (cdx.SetResumptionKey enabled key).1
  | .SetPagination enabled page => (cdx.SetPagination enabled page).1
  | _ => none

/-! ## Fixtures -/

/-- An environment for concrete runs: every pattern compiles, every URL parses with an
empty scheme, and every response body decodes to `rows`. -/
def fixedEnv (rows : List (List GoString)) : Env :=
  ⟨fun _ => none, fun _ => .ok [], fun _ => .ok rows⟩

/-- The calls of `TestCDXAPI_buildURL` on `cdx1`, in order. -/
def buildURLTestOps : List Op :=
  [.SetURL (ascii "archive.org"), .AddCollapsing FieldLength 10, .AddCollapsing FieldStatuscode 0,
   .AddRegexFilter FieldMimetype (ascii "text/html") true, .SetOffset 1, .SetLimit 1,
   .SetMatchType MatchTypeHost, .SetTimeFilter ⟨1136214245, 0, 0⟩ ⟨1167750245, 0, 0⟩,
   .SetOutputFormat OutputFormatJSON]

/-- A well-formed data row: seven fields, valid timestamp, decimal status and length. -/
def sevenFieldRow : List GoString :=
  [ascii "org,archive)/", ascii "20060102150405", ascii "http://archive.org/", ascii "text/html",
   ascii "200", ascii "DIGEST", ascii "1234"]

/-- The row of labels that the API sends as row 0. -/
def labelRow : List GoString :=
  [ascii "urlkey", ascii "timestamp", ascii "original", ascii "mimetype", ascii "statuscode",
   ascii "digest", ascii "length"]

/-- The seven-field row with both sentinels, as in the specification. -/
def sentinelRow : List GoString :=
  [ascii "key", ascii "20060102150405", ascii "http://x", ascii "text/html", ascii "-",
   ascii "digest", ascii "-"]

/-- Eleven successive `AddCollapsing` calls on the length field, windows 1 to 11. -/
def elevenCollapses : List Op :=
  [.AddCollapsing FieldLength 1, .AddCollapsing FieldLength 2, .AddCollapsing FieldLength 3,
   .AddCollapsing FieldLength 4, .AddCollapsing FieldLength 5, .AddCollapsing FieldLength 6,
   .AddCollapsing FieldLength 7, .AddCollapsing FieldLength 8, .AddCollapsing FieldLength 9,
   .AddCollapsing FieldLength 10, .AddCollapsing FieldLength 11]

/-! ## Reading a built URL back, and bookkeeping for the proofs -/

/-- Go `strings.Split(s, sep)` for a separator of one byte. -/
def splitOn (sep : Byte) : GoString → List GoString
  | [] => [[]]
  | c :: rest =>
    if c = sep then [] :: splitOn sep rest
    else match splitOn sep rest with
      | [] => [[c]]
      | p :: ps => (c :: p) :: ps

/-- The key of a `key=value` pair: what stands before the first `=`. -/
def pairKey (p : GoString) : GoString :=
  p.takeWhile (fun c => c != 61)

/-- The value of a `key=value` pair: what stands after the first `=`. -/
def pairValue (p : GoString) : GoString :=
  (p.dropWhile (fun c => c != 61)).drop 1

/-- The relation `a <= b` of `sort.Strings`, as a proposition. -/
abbrev StrLE (a b : GoString) : Prop :=
  strLE a b = true

/-- A synthetic key of the family `name`: the literal `name` followed by one or more
decimal digits (`filter0`, `collapse12`, ...). -/
def synthKey (name k : GoString) : Bool :=
  match stripLiteral name k with
  | some (d :: ds) => (d :: ds).all isDigit
  | _ => false

/-- What the rewrite pass for the family `name` makes of a key. -/
def rewriteKey (name k : GoString) : GoString :=
  if synthKey name k then name else k

/-- The key a stored key is written under by `buildURL`. -/
def wireKey (k : GoString) : GoString :=
  rewriteKey (ascii "filter") (rewriteKey (ascii "collapse") k)

/-- The keys that the methods store under their own name. -/
def fixedKeys : List GoString :=
  [ascii "matchType", ascii "output", ascii "url", ascii "limit", ascii "from", ascii "to",
   ascii "gzip", ascii "offset", ascii "resumeKey", ascii "showResumeKey", ascii "page"]

/-- The synthetic key number `i` of the family `name`. -/
def synthName (name : GoString) (i : Nat) : GoString :=
  name ++ natToDec i

/-- A byte other than the separators `&` and `=` of a query string. -/
def notSep (c : Byte) : Bool :=
  c != 38 && c != 61

/-- No non-empty suffix of the string is a synthetic key of the family `name`. -/
def noSynthSuffix (name : GoString) : GoString → Bool
  | [] => true
  | c :: t => !synthKey name (c :: t) && noSynthSuffix name t

/-- A key that the rewrite pass for `name` treats as a whole: free of separators, and
no proper suffix of it is a synthetic key of the family. -/
def keyOK (name k : GoString) : Bool :=
  k.all notSep && noSynthSuffix name k.tail

/-- The values stored by the successful `AddRegexFilter` calls since the last
`ResetRegexFilters`, after one more call `op` on `cdx`. -/
def stepFilters (env : Env) (cdx : CDXAPI) (fs : List GoString) : Op → List GoString
  | .AddRegexFilter fld regex negate =>
    match (CDXAPI.AddRegexFilter env cdx fld regex negate).1, fields fld with
    | none, some name => fs ++ [filterValue name regex negate]
    | _, _ => fs
  | .ResetRegexFilters => []
  | _ => fs

/-- The values stored by the successful `AddCollapsing` calls since the last
`ResetCollapsing`, after one more call `op` on `cdx`. -/
def stepCollapses (cdx : CDXAPI) (cs : List GoString) : Op → List GoString
  | .AddCollapsing fld n =>
    match (cdx.AddCollapsing fld n).1, fields fld with
    | none, some name => cs ++ [collapseValue name n]
    | _, _ => cs
  | .ResetCollapsing => []
  | _ => cs

/-- The filter values added and not reset, in call order, after the calls `ops`. -/
def addedFilters (env : Env) (cdx : CDXAPI) (fs : List GoString) : List Op → List GoString
  | [] => fs
  | op :: ops => addedFilters env (applyOp env cdx op) (stepFilters env cdx fs op) ops

/-- The collapse values added and not reset, in call order, after the calls `ops`. -/
def addedCollapses (env : Env) (cdx : CDXAPI) (cs : List GoString) : List Op → List GoString
  | [] => cs
  | op :: ops => addedCollapses env (applyOp env cdx op) (stepCollapses cdx cs op) ops

/-- The shape of the parameter store that all calls maintain: the two key lists are
`filter0..` and `collapse0..`, their values are the added values `fs` and `cs`, the
stored keys are distinct, each is a fixed key or on one of the lists, and every listed
key is stored. -/
structure Inv (p : Values) (fk ck fs cs : List GoString) : Prop where
  keysF : fk = (List.range fs.length).map (synthName (ascii "filter"))
  keysC : ck = (List.range cs.length).map (synthName (ascii "collapse"))
  valsF : fk.map p.Get = fs
  valsC : ck.map p.Get = cs
  nodup : (p.entries.map Prod.fst).Nodup
  dom : ∀ k ∈ p.entries.map Prod.fst, k ∈ fixedKeys ∨ k ∈ fk ∨ k ∈ ck
  memF : ∀ k ∈ fk, k ∈ p.entries.map Prod.fst
  memC : ∀ k ∈ ck, k ∈ p.entries.map Prod.fst

/-- The parameter store `q` comes from `p` by setting and deleting fixed keys only. -/
inductive FixedUpd : Values → Values → Prop where
  | refl (p : Values) : FixedUpd p p
  | set (p q : Values) (k v : GoString) : FixedUpd p q → k ∈ fixedKeys → FixedUpd p (q.Set k v)
  | del (p q : Values) (k : GoString) : FixedUpd p q → k ∈ fixedKeys → FixedUpd p (q.Del k)

/-- A call that leaves the two key lists alone and touches fixed keys only. -/
def Frame (cdx cdx1 : CDXAPI) : Prop :=
  cdx1.regFilterKeys = cdx.regFilterKeys ∧ cdx1.collapsingKeys = cdx.collapsingKeys ∧
    FixedUpd cdx.params cdx1.params

/-- The end of a pair: the end of the string, or the `&` before the next pair. -/
def PairEnd (t : GoString) : Prop :=
  t = [] ∨ ∃ t1, t = 38 :: t1

/-- A key that the methods can store: a fixed key, or a synthetic key of one of the
two families. -/
def Allowed (k : GoString) : Prop :=
  k ∈ fixedKeys ∨ synthKey (ascii "filter") k = true ∨ synthKey (ascii "collapse") k = true

/-- The string `a` is greater than `p` at a position inside both: they agree up to a
byte where `a` has the greater one. -/
def gtWithin : GoString → GoString → Bool
  | x :: xs, y :: ys => if y < x then true else if x < y then false else gtWithin xs ys
  | _, _ => false

/-! ## Fixtures for the row decoder and the resets -/

/-- A seven-field data row whose timestamp does not parse. -/
def badTimestampRow : List GoString :=
  [ascii "org,archive)/", ascii "2006010215040x", ascii "http://archive.org/", ascii "text/html",
   ascii "200", ascii "DIGEST", ascii "1234"]

/-- The calls `SetURL("archive.org")`, `SetResumptionKey(true, "k")`. -/
def resumptionOps : List Op :=
  [.SetURL (ascii "archive.org"), .SetResumptionKey true (ascii "k")]

/-- A response body: the label row, a single-field row, a row of eight fields whose
timestamp does not parse, and a second single-field row. -/
def cursorThenBadRow : List (List GoString) :=
  [labelRow, [ascii "first"], badTimestampRow ++ [ascii "extra"], [ascii "second"]]

/-- A response body: the label row, a well-formed row of eight fields, and two
single-field rows. -/
def goodRowThenCursors : List (List GoString) :=
  [labelRow, sevenFieldRow ++ [ascii "extra"], [ascii "first"], [ascii "second"]]

/-- The sole field of the last single-field row among `rows`, if there is one. -/
def lastCursor : List (List GoString) → Option GoString
  | [] => none
  | row :: rest =>
    match lastCursor rest with
    | some k => some k
    | none =>
      match row with
      | [k] => some k
      | _ => none

/-- The rows that do not consist of exactly one field. -/
def dropCursorRows (rows : List (List GoString)) : List (List GoString) :=
  rows.filter (fun r => decide (r.length ≠ 1))

/-- Two facts about the parameter store that every call maintains: a stored `output`
value is `json`, and with resumption mode off (`enabled = false`) no cursor is stored. -/
def Inv2P (p : Values) (enabled : Bool) : Prop :=
  (ascii "output" ∈ p.entries.map Prod.fst → p.Get (ascii "output") = ascii "json") ∧
  (enabled = false → p.Get (ascii "resumeKey") = ascii "")

/-- The facts `Inv2P` for the parameter store and the resumption flag of a configuration. -/
def Inv2 (cdx : CDXAPI) : Prop :=
  Inv2P cdx.params cdx.useResumptionKey

/-- The record that the fields of `sevenFieldRow` make. -/
def sevenFieldRecord : CDXResult :=
  { URLKey := ascii "org,archive)/", Timestamp := ⟨1136214245, 0, 0⟩,
    Original := ascii "http://archive.org/", MimeType := ascii "text/html", StatusCode := 200,
    Digest := ascii "DIGEST", Length := 1234,
    Data := { resp := none, original := ascii "http://archive.org/",
              timestamp := ⟨1136214245, 0, 0⟩, eof := false } }

/-- Go `t.Year()`: the year of the time in its location. -/
def Time.Year (t : Time) : Int :=
  (civilFromDays ((t.sec + t.offset) / 86400)).1

/-- Go `t.Before(u)`: the instant `t` is strictly earlier than the instant `u`. -/
def Time.Before (t u : Time) : Bool :=
  decide (t.sec < u.sec ∨ (t.sec = u.sec ∧ t.nsec < u.nsec))

/-- Go `t.Truncate(time.Second)`: the same time with the fraction of the second dropped. -/
def Time.truncateSecond (t : Time) : Time :=
  ⟨t.sec, 0, t.offset⟩

/-- The time 2006-01-02 15:04:05 UTC of `TestCDXAPI_TimeFilter`. -/
def testTimeFrom : Time := ⟨1136214245, 0, 0⟩

/-- The time 2007-01-02 15:04:05 UTC of `TestCDXAPI_TimeFilter`. -/
def testTimeTo : Time := ⟨1167750245, 0, 0⟩

/-- The first second of the year 10000, in UTC. -/
def year10000 : Time := ⟨253402300800, 0, 0⟩

/-- The Unix epoch as a time in a zone one hour east of UTC: 1970-01-01 01:00:00 +01:00. -/
def zonedEpoch : Time := ⟨0, 0, 3600⟩

/-! ## Fixtures for the target URL -/

/-- An environment in which `:` does not parse as a URL (Go reports a missing protocol
scheme), `ftp://archive.org` parses with the scheme `ftp`, and every other string
parses with an empty scheme. -/
def schemeEnv : Env :=
  ⟨fun _ => none,
   fun u => if u = ascii ":" then .error (.library (ascii "missing protocol scheme"))
     else if u = ascii "ftp://archive.org" then .ok (ascii "ftp") else .ok [],
   fun _ => .ok []⟩

/-! ## Reading a snapshot -/

/-- The error `io.EOF`. -/
def ioEOF : Error := .library (ascii "EOF")

/-- Go `resp.Body.Read(p)` for a buffer of `size` bytes, where `resp.Body` is what is
left to read: the count, the error and the bytes copied, and the response with the
rest of its body.  A body that fails yields its error, an exhausted body `io.EOF`. -/
def HTTPResponse.Read (resp : HTTPResponse) (size : Nat) :
    (Nat × Option Error × GoString) × HTTPResponse :=
  match resp.Body with
  | .error err => ((0, some err, []), resp)
  | .ok [] => ((0, some ioEOF, []), resp)
  | .ok (b :: bs) =>
    ((((b :: bs).take size).length, none, (b :: bs).take size),
      { resp with Body := .ok ((b :: bs).drop size) })

/-- What one call `Read(p)` on a content handle yields: the count and the error it
returns, the bytes copied into `p`, whether the call sent a request (`client.Do`), and
the handle after the call. -/
structure ReadResult where
  n : Nat
  err : Option Error
  data : GoString
  fetched : Bool
  reader : cdxResultReader
  deriving DecidableEq

/-- Method `Read` of `cdxResultReader` for a buffer of `size` bytes.  `newRequest` gives
the error of `http.NewRequest` for a URL, and `net` is what `client.Do` yields if this
call sends the request; the line printed to standard output is left out. -/
def cdxResultReader.Read (newRequest : GoString → Option Error) (dr : cdxResultReader)
    (net : Except Error HTTPResponse) (size : Nat) : ReadResult :=
  if dr.eof then ⟨0, some ioEOF, [], false, dr⟩
  else
    match dr.resp with
    | some resp =>
      let r := resp.Read size
      ⟨r.1.1, r.1.2.1, r.1.2.2, false, { dr with resp := some r.2 }⟩
    | none =>
      match newRequest (dataURL ++ ascii "/" ++ dr.timestamp.Format ++ ascii "/" ++ dr.original) with
      | some err => ⟨0, some err, [], false, dr⟩
      | none =>
        match net with
        | .error err => ⟨0, some err, [], true, { dr with eof := true }⟩
        | .ok resp =>
          if resp.StatusCode ≠ 200 then
            ⟨0, some .ErrorBadResponse, [], true, { dr with resp := some resp }⟩
          else
            let r := resp.Read size
            ⟨r.1.1, r.1.2.1, r.1.2.2, true, { dr with resp := some r.2 }⟩

/-- The number of requests sent by a sequence of `Read` calls on one handle; each call
comes with what the transport would answer it and with the size of its buffer. -/
def countFetches (newRequest : GoString → Option Error) (dr : cdxResultReader) :
    List (Except Error HTTPResponse × Nat) → Nat
  | [] => 0
  | (net, size) :: rest =>
    (if (dr.Read newRequest net size).fetched then 1 else 0) +
      countFetches newRequest (dr.Read newRequest net size).reader rest

/-- A content handle as `Perform` makes them, for the capture of `sevenFieldRow`. -/
def freshHandle : cdxResultReader :=
  { resp := none, original := ascii "http://archive.org/", timestamp := ⟨1136214245, 0, 0⟩,
    eof := false }

/-- A response with status 404 and the body `not found`. -/
def notFoundResponse : HTTPResponse :=
  ⟨404, .ok (ascii "not found")⟩

/-! ## Fixtures for the rows of a response -/

/-- The rows of a decoded body that count for `Perform`: those after row 0 that are
not empty. -/
def countedRows (splitBuf : List (List GoString)) : List (List GoString) :=
  (splitBuf.drop 1).filter (fun r => decide (r ≠ []))

/-- A data row of two fields. -/
def twoFieldRow : List GoString :=
  [ascii "org,archive)/", ascii "20060102150405"]

/-- A response with status 500 and an empty body. -/
def serverErrorResponse : HTTPResponse :=
  ⟨500, .ok []⟩

/-! ## Fixtures for the rewrite pass -/

/-- Calls whose arguments hold text that looks like synthetic keys followed by `=`: a
target, a filter pattern, a collapse directive and a resumption cursor. -/
def rewriteTestOps : List Op :=
  [.SetURL (ascii "archive.org/?filter1=a&collapse2=b"),
   .AddRegexFilter FieldOriginal (ascii "filter0=.*&collapse1=") false,
   .AddCollapsing FieldDigest 3,
   .SetResumptionKey true (ascii "collapse0=k&filter7=")]

/-! ## Theorems -/

/-- C1: the calls of `TestCDXAPI_buildURL` (target `archive.org`, collapse on length
with window 10, collapse on statuscode, negated filter on mimetype `text/html`, offset 1,
limit 1, match type host, time range 20060102150405..20070102150405, JSON output) give a
configuration for which `buildURL` returns no error and writes exactly the expected URL,
whatever the buffer held before. -/
theorem c1_buildURL_test_vector (env : Env)
    (hurl : env.urlParse (ascii "archive.org") = .ok (ascii ""))
    (hre : env.regexpCompile (ascii "text/html") = none) (urlDst : GoString) :
    timeParse (ascii "20060102150405") = .ok ⟨1136214245, 0, 0⟩ ∧
    timeParse (ascii "20070102150405") = .ok ⟨1167750245, 0, 0⟩ ∧
    (applyOps env CDXAPI.empty buildURLTestOps).buildURL urlDst =
      (none, ascii "https://web.archive.org/cdx/search/cdx?collapse=length%3A10&collapse=statuscode&filter=%21mimetype%3Atext%2Fhtml&from=20060102150405&limit=1&matchType=host&offset=1&output=json&to=20070102150405&url=archive.org") := by
  refine ⟨by decide!, by decide!, ?_⟩
  have h : applyOps env CDXAPI.empty buildURLTestOps =
      applyOps (fixedEnv []) CDXAPI.empty buildURLTestOps := by
    have e1 : (ascii "" : GoString) = [] := rfl
    simp only [applyOps, buildURLTestOps, List.foldl, applyOp, CDXAPI.SetURL, hurl,
      CDXAPI.AddRegexFilter, hre, fixedEnv, e1]
  rw [h]
  have hb : ∀ c : CDXAPI, c.params.Get (ascii "url") ≠ ascii "" →
      ∀ d1 d2, (c.buildURL d1) = (c.buildURL d2) := by
    intro c hc d1 d2
    simp [CDXAPI.buildURL, hc]
  rw [hb _ (by decide!) urlDst []]
  decide!

/-- Witness for C1 in an environment where `archive.org` parses and `text/html` compiles. -/
theorem c1_buildURL_test_vector_witness :
    timeParse (ascii "20060102150405") = .ok ⟨1136214245, 0, 0⟩ ∧
    timeParse (ascii "20070102150405") = .ok ⟨1167750245, 0, 0⟩ ∧
    (applyOps (fixedEnv []) CDXAPI.empty buildURLTestOps).buildURL (ascii "stale") =
      (none, ascii "https://web.archive.org/cdx/search/cdx?collapse=length%3A10&collapse=statuscode&filter=%21mimetype%3Atext%2Fhtml&from=20060102150405&limit=1&matchType=host&offset=1&output=json&to=20070102150405&url=archive.org") :=
  c1_buildURL_test_vector (fixedEnv []) rfl rfl (ascii "stale")

/-! ### Flags are untouched by queries -/

theorem decodeRows_flags (rows : List (List GoString)) :
    ∀ (cdx : CDXAPI) (result : List CDXResult),
      (decodeRows cdx result rows).2.usePagination = cdx.usePagination ∧
      (decodeRows cdx result rows).2.useResumptionKey = cdx.useResumptionKey := by
  induction rows with
  | nil => intro cdx result; simp [decodeRows]
  | cons row rest ih =>
    intro cdx result
    match row with
    | [] => simpa [decodeRows] using ih cdx result
    | [key] =>
      by_cases h : cdx.ResumptionKeyEnabled = true
      · simpa [decodeRows, h] using ih _ result
      · simpa [decodeRows, h] using ih cdx result
    | f0 :: f1 :: fs =>
      cases hrow : decodeRow (f0 :: f1 :: fs) with
      | error out => simp [decodeRows, hrow]
      | ok r => simpa [decodeRows, hrow] using ih cdx _

theorem rawPerform_flags (cdx : CDXAPI) (net : Except Error HTTPResponse) :
    (cdx.RawPerform net).2.usePagination = cdx.usePagination ∧
    (cdx.RawPerform net).2.useResumptionKey = cdx.useResumptionKey := by
  unfold CDXAPI.RawPerform
  split
  · simp
  · cases net with
    | error e => simp
    | ok resp => by_cases h : resp.StatusCode = 200 <;> simp [h]

theorem perform_flags (env : Env) (cdx : CDXAPI) (net : Except Error HTTPResponse) :
    (CDXAPI.Perform env cdx net).2.usePagination = cdx.usePagination ∧
    (CDXAPI.Perform env cdx net).2.useResumptionKey = cdx.useResumptionKey := by
  unfold CDXAPI.Perform
  simp only []
  generalize hc : (if (!decide (cdx.params.Get (ascii "output") = ascii "json")) = true then
      { cdx with params := cdx.params.Set (ascii "output") (ascii "json") } else cdx) = c1
  have h1 : c1.usePagination = cdx.usePagination ∧ c1.useResumptionKey = cdx.useResumptionKey := by
    subst hc; split <;> simp
  have h2 := rawPerform_flags c1 net
  rcases hr : c1.RawPerform net with ⟨r, c2⟩
  rw [hr] at h2
  simp only [] at h2
  cases r with
  | error e => simp only []; exact ⟨h2.1.trans h1.1, h2.2.trans h1.2⟩
  | ok qry =>
    simp only []
    cases hb : qry.resp.Body with
    | error e => simp only []; exact ⟨h2.1.trans h1.1, h2.2.trans h1.2⟩
    | ok qryRes =>
      simp only []
      cases hj : env.jsonUnmarshal qryRes with
      | error e => simp only []; exact ⟨h2.1.trans h1.1, h2.2.trans h1.2⟩
      | ok splitBuf =>
        simp only []
        have h3 := decodeRows_flags (splitBuf.drop 1) c2 []
        rcases hd : decodeRows c2 [] (List.drop 1 splitBuf) with ⟨o, c3⟩
        rw [hd] at h3
        simp only [] at h3
        have h4 : c3.usePagination = cdx.usePagination ∧
            c3.useResumptionKey = cdx.useResumptionKey :=
          ⟨h3.1.trans (h2.1.trans h1.1), h3.2.trans (h2.2.trans h1.2)⟩
        match o with
        | .panicked i n => exact h4
        | .returned (result, some err) => exact h4
        | .returned (result, none) =>
          simp only []
          split <;> simpa using h4

/-- The two mode flags are never both set after one more call. -/
theorem applyOp_exclusive (env : Env) (cdx : CDXAPI) (op : Op)
    (h : ¬ (cdx.usePagination = true ∧ cdx.useResumptionKey = true)) :
    ¬ ((applyOp env cdx op).usePagination = true ∧
       (applyOp env cdx op).useResumptionKey = true) := by
  cases op with
  | RawPerform net =>
    have := rawPerform_flags cdx net
    simp only [applyOp]; rw [this.1, this.2]; exact h
  | Perform net =>
    have := perform_flags env cdx net
    simp only [applyOp]; rw [this.1, this.2]; exact h
  | SetMatchType m => simp only [applyOp, CDXAPI.SetMatchType]; split <;> simpa using h
  | SetOutputFormat f =>
    simp only [applyOp, CDXAPI.SetOutputFormat]; split
    · simpa using h
    · split <;> simpa using h
  | SetURL url =>
    simp only [applyOp, CDXAPI.SetURL]; split
    · simpa using h
    · split <;> simpa using h
  | AddRegexFilter fld regex negate =>
    simp only [applyOp, CDXAPI.AddRegexFilter]; split
    · simpa using h
    · split <;> simpa using h
  | AddCollapsing fld n =>
    simp only [applyOp, CDXAPI.AddCollapsing]; split
    · simpa using h
    · split <;> simpa using h
  | SetResumptionKey enabled key =>
    simp only [applyOp, CDXAPI.SetResumptionKey]
    by_cases hp : cdx.usePagination = true
    · simp [hp]; simpa [hp] using h
    · cases enabled <;> simp [hp]
  | ResetResumptionKey =>
    simp only [applyOp, CDXAPI.ResetResumptionKey, CDXAPI.SetResumptionKey]
    by_cases hp : cdx.usePagination = true
    · simp [hp]; simpa [hp] using h
    · simp [hp]
  | SetPagination enabled page =>
    simp only [applyOp, CDXAPI.SetPagination]
    by_cases hr : cdx.useResumptionKey = true
    · simp [hr]; simpa [hr] using h
    · by_cases hpg : page < 0
      · simp [hr, hpg]
      · cases enabled <;> simp [hr, hpg]
  | ResetPagination =>
    simp only [applyOp, CDXAPI.ResetPagination, CDXAPI.SetPagination]
    by_cases hr : cdx.useResumptionKey = true
    · simp [hr]; simpa [hr] using h
    · simp [hr]
  | SetLimit n => simp only [applyOp, CDXAPI.SetLimit]; split <;> simpa using h
  | SetOffset n => simp only [applyOp, CDXAPI.SetOffset]; split <;> simpa using h
  | SetTimeFilter a b => simp only [applyOp, CDXAPI.SetTimeFilter]; split <;> simpa using h
  | SetGzip b => simp only [applyOp, CDXAPI.SetGzip]; split <;> simpa using h
  | SetAPIKey k => simpa [applyOp, CDXAPI.SetAPIKey] using h
  | ResetMatchType => simpa [applyOp, CDXAPI.ResetMatchType] using h
  | ResetOutputFormat => simpa [applyOp, CDXAPI.ResetOutputFormat] using h
  | ResetLimit => simpa [applyOp, CDXAPI.ResetLimit] using h
  | ResetRegexFilters => simpa [applyOp, CDXAPI.ResetRegexFilters] using h
  | ResetTimeFilter => simpa [applyOp, CDXAPI.ResetTimeFilter] using h
  | ResetCollapsing => simpa [applyOp, CDXAPI.ResetCollapsing] using h
  | ResetGzip => simpa [applyOp, CDXAPI.ResetGzip] using h
  | ResetOffset => simpa [applyOp, CDXAPI.ResetOffset] using h

theorem applyOps_exclusive (env : Env) (ops : List Op) :
    ∀ cdx : CDXAPI, ¬ (cdx.usePagination = true ∧ cdx.useResumptionKey = true) →
      ¬ ((applyOps env cdx ops).usePagination = true ∧
         (applyOps env cdx ops).useResumptionKey = true) := by
  induction ops with
  | nil => intro cdx h; simpa [applyOps] using h
  | cons op rest ih =>
    intro cdx h
    have := ih (applyOp env cdx op) (applyOp_exclusive env cdx op h)
    simpa [applyOps] using this

theorem newCDXAPI_flags (env : Env) (url : GoString) (c0 : CDXAPI)
    (h : NewCDXAPI env url = .ok c0) : c0.usePagination = false ∧ c0.useResumptionKey = false := by
  unfold NewCDXAPI CDXAPI.SetURL at h
  cases hp : env.urlParse url with
  | error e => simp [hp] at h
  | ok scheme =>
    simp only [hp] at h
    by_cases hs : (!decide (scheme = ascii "http" ∨ scheme = ascii "https" ∨ scheme = ascii "")) = true
    · rw [if_pos hs] at h; simp at h
    · rw [if_neg hs] at h
      simp only [Except.ok.injEq] at h
      subst h; simp [CDXAPI.empty]

/-- C5: in every configuration obtained from a successful `NewCDXAPI` by any sequence
of builder calls (setters, adders, resets) and `RawPerform`/`Perform` calls,
`PaginationEnabled()` and `ResumptionKeyEnabled()` are not both true. -/
theorem c5_pagination_resumption_exclusive (env : Env) (url : GoString) (c0 : CDXAPI)
    (ops : List Op) (h : NewCDXAPI env url = .ok c0) :
    ¬ ((applyOps env c0 ops).PaginationEnabled = true ∧
       (applyOps env c0 ops).ResumptionKeyEnabled = true) := by
  have h0 := newCDXAPI_flags env url c0 h
  exact applyOps_exclusive env ops c0 (by simp [h0.1])

/-- Witness for C5: a configuration is created, resumption is switched on, pagination is
then requested (and refused), and a query is performed. -/
theorem c5_pagination_resumption_exclusive_witness :
    NewCDXAPI (fixedEnv []) (ascii "archive.org") =
        .ok (applyOps (fixedEnv []) CDXAPI.empty [.SetURL (ascii "archive.org")]) ∧
    ¬ ((applyOps (fixedEnv [])
          (applyOps (fixedEnv []) CDXAPI.empty [.SetURL (ascii "archive.org")])
          [.SetResumptionKey true (ascii "k"), .SetPagination true 3,
           .Perform (.ok ⟨200, .ok []⟩)]).PaginationEnabled = true ∧
       (applyOps (fixedEnv [])
          (applyOps (fixedEnv []) CDXAPI.empty [.SetURL (ascii "archive.org")])
          [.SetResumptionKey true (ascii "k"), .SetPagination true 3,
           .Perform (.ok ⟨200, .ok []⟩)]).ResumptionKeyEnabled = true) :=
  ⟨by decide!, c5_pagination_resumption_exclusive (fixedEnv []) (ascii "archive.org") _ _
    (by decide!)⟩

/-- C6: after a successful `SetResumptionKey(true, k)`, `SetPagination(true, p)` returns
`ErrorPaginationResumption`, and after a successful `SetPagination(true, p)`,
`SetResumptionKey(true, k)` returns `ErrorPaginationResumption`; the failed call leaves
the whole configuration (flags, page and stored parameters included) as it was.  This
holds for every page `p`, negative ones included. -/
theorem c6_conflict_rejected_and_state_kept (cdx : CDXAPI) (k : GoString) (p : Int) :
    ((cdx.SetResumptionKey true k).1 = none →
      (cdx.SetResumptionKey true k).2.SetPagination true p =
        (some .ErrorPaginationResumption, (cdx.SetResumptionKey true k).2)) ∧
    ((cdx.SetPagination true p).1 = none →
      (cdx.SetPagination true p).2.SetResumptionKey true k =
        (some .ErrorPaginationResumption, (cdx.SetPagination true p).2)) := by
  constructor
  · intro h
    by_cases hp : cdx.usePagination = true
    · simp [CDXAPI.SetResumptionKey, hp] at h
    · simp [CDXAPI.SetResumptionKey, CDXAPI.SetPagination, hp]
  · intro h
    by_cases hr : cdx.useResumptionKey = true
    · simp [CDXAPI.SetPagination, hr] at h
    · by_cases hpg : p < 0
      · simp [CDXAPI.SetPagination, hr, hpg] at h
      · simp [CDXAPI.SetResumptionKey, CDXAPI.SetPagination, hr, hpg]

/-- Witness for C6 on the empty configuration, cursor `key` and page 1: both first calls
succeed, both second calls are refused. -/
theorem c6_conflict_rejected_and_state_kept_witness :
    (CDXAPI.empty.SetResumptionKey true (ascii "key")).1 = none ∧
    (CDXAPI.empty.SetPagination true 1).1 = none ∧
    (CDXAPI.empty.SetResumptionKey true (ascii "key")).2.SetPagination true 1 =
      (some .ErrorPaginationResumption, (CDXAPI.empty.SetResumptionKey true (ascii "key")).2) ∧
    (CDXAPI.empty.SetPagination true 1).2.SetResumptionKey true (ascii "key") =
      (some .ErrorPaginationResumption, (CDXAPI.empty.SetPagination true 1).2) :=
  ⟨by decide!, by decide!,
   (c6_conflict_rejected_and_state_kept CDXAPI.empty (ascii "key") 1).1 (by decide!),
   (c6_conflict_rejected_and_state_kept CDXAPI.empty (ascii "key") 1).2 (by decide!)⟩

/-- C7: whenever one of the builder calls `SetURL`, `SetMatchType`, `SetOutputFormat`,
`SetLimit`, `SetOffset`, `AddRegexFilter`, `AddCollapsing`, `SetTimeFilter`,
`SetResumptionKey`, `SetPagination` (or `SetAPIKey`, `SetGzip`) returns an error, the
configuration after the call equals the configuration before it. -/
theorem c7_failed_setter_changes_nothing (env : Env) (cdx : CDXAPI) (op : Op) (e : Error)
    (h : opError env cdx op = some e) : applyOp env cdx op = cdx := by
  cases op with
  | SetAPIKey k => simp [opError, CDXAPI.SetAPIKey] at h
  | SetMatchType m =>
    simp only [opError, applyOp, CDXAPI.SetMatchType] at h ⊢
    cases hn : matchTypes m with
    | none => rfl
    | some name => simp [hn] at h
  | SetOutputFormat f =>
    simp only [opError, applyOp, CDXAPI.SetOutputFormat] at h ⊢
    cases hn : outputFormats f with
    | none => rfl
    | some name =>
      rw [hn] at h
      by_cases hf : f = OutputFormatCDX
      · simp [if_pos hf] at h
      · simp [if_neg hf] at h
  | SetURL url =>
    simp only [opError, applyOp, CDXAPI.SetURL] at h ⊢
    cases hs : env.urlParse url with
    | error err => rfl
    | ok scheme =>
      by_cases hn : (!decide (scheme = ascii "http" ∨ scheme = ascii "https" ∨
          scheme = ascii "")) = true
      · simp only [if_pos hn]
      · simp only [hs, if_neg hn] at h
        simp at h
  | SetLimit n =>
    simp only [opError, applyOp, CDXAPI.SetLimit] at h ⊢
    by_cases hn : n ≤ 0
    · simp only [if_pos hn]
    · simp [if_neg hn] at h
  | SetOffset n =>
    simp only [opError, applyOp, CDXAPI.SetOffset] at h ⊢
    by_cases hn : n ≤ 0
    · simp only [if_pos hn]
    · simp [if_neg hn] at h
  | AddRegexFilter fld regex negate =>
    simp only [opError, applyOp, CDXAPI.AddRegexFilter] at h ⊢
    cases hn : fields fld with
    | none => rfl
    | some name =>
      cases hc : env.regexpCompile regex with
      | some err => rfl
      | none => simp [hn, hc] at h
  | AddCollapsing fld n =>
    simp only [opError, applyOp, CDXAPI.AddCollapsing] at h ⊢
    cases hn : fields fld with
    | none => rfl
    | some name =>
      by_cases hc : n < 0
      · simp only [if_pos hc]
      · simp [hn, if_neg hc] at h
  | SetTimeFilter a b =>
    simp only [opError, applyOp, CDXAPI.SetTimeFilter] at h ⊢
    by_cases hn : b.Sub a < 0
    · simp only [if_pos hn]
    · simp [if_neg hn] at h
  | SetGzip b =>
    simp only [opError, CDXAPI.SetGzip] at h
    split at h <;> simp at h
  | SetResumptionKey enabled key =>
    simp only [opError, applyOp, CDXAPI.SetResumptionKey] at h ⊢
    by_cases hp : cdx.usePagination = true
    · simp [hp]
    · cases enabled <;> simp [hp] at h
  | SetPagination enabled page =>
    simp only [opError, applyOp, CDXAPI.SetPagination] at h ⊢
    by_cases hr : cdx.useResumptionKey = true
    · simp [hr]
    · by_cases hpg : page < 0
      · simp [hr, hpg]
      · cases enabled <;> simp [hr, hpg] at h
  | RawPerform net => simp [opError] at h
  | Perform net => simp [opError] at h
  | ResetMatchType => simp [opError] at h
  | ResetOutputFormat => simp [opError] at h
  | ResetLimit => simp [opError] at h
  | ResetRegexFilters => simp [opError] at h
  | ResetTimeFilter => simp [opError] at h
  | ResetCollapsing => simp [opError] at h
  | ResetGzip => simp [opError] at h
  | ResetOffset => simp [opError] at h
  | ResetResumptionKey => simp [opError] at h
  | ResetPagination => simp [opError] at h

/-- Witness for C7: `SetLimit(0)` on the configuration of the test is refused with
`ErrorInvalidNumber` and changes nothing. -/
theorem c7_failed_setter_changes_nothing_witness :
    opError (fixedEnv []) (applyOps (fixedEnv []) CDXAPI.empty buildURLTestOps) (.SetLimit 0) =
      some .ErrorInvalidNumber ∧
    applyOp (fixedEnv []) (applyOps (fixedEnv []) CDXAPI.empty buildURLTestOps) (.SetLimit 0) =
      applyOps (fixedEnv []) CDXAPI.empty buildURLTestOps :=
  ⟨by decide!, c7_failed_setter_changes_nothing (fixedEnv []) _ (.SetLimit 0)
    .ErrorInvalidNumber (by decide!)⟩

/-- C10: `buildURL` returns `ErrorInvalidURL` exactly when the value stored under `url`
is empty (or absent), and returns no error otherwise; on the error the buffer is left
as it was. -/
theorem c10_buildURL_error_iff_no_target (cdx : CDXAPI) (urlDst : GoString) :
    (cdx.buildURL urlDst).1 = (if cdx.URL = ascii "" then some .ErrorInvalidURL else none) ∧
    ((cdx.buildURL urlDst).1 = some .ErrorInvalidURL ↔ cdx.URL = ascii "") ∧
    (cdx.URL = ascii "" → (cdx.buildURL urlDst).2 = urlDst) := by
  by_cases h : cdx.params.Get (ascii "url") = ascii ""
  · simp [CDXAPI.buildURL, CDXAPI.URL, h]
  · simp [CDXAPI.buildURL, CDXAPI.URL, h]

/-- Witness for C10: the empty configuration has no target and is refused; the
configuration of the test has one and is accepted. -/
theorem c10_buildURL_error_iff_no_target_witness :
    CDXAPI.empty.URL = ascii "" ∧ (CDXAPI.empty.buildURL (ascii "old")).2 = ascii "old" ∧
    (CDXAPI.empty.buildURL (ascii "old")).1 = some .ErrorInvalidURL ∧
    ((applyOps (fixedEnv []) CDXAPI.empty buildURLTestOps).buildURL []).1 = none :=
  ⟨by decide!, (c10_buildURL_error_iff_no_target CDXAPI.empty (ascii "old")).2.2 (by decide!),
   (c10_buildURL_error_iff_no_target CDXAPI.empty (ascii "old")).2.1.mpr (by decide!),
   by decide!⟩

/-- C2 (code defect): eleven successive `AddCollapsing` calls with windows 1, 2, ..., 11
store their values under `collapse0`, ..., `collapse10`; `Encode` sorts the keys as
strings, so `collapse10` comes before `collapse2` and the eleventh value is written
third: the `collapse=` pairs are not in the order of the calls. -/
theorem c2_eleventh_collapse_written_third :
    (applyOps (fixedEnv []) CDXAPI.empty
        (.SetURL (ascii "archive.org") :: elevenCollapses)).buildURL [] =
      (none, ascii "https://web.archive.org/cdx/search/cdx?collapse=length%3A1&collapse=length%3A2&collapse=length%3A11&collapse=length%3A3&collapse=length%3A4&collapse=length%3A5&collapse=length%3A6&collapse=length%3A7&collapse=length%3A8&collapse=length%3A9&collapse=length%3A10&url=archive.org") := by
  decide!

/-- C3 (code defect): a data row with exactly seven fields never yields a record.  The
loop reads `splitBuf[i][7]`, which does not exist in a seven-field row, so the call
panics with an index out of range at the first such row, whatever the row holds. -/
theorem c3_seven_field_row_panics (cdx : CDXAPI) (result : List CDXResult)
    (row : List GoString) (rest : List (List GoString)) (h : row.length = 7) :
    (decodeRows cdx result (row :: rest)).1 = .panicked 7 7 := by
  match row, h with
  | [f0, f1, f2, f3, f4, f5, f6], _ =>
    by_cases h4 : f4 = ascii "-" <;> simp [decodeRows, decodeRow, h4]

/-- Witness for C3: a response with the label row and one well-formed seven-field row
makes `Perform` panic instead of returning one record. -/
theorem c3_seven_field_row_panics_witness :
    sevenFieldRow.length = 7 ∧
    (decodeRows CDXAPI.empty [] [sevenFieldRow]).1 = .panicked 7 7 ∧
    (CDXAPI.Perform (fixedEnv [labelRow, sevenFieldRow])
        (applyOps (fixedEnv []) CDXAPI.empty [.SetURL (ascii "archive.org")])
        (.ok ⟨200, .ok []⟩)).1 = .panicked 7 7 :=
  ⟨by decide!, c3_seven_field_row_panics CDXAPI.empty [] sevenFieldRow [] (by decide!),
   by decide!⟩

/-- C4 (code defect): the seven-field row of the specification with `-` as status code
and as length makes `Perform` panic (index 7 of a seven-field row); and in a row long
enough to pass that access, a length of `-` is not replaced by `0` but handed to
`strconv.Atoi`, whose error ends the call. -/
theorem c4_sentinel_row_not_decoded :
    (CDXAPI.Perform (fixedEnv [labelRow, sentinelRow])
        (applyOps (fixedEnv []) CDXAPI.empty [.SetURL (ascii "archive.org")])
        (.ok ⟨200, .ok []⟩)).1 = .panicked 7 7 ∧
    decodeRow (sentinelRow ++ [ascii "extra"]) =
      .error (.returned ([], some (.library (ascii "strconv.Atoi")))) := by
  decide!

/-! ### Bytes and strings -/

/-- A property of bytes holds for all of them when it holds for the values 0..255. -/
theorem byte_all (p : Byte → Bool)
    (h : (List.range 256).all (fun n => p (Fin.ofNat n)) = true) : ∀ c : Byte, p c = true := by
  intro c
  rw [List.all_eq_true] at h
  have hc := h c.val (List.mem_range.mpr c.isLt)
  have e : (Fin.ofNat c.val : Byte) = c := by
    apply Fin.ext
    simp only [Fin.ofNat, Nat.mod_eq_of_lt c.isLt]
  rwa [e] at hc

theorem strLE_refl (a : GoString) : strLE a a = true := by
  induction a with
  | nil => rfl
  | cons x xs ih => simp [strLE, ih]

theorem strLE_total (a b : GoString) : strLE a b = true ∨ strLE b a = true := by
  induction a generalizing b with
  | nil => left; rfl
  | cons x xs ih =>
    cases b with
    | nil => right; rfl
    | cons y ys =>
      simp only [strLE]
      by_cases h1 : x < y
      · left; simp [h1]
      · by_cases h2 : y < x
        · right; simp [h2]
        · simp only [h1, h2, if_false]
          exact ih ys

theorem strLE_trans (a b c : GoString) (hab : strLE a b = true) (hbc : strLE b c = true) :
    strLE a c = true := by
  induction a generalizing b c with
  | nil => rfl
  | cons x xs ih =>
    cases b with
    | nil => simp [strLE] at hab
    | cons y ys =>
      cases c with
      | nil => simp [strLE] at hbc
      | cons z zs =>
        simp only [strLE] at hab hbc ⊢
        by_cases hxy : x < y
        · by_cases hyz : y < z
          · have : x < z := lt_trans hxy hyz
            simp [this]
          · by_cases hzy : z < y
            · simp [hyz, hzy] at hbc
            · have hyz' : y = z := le_antisymm (not_lt.mp hzy) (not_lt.mp hyz)
              subst hyz'
              simp [hxy]
        · by_cases hyx : y < x
          · simp [hxy, hyx] at hab
          · have hxy' : x = y := le_antisymm (not_lt.mp hyx) (not_lt.mp hxy)
            subst hxy'
            simp only [hxy, if_false] at hab
            by_cases hxz : x < z
            · simp [hxz]
            · by_cases hzx : z < x
              · simp [hxz, hzx] at hbc
              · simp only [hxz, hzx, if_false] at hbc ⊢
                exact ih ys zs hab hbc

theorem strLE_append_right (a t : GoString) : strLE a (a ++ t) = true := by
  induction a with
  | nil => rfl
  | cons x xs ih => simp [strLE, ih]

theorem sorted_sortedKeys (v : Values) : List.Sorted StrLE v.sortedKeys := by
  haveI : IsTotal GoString StrLE := ⟨strLE_total⟩
  haveI : IsTrans GoString StrLE := ⟨strLE_trans⟩
  exact List.sorted_insertionSort StrLE _

theorem perm_sortedKeys (v : Values) : List.Perm v.sortedKeys (v.entries.map Prod.fst) :=
  List.perm_insertionSort _ _

/-! ### Decimal numerals -/

theorem digitByte_val (n : Nat) : (digitByte n).val = 48 + n % 10 := by
  simp only [digitByte, Fin.ofNat]
  omega

theorem isDigit_digitByte (n : Nat) : isDigit (digitByte n) = true := by
  simp only [isDigit, digitByte_val, decide_eq_true_eq]
  omega

theorem decDigits_all_digits (fuel n : Nat) : ∀ b ∈ decDigits fuel n, isDigit b = true := by
  induction fuel generalizing n with
  | zero => simp [decDigits]
  | succ f ih =>
    intro b hb
    simp only [decDigits] at hb
    split at hb
    · simp only [List.mem_singleton] at hb; subst hb; exact isDigit_digitByte n
    · rcases List.mem_append.mp hb with h | h
      · exact ih _ b h
      · simp only [List.mem_singleton] at h; subst h; exact isDigit_digitByte n

theorem decDigits_ne_nil (fuel n : Nat) : decDigits (fuel + 1) n ≠ [] := by
  simp only [decDigits]
  split <;> simp

theorem natToDec_all_digits (n : Nat) : ∀ b ∈ natToDec n, isDigit b = true :=
  decDigits_all_digits _ _

theorem natToDec_ne_nil (n : Nat) : natToDec n ≠ [] :=
  decDigits_ne_nil _ _

theorem digitsValue_append (a b : GoString) (acc : Nat) :
    digitsValue (a ++ b) acc = (digitsValue a acc).bind (digitsValue b) := by
  induction a generalizing acc with
  | nil => simp [digitsValue]
  | cons x xs ih =>
    simp only [List.cons_append, digitsValue]
    split
    · exact ih _
    · rfl

theorem digitsValue_decDigits (fuel n : Nat) (h : n < fuel) :
    digitsValue (decDigits fuel n) 0 = some n := by
  induction fuel generalizing n with
  | zero => omega
  | succ f ih =>
    simp only [decDigits]
    split
    · rename_i h10
      simp only [digitsValue, isDigit_digitByte, if_true, digitByte_val]
      congr 1; omega
    · rename_i h10
      rw [digitsValue_append, ih (n / 10) (by omega)]
      simp only [Option.some_bind, digitsValue, isDigit_digitByte, if_true, digitByte_val]
      congr 1; omega

theorem natToDec_injective (m n : Nat) (h : natToDec m = natToDec n) : m = n := by
  have hm := digitsValue_decDigits (m + 1) m (by omega)
  have hn := digitsValue_decDigits (n + 1) n (by omega)
  unfold natToDec at h
  rw [h, hn] at hm
  exact (Option.some.inj hm).symm

/-! ### The parameter store -/

theorem mem_keys_setEntry (l : List (GoString × GoString)) (k v x : GoString) :
    x ∈ (setEntry l k v).map Prod.fst ↔ x = k ∨ x ∈ l.map Prod.fst := by
  induction l with
  | nil => simp [setEntry]
  | cons e rest ih =>
    obtain ⟨k0, x0⟩ := e
    simp only [setEntry]
    by_cases h : k0 = k
    · subst h; simp
    · simp only [h, if_false, List.map_cons, List.mem_cons, ih]
      tauto

theorem nodup_keys_setEntry (l : List (GoString × GoString)) (k v : GoString)
    (h : (l.map Prod.fst).Nodup) : ((setEntry l k v).map Prod.fst).Nodup := by
  induction l with
  | nil => simp [setEntry]
  | cons e rest ih =>
    obtain ⟨k0, x0⟩ := e
    simp only [List.map_cons, List.nodup_cons] at h
    simp only [setEntry]
    by_cases hk : k0 = k
    · simp only [hk, if_true, List.map_cons, List.nodup_cons]
      subst hk
      exact h
    · simp only [hk, if_false, List.map_cons, List.nodup_cons, mem_keys_setEntry]
      refine ⟨fun hh => ?_, ih h.2⟩
      rcases hh with h1 | h1
      · first | exact hk h1 | exact h1.elim
      · exact h.1 h1

theorem getEntry_setEntry_same (l : List (GoString × GoString)) (k v : GoString) :
    getEntry (setEntry l k v) k = v := by
  induction l with
  | nil => simp [setEntry, getEntry]
  | cons e rest ih =>
    obtain ⟨k0, x0⟩ := e
    simp only [setEntry]
    by_cases hk : k0 = k
    · simp [hk, getEntry]
    · simp [hk, getEntry, ih]

theorem getEntry_setEntry_ne (l : List (GoString × GoString)) (k v k1 : GoString)
    (hne : k1 ≠ k) : getEntry (setEntry l k v) k1 = getEntry l k1 := by
  induction l with
  | nil => simp [setEntry, getEntry, Ne.symm hne]
  | cons e rest ih =>
    obtain ⟨k0, x0⟩ := e
    simp only [setEntry]
    by_cases hk : k0 = k
    · subst hk
      simp [getEntry, Ne.symm hne]
    · simp only [hk, if_false, getEntry, ih]

theorem mem_keys_delEntry (l : List (GoString × GoString)) (k x : GoString) :
    x ∈ (delEntry l k).map Prod.fst ↔ x ≠ k ∧ x ∈ l.map Prod.fst := by
  induction l with
  | nil => simp [delEntry]
  | cons e rest ih =>
    obtain ⟨k0, x0⟩ := e
    simp only [delEntry]
    by_cases h : k0 = k
    · subst h
      simp only [if_true, ih, List.map_cons, List.mem_cons]
      constructor
      · rintro ⟨h1, h2⟩; exact ⟨h1, Or.inr h2⟩
      · rintro ⟨h1, h2 | h2⟩
        · exact absurd h2 h1
        · exact ⟨h1, h2⟩
    · simp only [h, if_false, List.map_cons, List.mem_cons, ih]
      constructor
      · rintro (h1 | ⟨h1, h2⟩)
        · subst h1; exact ⟨h, Or.inl rfl⟩
        · exact ⟨h1, Or.inr h2⟩
      · rintro ⟨h1, h2 | h2⟩
        · exact Or.inl h2
        · exact Or.inr ⟨h1, h2⟩

theorem nodup_keys_delEntry (l : List (GoString × GoString)) (k : GoString)
    (h : (l.map Prod.fst).Nodup) : ((delEntry l k).map Prod.fst).Nodup := by
  induction l with
  | nil => simp [delEntry]
  | cons e rest ih =>
    obtain ⟨k0, x0⟩ := e
    simp only [List.map_cons, List.nodup_cons] at h
    simp only [delEntry]
    by_cases hk : k0 = k
    · simp only [hk, if_true]; exact ih h.2
    · simp only [hk, if_false, List.map_cons, List.nodup_cons, mem_keys_delEntry]
      exact ⟨fun hh => h.1 hh.2, ih h.2⟩

theorem getEntry_delEntry_ne (l : List (GoString × GoString)) (k k1 : GoString)
    (hne : k1 ≠ k) : getEntry (delEntry l k) k1 = getEntry l k1 := by
  induction l with
  | nil => simp [delEntry, getEntry]
  | cons e rest ih =>
    obtain ⟨k0, x0⟩ := e
    simp only [delEntry]
    by_cases hk : k0 = k
    · subst hk
      simp [getEntry, Ne.symm hne, ih]
    · simp only [hk, if_false, getEntry, ih]

theorem mem_keys_foldl_del (ks : List GoString) (p : Values) (x : GoString) :
    x ∈ (ks.foldl Values.Del p).entries.map Prod.fst ↔ x ∉ ks ∧ x ∈ p.entries.map Prod.fst := by
  induction ks generalizing p with
  | nil => simp
  | cons k rest ih =>
    simp only [List.foldl_cons, ih, Values.Del, mem_keys_delEntry, List.mem_cons, not_or]
    tauto

theorem nodup_keys_foldl_del (ks : List GoString) (p : Values)
    (h : (p.entries.map Prod.fst).Nodup) :
    ((ks.foldl Values.Del p).entries.map Prod.fst).Nodup := by
  induction ks generalizing p with
  | nil => simpa using h
  | cons k rest ih =>
    simp only [List.foldl_cons]
    exact ih _ (nodup_keys_delEntry _ _ h)

theorem get_foldl_del (ks : List GoString) (p : Values) (k1 : GoString) (h : k1 ∉ ks) :
    (ks.foldl Values.Del p).Get k1 = p.Get k1 := by
  induction ks generalizing p with
  | nil => rfl
  | cons k rest ih =>
    simp only [List.mem_cons, not_or] at h
    simp only [List.foldl_cons]
    rw [ih _ h.2]
    exact getEntry_delEntry_ne _ _ _ h.1

/-! ### Synthetic keys -/

theorem ascii_filter : ascii "filter" = [102, 105, 108, 116, 101, 114] := by decide

theorem ascii_collapse : ascii "collapse" = [99, 111, 108, 108, 97, 112, 115, 101] := by decide

theorem stripLiteral_eq_some (p s t : GoString) : stripLiteral p s = some t ↔ s = p ++ t := by
  induction p generalizing s with
  | nil => simp [stripLiteral, eq_comm]
  | cons x xs ih =>
    cases s with
    | nil => simp [stripLiteral]
    | cons y ys =>
      simp only [stripLiteral, List.cons_append, List.cons.injEq]
      by_cases h : x = y
      · subst h; simp [ih]
      · simp [h, Ne.symm h]

theorem stripLiteral_append (p t : GoString) : stripLiteral p (p ++ t) = some t :=
  (stripLiteral_eq_some p _ t).mpr rfl

theorem synthKey_iff (name k : GoString) :
    synthKey name k = true ↔
      ∃ ds, ds ≠ [] ∧ (∀ d ∈ ds, isDigit d = true) ∧ k = name ++ ds := by
  unfold synthKey
  constructor
  · intro h
    cases hs : stripLiteral name k with
    | none => simp [hs] at h
    | some t =>
      cases t with
      | nil => simp [hs] at h
      | cons d ds =>
        simp only [hs, List.all_eq_true] at h
        exact ⟨d :: ds, by simp, h, (stripLiteral_eq_some _ _ _).mp hs⟩
  · rintro ⟨ds, hne, hd, rfl⟩
    rw [stripLiteral_append]
    cases ds with
    | nil => exact absurd rfl hne
    | cons d ds => simpa [List.all_eq_true] using hd

theorem synthKey_synthName (name : GoString) (i : Nat) : synthKey name (synthName name i) = true :=
  (synthKey_iff _ _).mpr ⟨natToDec i, natToDec_ne_nil i, natToDec_all_digits i, rfl⟩

theorem synthName_injective (name : GoString) (i j : Nat)
    (h : synthName name i = synthName name j) : i = j :=
  natToDec_injective i j (List.append_cancel_left h)

theorem fixed_not_synth_filter : ∀ k ∈ fixedKeys, synthKey (ascii "filter") k = false := by
  have h : fixedKeys.all (fun k => !synthKey (ascii "filter") k) = true := by decide!
  intro k hk
  simpa using List.all_eq_true.mp h k hk

theorem fixed_not_synth_collapse : ∀ k ∈ fixedKeys, synthKey (ascii "collapse") k = false := by
  have h : fixedKeys.all (fun k => !synthKey (ascii "collapse") k) = true := by decide!
  intro k hk
  simpa using List.all_eq_true.mp h k hk

theorem synthKey_head_ne (x y : Byte) (xs ys : GoString) (h : x ≠ y) :
    synthKey (x :: xs) (y :: ys) = false := by
  simp [synthKey, stripLiteral, h]

theorem synth_filter_not_collapse (k : GoString) (h : synthKey (ascii "filter") k = true) :
    synthKey (ascii "collapse") k = false := by
  obtain ⟨ds, -, -, rfl⟩ := (synthKey_iff _ _).mp h
  rw [ascii_filter, ascii_collapse]
  exact synthKey_head_ne 99 102 _ _ (by decide)

theorem synth_collapse_not_filter (k : GoString) (h : synthKey (ascii "collapse") k = true) :
    synthKey (ascii "filter") k = false := by
  obtain ⟨ds, -, -, rfl⟩ := (synthKey_iff _ _).mp h
  rw [ascii_filter, ascii_collapse]
  exact synthKey_head_ne 102 99 _ _ (by decide)

theorem synthName_filter_ne_collapse (i j : Nat) :
    synthName (ascii "filter") i ≠ synthName (ascii "collapse") j := by
  intro h
  have h1 := synthKey_synthName (ascii "filter") i
  rw [h, synth_collapse_not_filter _ (synthKey_synthName _ j)] at h1
  exact Bool.false_ne_true h1

theorem mem_synth_list (name : GoString) (n : Nat) (k : GoString)
    (h : k ∈ (List.range n).map (synthName name)) : synthKey name k = true := by
  obtain ⟨i, -, rfl⟩ := List.mem_map.mp h
  exact synthKey_synthName name i

theorem nodup_synth_list (name : GoString) (n : Nat) :
    ((List.range n).map (synthName name)).Nodup :=
  (List.nodup_range n).map (fun i j h => synthName_injective name i j h)

theorem synthName_not_mem (name : GoString) (n : Nat) :
    synthName name n ∉ (List.range n).map (synthName name) := by
  intro h
  obtain ⟨i, hi, he⟩ := List.mem_map.mp h
  have := synthName_injective name i n he
  simp only [List.mem_range] at hi
  omega

/-! ### The shape of the parameter store is kept by every call -/

theorem inv_init : Inv ⟨[]⟩ [] [] [] [] :=
  ⟨rfl, rfl, rfl, rfl, by simp, by simp, by simp, by simp⟩

theorem inv_len_filter {p : Values} {fk ck fs cs : List GoString} (h : Inv p fk ck fs cs) :
    fk.length = fs.length := by
  have := h.keysF
  rw [this]; simp

theorem inv_len_collapse {p : Values} {fk ck fs cs : List GoString} (h : Inv p fk ck fs cs) :
    ck.length = cs.length := by
  have := h.keysC
  rw [this]; simp

theorem inv_synth_filter {p : Values} {fk ck fs cs : List GoString} (h : Inv p fk ck fs cs)
    (k : GoString) (hk : k ∈ fk) : synthKey (ascii "filter") k = true := by
  rw [h.keysF] at hk
  exact mem_synth_list _ _ _ hk

theorem inv_synth_collapse {p : Values} {fk ck fs cs : List GoString} (h : Inv p fk ck fs cs)
    (k : GoString) (hk : k ∈ ck) : synthKey (ascii "collapse") k = true := by
  rw [h.keysC] at hk
  exact mem_synth_list _ _ _ hk

theorem inv_fixed_not_listed {p : Values} {fk ck fs cs : List GoString} (h : Inv p fk ck fs cs)
    (k : GoString) (hk : k ∈ fixedKeys) : k ∉ fk ∧ k ∉ ck := by
  constructor
  · intro hm
    have := inv_synth_filter h k hm
    rw [fixed_not_synth_filter k hk] at this
    exact Bool.false_ne_true this
  · intro hm
    have := inv_synth_collapse h k hm
    rw [fixed_not_synth_collapse k hk] at this
    exact Bool.false_ne_true this

theorem map_get_congr (ks : List GoString) (p q : Values)
    (h : ∀ k ∈ ks, q.Get k = p.Get k) : ks.map q.Get = ks.map p.Get :=
  List.map_congr_left h

theorem inv_set_fixed {p : Values} {fk ck fs cs : List GoString} (h : Inv p fk ck fs cs)
    (k v : GoString) (hk : k ∈ fixedKeys) : Inv (p.Set k v) fk ck fs cs := by
  have hn := inv_fixed_not_listed h k hk
  refine ⟨h.keysF, h.keysC, ?_, ?_, nodup_keys_setEntry _ _ _ h.nodup, ?_, ?_, ?_⟩
  · rw [← h.valsF]
    apply map_get_congr
    intro k1 hk1
    exact getEntry_setEntry_ne _ _ _ _ (fun e => hn.1 (e ▸ hk1))
  · rw [← h.valsC]
    apply map_get_congr
    intro k1 hk1
    exact getEntry_setEntry_ne _ _ _ _ (fun e => hn.2 (e ▸ hk1))
  · intro k1 hk1
    rcases (mem_keys_setEntry _ _ _ _).mp hk1 with e | hm
    · exact Or.inl (e ▸ hk)
    · exact h.dom k1 hm
  · intro k1 hk1
    exact (mem_keys_setEntry _ _ _ _).mpr (Or.inr (h.memF k1 hk1))
  · intro k1 hk1
    exact (mem_keys_setEntry _ _ _ _).mpr (Or.inr (h.memC k1 hk1))

theorem inv_del_fixed {p : Values} {fk ck fs cs : List GoString} (h : Inv p fk ck fs cs)
    (k : GoString) (hk : k ∈ fixedKeys) : Inv (p.Del k) fk ck fs cs := by
  have hn := inv_fixed_not_listed h k hk
  refine ⟨h.keysF, h.keysC, ?_, ?_, nodup_keys_delEntry _ _ h.nodup, ?_, ?_, ?_⟩
  · rw [← h.valsF]
    apply map_get_congr
    intro k1 hk1
    exact getEntry_delEntry_ne _ _ _ (fun e => hn.1 (e ▸ hk1))
  · rw [← h.valsC]
    apply map_get_congr
    intro k1 hk1
    exact getEntry_delEntry_ne _ _ _ (fun e => hn.2 (e ▸ hk1))
  · intro k1 hk1
    exact h.dom k1 ((mem_keys_delEntry _ _ _).mp hk1).2
  · intro k1 hk1
    exact (mem_keys_delEntry _ _ _).mpr ⟨fun e => hn.1 (e ▸ hk1), h.memF k1 hk1⟩
  · intro k1 hk1
    exact (mem_keys_delEntry _ _ _).mpr ⟨fun e => hn.2 (e ▸ hk1), h.memC k1 hk1⟩

theorem inv_fixedUpd {p q : Values} {fk ck fs cs : List GoString} (hu : FixedUpd p q)
    (h : Inv p fk ck fs cs) : Inv q fk ck fs cs := by
  induction hu with
  | refl => exact h
  | set q k v _ hk ih => exact inv_set_fixed ih k v hk
  | del q k _ hk ih => exact inv_del_fixed ih k hk

theorem fixedUpd_trans {p q r : Values} (h1 : FixedUpd p q) (h2 : FixedUpd q r) :
    FixedUpd p r := by
  induction h2 with
  | refl => exact h1
  | set r k v _ hk ih => exact FixedUpd.set _ _ k v ih hk
  | del r k _ hk ih => exact FixedUpd.del _ _ k ih hk

theorem inv_add_filter {p : Values} {fk ck fs cs : List GoString} (h : Inv p fk ck fs cs)
    (v : GoString) :
    Inv (p.Set (ascii "filter" ++ natToDec fk.length) v)
      (fk ++ [ascii "filter" ++ natToDec fk.length]) ck (fs ++ [v]) cs := by
  have hlen := inv_len_filter h
  have hkey : ascii "filter" ++ natToDec fk.length = synthName (ascii "filter") fs.length := by
    rw [hlen]; rfl
  rw [hkey]
  have hfresh : synthName (ascii "filter") fs.length ∉ fk := by
    rw [h.keysF]; exact synthName_not_mem _ _
  have hfreshC : synthName (ascii "filter") fs.length ∉ ck := by
    intro hm
    have := inv_synth_collapse h _ hm
    rw [synth_filter_not_collapse _ (synthKey_synthName _ _)] at this
    exact Bool.false_ne_true this
  refine ⟨?_, h.keysC, ?_, ?_, nodup_keys_setEntry _ _ _ h.nodup, ?_, ?_, ?_⟩
  · rw [List.length_append, List.length_singleton, List.range_succ, List.map_append, ← h.keysF]
    rfl
  · rw [List.map_append, List.map_singleton]
    congr 1
    · refine Eq.trans (map_get_congr _ _ _ ?_) h.valsF
      intro k1 hk1
      exact getEntry_setEntry_ne _ _ _ _ (fun e => hfresh (e ▸ hk1))
    · simp only [Values.Get, Values.Set, getEntry_setEntry_same]
  · refine Eq.trans (map_get_congr _ _ _ ?_) h.valsC
    intro k1 hk1
    exact getEntry_setEntry_ne _ _ _ _ (fun e => hfreshC (e ▸ hk1))
  · intro k1 hk1
    rcases (mem_keys_setEntry _ _ _ _).mp hk1 with e | hm
    · exact Or.inr (Or.inl (by simp [e]))
    · rcases h.dom k1 hm with h1 | h1 | h1
      · exact Or.inl h1
      · exact Or.inr (Or.inl (List.mem_append_left _ h1))
      · exact Or.inr (Or.inr h1)
  · intro k1 hk1
    rcases List.mem_append.mp hk1 with h1 | h1
    · exact (mem_keys_setEntry _ _ _ _).mpr (Or.inr (h.memF k1 h1))
    · exact (mem_keys_setEntry _ _ _ _).mpr (Or.inl (List.mem_singleton.mp h1))
  · intro k1 hk1
    exact (mem_keys_setEntry _ _ _ _).mpr (Or.inr (h.memC k1 hk1))

theorem inv_add_collapse {p : Values} {fk ck fs cs : List GoString} (h : Inv p fk ck fs cs)
    (v : GoString) :
    Inv (p.Set (ascii "collapse" ++ natToDec ck.length) v)
      fk (ck ++ [ascii "collapse" ++ natToDec ck.length]) fs (cs ++ [v]) := by
  have hlen := inv_len_collapse h
  have hkey : ascii "collapse" ++ natToDec ck.length = synthName (ascii "collapse") cs.length := by
    rw [hlen]; rfl
  rw [hkey]
  have hfresh : synthName (ascii "collapse") cs.length ∉ ck := by
    rw [h.keysC]; exact synthName_not_mem _ _
  have hfreshF : synthName (ascii "collapse") cs.length ∉ fk := by
    intro hm
    have := inv_synth_filter h _ hm
    rw [synth_collapse_not_filter _ (synthKey_synthName _ _)] at this
    exact Bool.false_ne_true this
  refine ⟨h.keysF, ?_, ?_, ?_, nodup_keys_setEntry _ _ _ h.nodup, ?_, ?_, ?_⟩
  · rw [List.length_append, List.length_singleton, List.range_succ, List.map_append, ← h.keysC]
    rfl
  · refine Eq.trans (map_get_congr _ _ _ ?_) h.valsF
    intro k1 hk1
    exact getEntry_setEntry_ne _ _ _ _ (fun e => hfreshF (e ▸ hk1))
  · rw [List.map_append, List.map_singleton]
    congr 1
    · refine Eq.trans (map_get_congr _ _ _ ?_) h.valsC
      intro k1 hk1
      exact getEntry_setEntry_ne _ _ _ _ (fun e => hfresh (e ▸ hk1))
    · simp only [Values.Get, Values.Set, getEntry_setEntry_same]
  · intro k1 hk1
    rcases (mem_keys_setEntry _ _ _ _).mp hk1 with e | hm
    · exact Or.inr (Or.inr (by simp [e]))
    · rcases h.dom k1 hm with h1 | h1 | h1
      · exact Or.inl h1
      · exact Or.inr (Or.inl h1)
      · exact Or.inr (Or.inr (List.mem_append_left _ h1))
  · intro k1 hk1
    exact (mem_keys_setEntry _ _ _ _).mpr (Or.inr (h.memF k1 hk1))
  · intro k1 hk1
    rcases List.mem_append.mp hk1 with h1 | h1
    · exact (mem_keys_setEntry _ _ _ _).mpr (Or.inr (h.memC k1 h1))
    · exact (mem_keys_setEntry _ _ _ _).mpr (Or.inl (List.mem_singleton.mp h1))

theorem inv_reset_filter {p : Values} {fk ck fs cs : List GoString} (h : Inv p fk ck fs cs) :
    Inv (fk.foldl Values.Del p) [] ck [] cs := by
  have hdisj : ∀ k ∈ ck, k ∉ fk := by
    intro k hk hm
    have := inv_synth_filter h k hm
    rw [synth_collapse_not_filter _ (inv_synth_collapse h k hk)] at this
    exact Bool.false_ne_true this
  refine ⟨rfl, h.keysC, rfl, ?_, nodup_keys_foldl_del _ _ h.nodup, ?_, by simp, ?_⟩
  · rw [← h.valsC]
    apply map_get_congr
    intro k1 hk1
    exact get_foldl_del _ _ _ (hdisj k1 hk1)
  · intro k1 hk1
    obtain ⟨hn, hm⟩ := (mem_keys_foldl_del _ _ _).mp hk1
    rcases h.dom k1 hm with h1 | h1 | h1
    · exact Or.inl h1
    · exact absurd h1 hn
    · exact Or.inr (Or.inr h1)
  · intro k1 hk1
    exact (mem_keys_foldl_del _ _ _).mpr ⟨hdisj k1 hk1, h.memC k1 hk1⟩

theorem inv_reset_collapse {p : Values} {fk ck fs cs : List GoString} (h : Inv p fk ck fs cs) :
    Inv (ck.foldl Values.Del p) fk [] fs [] := by
  have hdisj : ∀ k ∈ fk, k ∉ ck := by
    intro k hk hm
    have := inv_synth_collapse h k hm
    rw [synth_filter_not_collapse _ (inv_synth_filter h k hk)] at this
    exact Bool.false_ne_true this
  refine ⟨h.keysF, rfl, ?_, rfl, nodup_keys_foldl_del _ _ h.nodup, ?_, ?_, by simp⟩
  · rw [← h.valsF]
    apply map_get_congr
    intro k1 hk1
    exact get_foldl_del _ _ _ (hdisj k1 hk1)
  · intro k1 hk1
    obtain ⟨hn, hm⟩ := (mem_keys_foldl_del _ _ _).mp hk1
    rcases h.dom k1 hm with h1 | h1 | h1
    · exact Or.inl h1
    · exact Or.inr (Or.inl h1)
    · exact absurd h1 hn
  · intro k1 hk1
    exact (mem_keys_foldl_del _ _ _).mpr ⟨hdisj k1 hk1, h.memF k1 hk1⟩

/-! ### Calls that touch fixed keys only -/

theorem frame_refl (cdx : CDXAPI) : Frame cdx cdx :=
  ⟨rfl, rfl, FixedUpd.refl _⟩

theorem frame_trans {a b c : CDXAPI} (h1 : Frame a b) (h2 : Frame b c) : Frame a c :=
  ⟨h2.1.trans h1.1, h2.2.1.trans h1.2.1, fixedUpd_trans h1.2.2 h2.2.2⟩

theorem frame_of_params (cdx cdx1 : CDXAPI) (h1 : cdx1.regFilterKeys = cdx.regFilterKeys)
    (h2 : cdx1.collapsingKeys = cdx.collapsingKeys) (h3 : cdx1.params = cdx.params) :
    Frame cdx cdx1 :=
  ⟨h1, h2, h3 ▸ FixedUpd.refl _⟩

theorem frame_set (cdx cdx1 : CDXAPI) (k v : GoString) (hk : k ∈ fixedKeys)
    (h1 : cdx1.regFilterKeys = cdx.regFilterKeys)
    (h2 : cdx1.collapsingKeys = cdx.collapsingKeys) (h3 : cdx1.params = cdx.params.Set k v) :
    Frame cdx cdx1 :=
  ⟨h1, h2, h3 ▸ FixedUpd.set _ _ k v (FixedUpd.refl _) hk⟩

theorem frame_del (cdx cdx1 : CDXAPI) (k : GoString) (hk : k ∈ fixedKeys)
    (h1 : cdx1.regFilterKeys = cdx.regFilterKeys)
    (h2 : cdx1.collapsingKeys = cdx.collapsingKeys) (h3 : cdx1.params = cdx.params.Del k) :
    Frame cdx cdx1 :=
  ⟨h1, h2, h3 ▸ FixedUpd.del _ _ k (FixedUpd.refl _) hk⟩

theorem frame_set2 (cdx cdx1 : CDXAPI) (k v k2 v2 : GoString) (hk : k ∈ fixedKeys)
    (hk2 : k2 ∈ fixedKeys) (h1 : cdx1.regFilterKeys = cdx.regFilterKeys)
    (h2 : cdx1.collapsingKeys = cdx.collapsingKeys)
    (h3 : cdx1.params = (cdx.params.Set k v).Set k2 v2) : Frame cdx cdx1 :=
  ⟨h1, h2, h3 ▸ FixedUpd.set _ _ k2 v2 (FixedUpd.set _ _ k v (FixedUpd.refl _) hk) hk2⟩

theorem frame_del2 (cdx cdx1 : CDXAPI) (k k2 : GoString) (hk : k ∈ fixedKeys)
    (hk2 : k2 ∈ fixedKeys) (h1 : cdx1.regFilterKeys = cdx.regFilterKeys)
    (h2 : cdx1.collapsingKeys = cdx.collapsingKeys)
    (h3 : cdx1.params = (cdx.params.Del k).Del k2) : Frame cdx cdx1 :=
  ⟨h1, h2, h3 ▸ FixedUpd.del _ _ k2 (FixedUpd.del _ _ k (FixedUpd.refl _) hk) hk2⟩

theorem frame_decodeRows (rows : List (List GoString)) :
    ∀ (cdx : CDXAPI) (result : List CDXResult), Frame cdx (decodeRows cdx result rows).2 := by
  induction rows with
  | nil => intro cdx result; exact frame_refl cdx
  | cons row rest ih =>
    intro cdx result
    match row with
    | [] => simpa [decodeRows] using ih cdx result
    | [key] =>
      by_cases h : cdx.ResumptionKeyEnabled = true
      · simp only [decodeRows, h, if_true]
        exact frame_trans
          (frame_set cdx { cdx with params := cdx.params.Set (ascii "resumeKey") key }
            (ascii "resumeKey") key (by decide) rfl rfl rfl)
          (ih _ result)
      · simpa [decodeRows, h] using ih cdx result
    | f0 :: f1 :: fs =>
      cases hrow : decodeRow (f0 :: f1 :: fs) with
      | error out => simp only [decodeRows, hrow]; exact frame_refl cdx
      | ok r => simpa [decodeRows, hrow] using ih cdx _

theorem frame_rawPerform (cdx : CDXAPI) (net : Except Error HTTPResponse) :
    Frame cdx (cdx.RawPerform net).2 := by
  unfold CDXAPI.RawPerform
  split
  · exact frame_of_params _ _ rfl rfl rfl
  · cases net with
    | error e => exact frame_of_params _ _ rfl rfl rfl
    | ok resp =>
      by_cases h : resp.StatusCode = 200
      · simp only [h, ne_eq, not_true_eq_false, if_false]
        exact frame_of_params _ _ rfl rfl rfl
      · simp only [ne_eq, h, not_false_eq_true, if_true]
        exact frame_of_params _ _ rfl rfl rfl

theorem frame_perform (env : Env) (cdx : CDXAPI) (net : Except Error HTTPResponse) :
    Frame cdx (CDXAPI.Perform env cdx net).2 := by
  unfold CDXAPI.Perform
  simp only []
  generalize hc : (if (!decide (cdx.params.Get (ascii "output") = ascii "json")) = true then
      { cdx with params := cdx.params.Set (ascii "output") (ascii "json") } else cdx) = c1
  have h1 : Frame cdx c1 := by
    subst hc
    split
    · exact frame_set cdx { cdx with params := cdx.params.Set (ascii "output") (ascii "json") }
        (ascii "output") (ascii "json") (by decide) rfl rfl rfl
    · exact frame_refl cdx
  have h2 := frame_rawPerform c1 net
  rcases hr : c1.RawPerform net with ⟨r, c2⟩
  rw [hr] at h2
  simp only [] at h2
  have h12 := frame_trans h1 h2
  cases r with
  | error e => exact h12
  | ok qry =>
    simp only []
    cases hb : qry.resp.Body with
    | error e => exact h12
    | ok qryRes =>
      simp only []
      cases hj : env.jsonUnmarshal qryRes with
      | error e => exact h12
      | ok splitBuf =>
        simp only []
        have h3 := frame_decodeRows (splitBuf.drop 1) c2 []
        rcases hd : decodeRows c2 [] (List.drop 1 splitBuf) with ⟨o, c3⟩
        rw [hd] at h3
        simp only [] at h3
        have h4 := frame_trans h12 h3
        match o with
        | .panicked i n => exact h4
        | .returned (result, some err) => exact h4
        | .returned (result, none) =>
          simp only []
          split
          · exact frame_trans h4
              (frame_del c3 { c3 with params := c3.params.Del (ascii "output") }
                (ascii "output") (by decide) rfl rfl rfl)
          · exact h4

theorem inv_frame {cdx cdx1 : CDXAPI} {fs cs : List GoString} (hf : Frame cdx cdx1)
    (h : Inv cdx.params cdx.regFilterKeys cdx.collapsingKeys fs cs) :
    Inv cdx1.params cdx1.regFilterKeys cdx1.collapsingKeys fs cs := by
  rw [hf.1, hf.2.1]
  exact inv_fixedUpd hf.2.2 h

/-- Every call keeps the shape of the parameter store, with the lists of added values
updated as `stepFilters` and `stepCollapses` say. -/
theorem applyOp_inv (env : Env) (cdx : CDXAPI) (op : Op) (fs cs : List GoString)
    (h : Inv cdx.params cdx.regFilterKeys cdx.collapsingKeys fs cs) :
    Inv (applyOp env cdx op).params (applyOp env cdx op).regFilterKeys
      (applyOp env cdx op).collapsingKeys (stepFilters env cdx fs op)
      (stepCollapses cdx cs op) := by
  cases op with
  | AddRegexFilter fld regex negate =>
    simp only [applyOp, stepFilters, stepCollapses, CDXAPI.AddRegexFilter]
    cases hn : fields fld with
    | none => exact h
    | some name =>
      cases hc : env.regexpCompile regex with
      | some err => exact h
      | none => exact inv_add_filter h _
  | AddCollapsing fld n =>
    simp only [applyOp, stepFilters, stepCollapses, CDXAPI.AddCollapsing]
    cases hn : fields fld with
    | none => exact h
    | some name =>
      by_cases hc : n < 0
      · simp only [if_pos hc]; exact h
      · simp only [if_neg hc]; exact inv_add_collapse h _
  | ResetRegexFilters =>
    simp only [applyOp, stepFilters, stepCollapses, CDXAPI.ResetRegexFilters]
    exact inv_reset_filter h
  | ResetCollapsing =>
    simp only [applyOp, stepFilters, stepCollapses, CDXAPI.ResetCollapsing]
    exact inv_reset_collapse h
  | RawPerform net => exact inv_frame (frame_rawPerform cdx net) h
  | Perform net => exact inv_frame (frame_perform env cdx net) h
  | SetAPIKey k => exact inv_frame (frame_of_params _ _ rfl rfl rfl) h
  | SetMatchType m =>
    simp only [applyOp, stepFilters, stepCollapses, CDXAPI.SetMatchType]
    cases hn : matchTypes m with
    | none => exact h
    | some name => exact inv_set_fixed h _ _ (by decide)
  | ResetMatchType => exact inv_set_fixed h _ _ (by decide)
  | SetOutputFormat f =>
    simp only [applyOp, stepFilters, stepCollapses, CDXAPI.SetOutputFormat]
    cases hn : outputFormats f with
    | none => exact h
    | some name =>
      by_cases hf : f = OutputFormatCDX
      · simp only [if_pos hf]; exact inv_del_fixed h _ (by decide)
      · simp only [if_neg hf]; exact inv_set_fixed h _ _ (by decide)
  | ResetOutputFormat => exact inv_del_fixed h _ (by decide)
  | SetURL url =>
    simp only [applyOp, stepFilters, stepCollapses, CDXAPI.SetURL]
    cases hs : env.urlParse url with
    | error err => exact h
    | ok scheme =>
      by_cases hn : (!decide (scheme = ascii "http" ∨ scheme = ascii "https" ∨
          scheme = ascii "")) = true
      · simp only [if_pos hn]; exact h
      · simp only [if_neg hn]; exact inv_set_fixed h _ _ (by decide)
  | SetLimit n =>
    simp only [applyOp, stepFilters, stepCollapses, CDXAPI.SetLimit]
    by_cases hn : n ≤ 0
    · simp only [if_pos hn]; exact h
    · simp only [if_neg hn]; exact inv_set_fixed h _ _ (by decide)
  | ResetLimit => exact inv_del_fixed h _ (by decide)
  | SetTimeFilter a b =>
    simp only [applyOp, stepFilters, stepCollapses, CDXAPI.SetTimeFilter]
    by_cases hn : b.Sub a < 0
    · simp only [if_pos hn]; exact h
    · simp only [if_neg hn]
      exact inv_set_fixed (inv_set_fixed h _ _ (by decide)) _ _ (by decide)
  | ResetTimeFilter => exact inv_del_fixed (inv_del_fixed h _ (by decide)) _ (by decide)
  | SetGzip b =>
    simp only [applyOp, stepFilters, stepCollapses, CDXAPI.SetGzip]
    cases b with
    | true => exact inv_del_fixed h _ (by decide)
    | false => exact inv_set_fixed h _ _ (by decide)
  | ResetGzip => exact inv_del_fixed h _ (by decide)
  | SetOffset n =>
    simp only [applyOp, stepFilters, stepCollapses, CDXAPI.SetOffset]
    by_cases hn : n ≤ 0
    · simp only [if_pos hn]; exact h
    · simp only [if_neg hn]; exact inv_set_fixed h _ _ (by decide)
  | ResetOffset => exact inv_del_fixed h _ (by decide)
  | SetResumptionKey enabled key =>
    simp only [applyOp, stepFilters, stepCollapses, CDXAPI.SetResumptionKey]
    by_cases hp : cdx.usePagination = true
    · simp only [if_pos hp]; exact h
    · simp only [if_neg hp]
      cases enabled with
      | true => exact inv_set_fixed (inv_set_fixed h _ _ (by decide)) _ _ (by decide)
      | false => exact inv_del_fixed (inv_del_fixed h _ (by decide)) _ (by decide)
  | ResetResumptionKey =>
    simp only [applyOp, stepFilters, stepCollapses, CDXAPI.ResetResumptionKey,
      CDXAPI.SetResumptionKey]
    by_cases hp : cdx.usePagination = true
    · simp only [if_pos hp]; exact h
    · simp only [if_neg hp]
      exact inv_del_fixed (inv_del_fixed h _ (by decide)) _ (by decide)
  | SetPagination enabled page =>
    simp only [applyOp, stepFilters, stepCollapses, CDXAPI.SetPagination]
    by_cases hr : cdx.useResumptionKey = true
    · simp only [if_pos hr]; exact h
    · simp only [if_neg hr]
      by_cases hpg : page < 0
      · simp only [if_pos hpg]; exact h
      · simp only [if_neg hpg]
        cases enabled with
        | true => exact inv_set_fixed h _ _ (by decide)
        | false => exact inv_del_fixed h _ (by decide)
  | ResetPagination =>
    simp only [applyOp, stepFilters, stepCollapses, CDXAPI.ResetPagination,
      CDXAPI.SetPagination]
    by_cases hr : cdx.useResumptionKey = true
    · simp only [if_pos hr]; exact h
    · simp only [if_neg hr]
      exact inv_del_fixed h _ (by decide)

theorem applyOps_inv (env : Env) (ops : List Op) :
    ∀ (cdx : CDXAPI) (fs cs : List GoString),
      Inv cdx.params cdx.regFilterKeys cdx.collapsingKeys fs cs →
      Inv (applyOps env cdx ops).params (applyOps env cdx ops).regFilterKeys
        (applyOps env cdx ops).collapsingKeys (addedFilters env cdx fs ops)
        (addedCollapses env cdx cs ops) := by
  induction ops with
  | nil => intro cdx fs cs h; exact h
  | cons op rest ih =>
    intro cdx fs cs h
    have := ih _ _ _ (applyOp_inv env cdx op fs cs h)
    simpa [applyOps, addedFilters, addedCollapses] using this

theorem reachable_inv (env : Env) (ops : List Op) :
    Inv (applyOps env CDXAPI.empty ops).params (applyOps env CDXAPI.empty ops).regFilterKeys
      (applyOps env CDXAPI.empty ops).collapsingKeys (addedFilters env CDXAPI.empty [] ops)
      (addedCollapses env CDXAPI.empty [] ops) :=
  applyOps_inv env ops CDXAPI.empty [] [] inv_init

/-! ### The rewrite pass on a joined list of pairs -/

theorem takeWhile_sep (p : Byte → Bool) (a r : GoString) (x : Byte)
    (ha : ∀ b ∈ a, p b = true) (hx : p x = false) : (a ++ x :: r).takeWhile p = a := by
  induction a with
  | nil => simp [List.takeWhile, hx]
  | cons c cs ih =>
    have hc : p c = true := ha c (List.mem_cons_self _ _)
    rw [List.cons_append, List.takeWhile_cons_of_pos hc,
      ih (fun b hb => ha b (List.mem_cons_of_mem _ hb))]

theorem dropWhile_sep (p : Byte → Bool) (a r : GoString) (x : Byte)
    (ha : ∀ b ∈ a, p b = true) (hx : p x = false) : (a ++ x :: r).dropWhile p = x :: r := by
  induction a with
  | nil => simp [List.dropWhile, hx]
  | cons c cs ih =>
    have hc : p c = true := ha c (List.mem_cons_self _ _)
    rw [List.cons_append, List.dropWhile_cons_of_pos hc,
      ih (fun b hb => ha b (List.mem_cons_of_mem _ hb))]

theorem dropWhile_all (p : Byte → Bool) (a : GoString) (ha : ∀ b ∈ a, p b = true) :
    a.dropWhile p = [] := by
  induction a with
  | nil => rfl
  | cons c cs ih =>
    have hc : p c = true := ha c (List.mem_cons_self _ _)
    rw [List.dropWhile_cons_of_pos hc]
    exact ih (fun b hb => ha b (List.mem_cons_of_mem _ hb))

theorem isDigit_notSep : ∀ c : Byte, isDigit c = true → notSep c = true := by
  have h := byte_all (fun c => !isDigit c || notSep c) (by decide!)
  intro c hc
  have := h c
  simpa [hc] using this

theorem notSep_61 : notSep 61 = false := by decide

theorem notSep_38 : notSep 38 = false := by decide

theorem isDigit_61 : isDigit 61 = false := by decide

/-- A match at the start of `s` reads a synthetic key followed by `=`. -/
theorem matchKeyAt_some (name s : GoString) (n : Nat) (h : matchKeyAt name s = some n) :
    ∃ ds r, ds ≠ [] ∧ (∀ d ∈ ds, isDigit d = true) ∧ s = name ++ ds ++ 61 :: r ∧
      n = name.length + ds.length + 1 := by
  unfold matchKeyAt at h
  cases hs : stripLiteral name s with
  | none => simp [hs] at h
  | some t =>
    simp only [hs] at h
    have htd := List.takeWhile_append_dropWhile isDigit t
    cases htw : t.takeWhile isDigit with
    | nil => simp [htw] at h
    | cons d ds =>
      cases hdw : t.dropWhile isDigit with
      | nil => simp [htw, hdw] at h
      | cons c r =>
        simp only [htw, hdw] at h
        by_cases hc : c = 61
        · subst hc
          simp only [if_true, Option.some.injEq] at h
          refine ⟨d :: ds, r, by simp, ?_, ?_, ?_⟩
          · intro b hb
            rw [← htw] at hb
            exact (List.mem_takeWhile_imp hb)
          · rw [(stripLiteral_eq_some _ _ _).mp hs, ← htd, htw, hdw, List.append_assoc]
          · rw [← h]; simp only [List.length_cons]
        · simp [hc] at h

/-- A synthetic key followed by `=` is matched as a whole. -/
theorem matchKeyAt_synth (name ds r : GoString) (hne : ds ≠ [])
    (hd : ∀ d ∈ ds, isDigit d = true) :
    matchKeyAt name (name ++ ds ++ 61 :: r) = some (name.length + ds.length + 1) := by
  unfold matchKeyAt
  rw [List.append_assoc, stripLiteral_append]
  simp only [takeWhile_sep isDigit ds r 61 hd isDigit_61,
    dropWhile_sep isDigit ds r 61 hd isDigit_61]
  cases ds with
  | nil => exact absurd rfl hne
  | cons d ds => simp

theorem rewriteKeysAux_skip (name a b : GoString) :
    rewriteKeysAux name (a ++ b) a.length = rewriteKeysAux name b 0 := by
  induction a with
  | nil => rfl
  | cons c cs ih => simpa [rewriteKeysAux] using ih

theorem scan_copy (name s : GoString) (c : Byte) (h : matchKeyAt name (c :: s) = none) :
    rewriteKeysAux name (c :: s) 0 = c :: rewriteKeysAux name s 0 := by
  simp [rewriteKeysAux, h]

theorem scan_match (name s : GoString) (c : Byte) (n : Nat)
    (h : matchKeyAt name (c :: s) = some n) :
    rewriteKeysAux name (c :: s) 0 = name ++ 61 :: rewriteKeysAux name s (n - 1) := by
  have e61 : (ascii "=" : GoString) = [61] := by decide
  simp only [rewriteKeysAux, h, e61, List.append_assoc, List.singleton_append]

/-- What a match implies when the separators of the input are known: the input starts
with a synthetic key, and the first separator is `=`. -/
theorem match_shape (name s : GoString) (n : Nat) (hname : ∀ b ∈ name, notSep b = true)
    (h : matchKeyAt name s = some n) :
    synthKey name (s.takeWhile notSep) = true ∧ (s.dropWhile notSep).head? = some 61 := by
  obtain ⟨ds, r, hne, hd, hs, -⟩ := matchKeyAt_some name s n h
  have hk : ∀ b ∈ name ++ ds, notSep b = true := by
    intro b hb
    rcases List.mem_append.mp hb with h1 | h1
    · exact hname b h1
    · exact isDigit_notSep b (hd b h1)
  rw [hs, takeWhile_sep notSep _ r 61 hk notSep_61, dropWhile_sep notSep _ r 61 hk notSep_61]
  exact ⟨(synthKey_iff _ _).mpr ⟨ds, hne, hd, rfl⟩, rfl⟩

theorem no_match_of_not_synth (name s : GoString) (hname : ∀ b ∈ name, notSep b = true)
    (h : synthKey name (s.takeWhile notSep) = false) : matchKeyAt name s = none := by
  cases hm : matchKeyAt name s with
  | none => rfl
  | some n =>
    have := (match_shape name s n hname hm).1
    rw [h] at this
    exact absurd this Bool.false_ne_true

theorem no_match_of_sep (name s : GoString) (hname : ∀ b ∈ name, notSep b = true)
    (h : (s.dropWhile notSep).head? ≠ some 61) : matchKeyAt name s = none := by
  cases hm : matchKeyAt name s with
  | none => rfl
  | some n => exact absurd (match_shape name s n hname hm).2 h

theorem synthKey_nil (name : GoString) : synthKey name [] = false := by
  unfold synthKey
  cases name with
  | nil => rfl
  | cons x xs => rfl

theorem scan_value (name ev t : GoString) (hname : ∀ b ∈ name, notSep b = true)
    (hev : ∀ b ∈ ev, notSep b = true) (ht : PairEnd t) :
    rewriteKeysAux name (ev ++ t) 0 = ev ++ rewriteKeysAux name t 0 := by
  induction ev with
  | nil => rfl
  | cons c cs ih =>
    have hcs : ∀ b ∈ cs, notSep b = true := fun b hb => hev b (List.mem_cons_of_mem _ hb)
    rw [List.cons_append, scan_copy, ih hcs, List.cons_append]
    apply no_match_of_sep name _ hname
    rcases ht with rfl | ⟨t1, rfl⟩
    · rw [← List.cons_append, List.append_nil, dropWhile_all notSep _ hev]
      simp
    · rw [← List.cons_append, dropWhile_sep notSep _ t1 38 hev notSep_38]
      simp

theorem scan_sep (name s : GoString) (x : Byte) (hname : ∀ b ∈ name, notSep b = true)
    (hx : notSep x = false) :
    rewriteKeysAux name (x :: s) 0 = x :: rewriteKeysAux name s 0 := by
  apply scan_copy
  apply no_match_of_not_synth name _ hname
  simp [List.takeWhile, hx, synthKey_nil]

theorem scan_key_plain (name u r : GoString) (hname : ∀ b ∈ name, notSep b = true)
    (hu : ∀ b ∈ u, notSep b = true) (hs : noSynthSuffix name u = true) :
    rewriteKeysAux name (u ++ 61 :: r) 0 = u ++ rewriteKeysAux name (61 :: r) 0 := by
  induction u with
  | nil => rfl
  | cons c cs ih =>
    have hcs : ∀ b ∈ cs, notSep b = true := fun b hb => hu b (List.mem_cons_of_mem _ hb)
    simp only [noSynthSuffix, Bool.and_eq_true, Bool.not_eq_true'] at hs
    rw [List.cons_append, scan_copy, ih hcs hs.2, List.cons_append]
    apply no_match_of_not_synth name _ hname
    rw [← List.cons_append, takeWhile_sep notSep _ r 61 hu notSep_61]
    exact hs.1

/-- The rewrite pass on one pair `k=ev` followed by the end of the pair. -/
theorem scan_pair (name k ev t : GoString) (hne : name ≠ [])
    (hname : ∀ b ∈ name, notSep b = true) (hk : keyOK name k = true)
    (hev : ∀ b ∈ ev, notSep b = true) (ht : PairEnd t) :
    rewriteKeysAux name (k ++ 61 :: (ev ++ t)) 0 =
      rewriteKey name k ++ 61 :: (ev ++ rewriteKeysAux name t 0) := by
  simp only [keyOK, Bool.and_eq_true, List.all_eq_true] at hk
  obtain ⟨hksep, hsuf⟩ := hk
  by_cases hsyn : synthKey name k = true
  · obtain ⟨ds, hdne, hd, rfl⟩ := (synthKey_iff _ _).mp hsyn
    simp only [rewriteKey, hsyn, if_true]
    cases name with
    | nil => exact absurd rfl hne
    | cons x xs =>
      have hm := matchKeyAt_synth (x :: xs) ds (ev ++ t) hdne hd
      simp only [List.cons_append] at hm ⊢
      rw [scan_match _ _ _ _ hm]
      have hlen : (x :: xs).length + ds.length + 1 - 1 = (xs ++ ds ++ [61]).length := by
        simp only [List.length_cons, List.length_append, List.length_nil]
        omega
      rw [hlen]
      have happ : xs ++ ds ++ 61 :: (ev ++ t) = (xs ++ ds ++ [61]) ++ (ev ++ t) := by
        simp
      rw [happ, rewriteKeysAux_skip, scan_value _ _ _ hname hev ht]
      rfl
  · have hsyn2 : synthKey name k = false := by simpa using hsyn
    simp only [rewriteKey, hsyn2, Bool.false_eq_true, if_false]
    have hns : noSynthSuffix name k = true := by
      cases k with
      | nil => rfl
      | cons c cs =>
        simp only [noSynthSuffix, hsyn2, Bool.not_false, Bool.true_and]
        exact hsuf
    rw [scan_key_plain name k _ hname hksep hns, scan_sep name _ 61 hname notSep_61,
      scan_value _ _ _ hname hev ht]

/-- The rewrite pass on pairs joined by `&` rewrites each key and nothing else. -/
theorem rewrite_join (name : GoString) (hne : name ≠ []) (hname : ∀ b ∈ name, notSep b = true)
    (ps : List (GoString × GoString))
    (hps : ∀ p ∈ ps, keyOK name p.1 = true ∧ ∀ b ∈ p.2, notSep b = true) :
    rewriteKeys name (joinAmp (ps.map (fun p => p.1 ++ 61 :: p.2))) =
      joinAmp (ps.map (fun p => rewriteKey name p.1 ++ 61 :: p.2)) := by
  unfold rewriteKeys
  induction ps with
  | nil => rfl
  | cons p rest ih =>
    have hp := hps p (List.mem_cons_self _ _)
    have hrest : ∀ q ∈ rest, keyOK name q.1 = true ∧ ∀ b ∈ q.2, notSep b = true :=
      fun q hq => hps q (List.mem_cons_of_mem _ hq)
    cases rest with
    | nil =>
      simp only [List.map_cons, List.map_nil, joinAmp]
      have := scan_pair name p.1 p.2 [] hne hname hp.1 hp.2 (Or.inl rfl)
      simpa [rewriteKeysAux] using this
    | cons q rest1 =>
      have e38 : (ascii "&" : GoString) = [38] := by decide
      simp only [List.map_cons, joinAmp, e38] at ih ⊢
      have := scan_pair name p.1 p.2
        (38 :: joinAmp ((q.1 ++ 61 :: q.2) :: rest1.map (fun p => p.1 ++ 61 :: p.2)))
        hne hname hp.1 hp.2 (Or.inr ⟨_, rfl⟩)
      simp only [List.append_assoc, List.cons_append, List.nil_append, List.singleton_append]
        at this ⊢
      rw [this, scan_sep name _ 38 hname notSep_38, ih hrest]

/-! ### Stored keys and escaped values in the encoded string -/

theorem escape_notSep (s : GoString) : ∀ b ∈ QueryEscape s, notSep b = true := by
  have h := byte_all (fun c => (escapeByte c).all notSep) (by decide!)
  intro b hb
  simp only [QueryEscape, List.mem_flatMap] at hb
  obtain ⟨c, -, hc⟩ := hb
  exact List.all_eq_true.mp (h c) b hc

theorem escapeByte_digit : ∀ c : Byte, isDigit c = true → escapeByte c = [c] := by
  have h := byte_all (fun c => !isDigit c || decide (escapeByte c = [c])) (by decide!)
  intro c hc
  have := h c
  simpa [hc] using this

theorem queryEscape_append (a b : GoString) :
    QueryEscape (a ++ b) = QueryEscape a ++ QueryEscape b := by
  simp [QueryEscape, List.flatMap_append]

theorem queryEscape_digits (ds : GoString) (hd : ∀ d ∈ ds, isDigit d = true) :
    QueryEscape ds = ds := by
  induction ds with
  | nil => rfl
  | cons d ds ih =>
    have e : QueryEscape (d :: ds) = escapeByte d ++ QueryEscape ds := by
      simp [QueryEscape]
    rw [e, escapeByte_digit d (hd d (List.mem_cons_self _ _)),
      ih (fun b hb => hd b (List.mem_cons_of_mem _ hb))]
    rfl

theorem noSynthSuffix_of_head (x : Byte) (xs u : GoString) (h : ∀ b ∈ u, b ≠ x) :
    noSynthSuffix (x :: xs) u = true := by
  induction u with
  | nil => rfl
  | cons c cs ih =>
    simp only [noSynthSuffix, Bool.and_eq_true, Bool.not_eq_true']
    exact ⟨synthKey_head_ne x c xs cs (Ne.symm (h c (List.mem_cons_self _ _))),
      ih (fun b hb => h b (List.mem_cons_of_mem _ hb))⟩

theorem keyOK_synth (x y : Byte) (xs ys ds : GoString)
    (hsep0 : (y :: ys).all notSep = true) (hys0 : ys.all (fun b => b != x) = true)
    (hx : isDigit x = false)
    (hd : ∀ d ∈ ds, isDigit d = true) : keyOK (x :: xs) (y :: ys ++ ds) = true := by
  have hsep : ∀ b ∈ y :: ys, notSep b = true := List.all_eq_true.mp hsep0
  have hys : ∀ b ∈ ys, b ≠ x := fun b hb => by
    simpa using List.all_eq_true.mp hys0 b hb
  simp only [keyOK, Bool.and_eq_true, List.all_eq_true]
  constructor
  · intro b hb
    rcases List.mem_append.mp hb with h1 | h1
    · exact hsep b h1
    · exact isDigit_notSep b (hd b h1)
  · apply noSynthSuffix_of_head
    intro b hb
    simp only [List.cons_append, List.tail_cons] at hb
    rcases List.mem_append.mp hb with h1 | h1
    · exact hys b h1
    · intro e
      rw [e] at h1
      have := hd x h1
      rw [hx] at this
      exact Bool.false_ne_true this

theorem keyOK_filter_of_synth_filter (k : GoString) (h : synthKey (ascii "filter") k = true) :
    keyOK (ascii "filter") k = true ∧ keyOK (ascii "collapse") k = true := by
  obtain ⟨ds, -, hd, rfl⟩ := (synthKey_iff _ _).mp h
  rw [ascii_filter, ascii_collapse]
  exact ⟨keyOK_synth 102 102 _ _ ds (by decide) (by decide) (by decide) hd,
    keyOK_synth 99 102 _ _ ds (by decide) (by decide) (by decide) hd⟩

theorem keyOK_of_synth_collapse (k : GoString) (h : synthKey (ascii "collapse") k = true) :
    keyOK (ascii "filter") k = true ∧ keyOK (ascii "collapse") k = true := by
  obtain ⟨ds, -, hd, rfl⟩ := (synthKey_iff _ _).mp h
  rw [ascii_filter, ascii_collapse]
  exact ⟨keyOK_synth 102 99 _ _ ds (by decide) (by decide) (by decide) hd,
    keyOK_synth 99 99 _ _ ds (by decide) (by decide) (by decide) hd⟩

theorem keyOK_of_fixed (k : GoString) (h : k ∈ fixedKeys) :
    keyOK (ascii "filter") k = true ∧ keyOK (ascii "collapse") k = true := by
  have h1 : fixedKeys.all
      (fun k => keyOK (ascii "filter") k && keyOK (ascii "collapse") k) = true := by decide!
  simpa using List.all_eq_true.mp h1 k h

theorem keyOK_of_allowed (k : GoString) (h : Allowed k) :
    keyOK (ascii "filter") k = true ∧ keyOK (ascii "collapse") k = true := by
  rcases h with h | h | h
  · exact keyOK_of_fixed k h
  · exact keyOK_filter_of_synth_filter k h
  · exact keyOK_of_synth_collapse k h

theorem keyOK_filter_rewritten (k : GoString) (h : Allowed k) :
    keyOK (ascii "filter") (rewriteKey (ascii "collapse") k) = true := by
  unfold rewriteKey
  split
  · decide!
  · exact (keyOK_of_allowed k h).1

theorem escape_of_allowed (k : GoString) (h : Allowed k) : QueryEscape k = k := by
  rcases h with h | h | h
  · have h1 : fixedKeys.all (fun k => decide (QueryEscape k = k)) = true := by decide!
    simpa using List.all_eq_true.mp h1 k h
  · obtain ⟨ds, -, hd, rfl⟩ := (synthKey_iff _ _).mp h
    rw [queryEscape_append, queryEscape_digits ds hd]
    congr 1
  · obtain ⟨ds, -, hd, rfl⟩ := (synthKey_iff _ _).mp h
    rw [queryEscape_append, queryEscape_digits ds hd]
    congr 1

theorem allowed_of_inv {p : Values} {fk ck fs cs : List GoString} (h : Inv p fk ck fs cs)
    (k : GoString) (hk : k ∈ p.sortedKeys) : Allowed k := by
  have hk1 : k ∈ p.entries.map Prod.fst := (perm_sortedKeys p).mem_iff.mp hk
  rcases h.dom k hk1 with h1 | h1 | h1
  · exact Or.inl h1
  · exact Or.inr (Or.inl (inv_synth_filter h k h1))
  · exact Or.inr (Or.inr (inv_synth_collapse h k h1))

theorem rewriteKey_of_not_synth (name k : GoString) (h : synthKey name k = false) :
    rewriteKey name k = k := by
  simp [rewriteKey, h]

theorem no_collapse_key_of_inv {p : Values} {fk fs cs : List GoString}
    (h : Inv p fk [] fs cs) (k : GoString) (hk : k ∈ p.sortedKeys) :
    synthKey (ascii "collapse") k = false := by
  have hk1 : k ∈ p.entries.map Prod.fst := (perm_sortedKeys p).mem_iff.mp hk
  rcases h.dom k hk1 with h1 | h1 | h1
  · exact fixed_not_synth_collapse k h1
  · exact synth_filter_not_collapse k (inv_synth_filter h k h1)
  · simp at h1

theorem no_filter_key_of_inv {p : Values} {ck fs cs : List GoString}
    (h : Inv p [] ck fs cs) (k : GoString) (hk : k ∈ p.sortedKeys) :
    synthKey (ascii "filter") k = false := by
  have hk1 : k ∈ p.entries.map Prod.fst := (perm_sortedKeys p).mem_iff.mp hk
  rcases h.dom k hk1 with h1 | h1 | h1
  · exact fixed_not_synth_filter k h1
  · simp at h1
  · exact synth_collapse_not_filter k (inv_synth_collapse h k h1)

/-! ### The query string that `buildURL` writes -/

theorem encode_eq (p : Values) (hk : ∀ k ∈ p.sortedKeys, Allowed k) :
    p.Encode = joinAmp ((p.sortedKeys.map (fun k => (k, QueryEscape (p.Get k)))).map
      (fun q => q.1 ++ 61 :: q.2)) := by
  have e61 : (ascii "=" : GoString) = [61] := by decide
  unfold Values.Encode
  rw [List.map_map]
  congr 1
  apply List.map_congr_left
  intro k hk1
  simp only [encodePair, Function.comp, escape_of_allowed k (hk k hk1), e61,
    List.append_assoc, List.singleton_append]

theorem rewrite_collapse_pass (p : Values) (fk ck fs cs : List GoString)
    (h : Inv p fk ck fs cs) :
    (if ck.length > 0 then rewriteKeys (ascii "collapse") p.Encode else p.Encode) =
      joinAmp ((p.sortedKeys.map
        (fun k => (rewriteKey (ascii "collapse") k, QueryEscape (p.Get k)))).map
        (fun q => q.1 ++ 61 :: q.2)) := by
  have hall := allowed_of_inv h
  rw [encode_eq p hall]
  by_cases hc : ck.length > 0
  · rw [if_pos hc, rewrite_join (ascii "collapse") (by decide)
      (List.all_eq_true.mp (by decide))]
    · simp only [List.map_map]
      congr 1
    · intro q hq
      obtain ⟨k, hk, rfl⟩ := List.mem_map.mp hq
      exact ⟨(keyOK_of_allowed k (hall k hk)).2, escape_notSep _⟩
  · rw [if_neg hc]
    have hck : ck = [] := by
      cases ck with
      | nil => rfl
      | cons a b => simp at hc
    subst hck
    simp only [List.map_map]
    congr 1
    apply List.map_congr_left
    intro k hk
    simp only [Function.comp, rewriteKey_of_not_synth _ k (no_collapse_key_of_inv h k hk)]

theorem rewrite_filter_pass (p : Values) (fk ck fs cs : List GoString)
    (h : Inv p fk ck fs cs) :
    (if fk.length > 0 then rewriteKeys (ascii "filter")
        (joinAmp ((p.sortedKeys.map
          (fun k => (rewriteKey (ascii "collapse") k, QueryEscape (p.Get k)))).map
          (fun q => q.1 ++ 61 :: q.2)))
      else joinAmp ((p.sortedKeys.map
          (fun k => (rewriteKey (ascii "collapse") k, QueryEscape (p.Get k)))).map
          (fun q => q.1 ++ 61 :: q.2))) =
      joinAmp (p.sortedKeys.map (fun k => wireKey k ++ 61 :: QueryEscape (p.Get k))) := by
  have hall := allowed_of_inv h
  by_cases hc : fk.length > 0
  · rw [if_pos hc, rewrite_join (ascii "filter") (by decide)
      (List.all_eq_true.mp (by decide))]
    · simp only [List.map_map]
      congr 1
    · intro q hq
      obtain ⟨k, hk, rfl⟩ := List.mem_map.mp hq
      exact ⟨keyOK_filter_rewritten k (hall k hk), escape_notSep _⟩
  · rw [if_neg hc]
    have hfk : fk = [] := by
      cases fk with
      | nil => rfl
      | cons a b => simp at hc
    subst hfk
    simp only [List.map_map]
    congr 1
    apply List.map_congr_left
    intro k hk
    have h1 := no_filter_key_of_inv h k hk
    have h2 : synthKey (ascii "filter") (rewriteKey (ascii "collapse") k) = false := by
      unfold rewriteKey
      split
      · decide!
      · exact h1
    simp only [Function.comp, wireKey, rewriteKey_of_not_synth _ _ h2]

/-- The string `buildURL` writes, pair by pair: the stored keys in sorted order, each
under its wire key, each value escaped. -/
theorem buildURL_normal_form (cdx : CDXAPI) (fs cs : List GoString) (urlDst : GoString)
    (h : Inv cdx.params cdx.regFilterKeys cdx.collapsingKeys fs cs)
    (hurl : cdx.URL ≠ ascii "") :
    cdx.buildURL urlDst = (none, cdxURL ++ joinAmp (cdx.params.sortedKeys.map
      (fun k => wireKey k ++ 61 :: QueryEscape (cdx.params.Get k)))) := by
  unfold CDXAPI.buildURL
  unfold CDXAPI.URL at hurl
  rw [if_neg hurl]
  simp only []
  rw [rewrite_collapse_pass cdx.params _ _ fs cs h, rewrite_filter_pass cdx.params _ _ fs cs h]

/-! ### Reading the pairs back -/

theorem splitOn_ne_nil (sep : Byte) (s : GoString) : splitOn sep s ≠ [] := by
  induction s with
  | nil => simp [splitOn]
  | cons c rest ih =>
    simp only [splitOn]
    split
    · simp
    · split <;> simp

theorem splitOn_no_sep (sep : Byte) (a : GoString) (ha : ∀ b ∈ a, b ≠ sep) :
    splitOn sep a = [a] := by
  induction a with
  | nil => rfl
  | cons c cs ih =>
    have hc : c ≠ sep := ha c (List.mem_cons_self _ _)
    simp only [splitOn, hc, if_false, ih (fun b hb => ha b (List.mem_cons_of_mem _ hb))]

theorem splitOn_cons_ne (sep c : Byte) (s p : GoString) (ps : List GoString) (hc : c ≠ sep)
    (hs : splitOn sep s = p :: ps) : splitOn sep (c :: s) = (c :: p) :: ps := by
  simp only [splitOn, hc, if_false, hs]

theorem splitOn_append_sep (sep : Byte) (a r : GoString) (ha : ∀ b ∈ a, b ≠ sep) :
    splitOn sep (a ++ sep :: r) = a :: splitOn sep r := by
  induction a with
  | nil => simp [splitOn]
  | cons c cs ih =>
    have hc : c ≠ sep := ha c (List.mem_cons_self _ _)
    rw [List.cons_append]
    exact splitOn_cons_ne sep c _ _ _ hc (ih (fun b hb => ha b (List.mem_cons_of_mem _ hb)))

theorem splitOn_joinAmp (ps : List GoString) (hne : ps ≠ [])
    (hps : ∀ p ∈ ps, ∀ b ∈ p, b ≠ 38) : splitOn 38 (joinAmp ps) = ps := by
  induction ps with
  | nil => exact absurd rfl hne
  | cons p rest ih =>
    cases rest with
    | nil =>
      simp only [joinAmp]
      exact splitOn_no_sep 38 p (hps p (List.mem_cons_self _ _))
    | cons q rest1 =>
      have e38 : (ascii "&" : GoString) = [38] := by decide
      simp only [joinAmp, e38, List.append_assoc, List.singleton_append]
      rw [splitOn_append_sep 38 p _ (hps p (List.mem_cons_self _ _)),
        ih (by simp) (fun x hx => hps x (List.mem_cons_of_mem _ hx))]

theorem notSep_ne (b : Byte) (h : notSep b = true) : b ≠ 38 ∧ b ≠ 61 := by
  simpa [notSep] using h

theorem pairKey_pair (k v : GoString) (hk : ∀ b ∈ k, notSep b = true) :
    pairKey (k ++ 61 :: v) = k := by
  unfold pairKey
  apply takeWhile_sep
  · intro b hb
    simpa using (notSep_ne b (hk b hb)).2
  · simp

theorem pairValue_pair (k v : GoString) (hk : ∀ b ∈ k, notSep b = true) :
    pairValue (k ++ 61 :: v) = v := by
  unfold pairValue
  rw [dropWhile_sep]
  · rfl
  · intro b hb
    simpa using (notSep_ne b (hk b hb)).2
  · simp

/-! ### Wire keys -/

theorem wireKey_fixed (k : GoString) (h : k ∈ fixedKeys) : wireKey k = k := by
  simp [wireKey, rewriteKey, fixed_not_synth_collapse k h, fixed_not_synth_filter k h]

theorem wireKey_filter (k : GoString) (h : synthKey (ascii "filter") k = true) :
    wireKey k = ascii "filter" := by
  simp [wireKey, rewriteKey, synth_filter_not_collapse k h, h]

theorem wireKey_collapse (k : GoString) (h : synthKey (ascii "collapse") k = true) :
    wireKey k = ascii "collapse" := by
  have h2 : synthKey (ascii "filter") (ascii "collapse") = false := by decide!
  simp [wireKey, rewriteKey, h, h2]

theorem wireKey_notSep (k : GoString) (h : Allowed k) : ∀ b ∈ wireKey k, notSep b = true := by
  rcases h with h | h | h
  · rw [wireKey_fixed k h]
    have := (keyOK_of_fixed k h).1
    simp only [keyOK, Bool.and_eq_true, List.all_eq_true] at this
    exact this.1
  · rw [wireKey_filter k h]
    exact List.all_eq_true.mp (by decide)
  · rw [wireKey_collapse k h]
    exact List.all_eq_true.mp (by decide)

theorem wireKey_not_synth (k : GoString) (h : Allowed k) :
    synthKey (ascii "filter") (wireKey k) = false ∧
    synthKey (ascii "collapse") (wireKey k) = false := by
  rcases h with h | h | h
  · rw [wireKey_fixed k h]
    exact ⟨fixed_not_synth_filter k h, fixed_not_synth_collapse k h⟩
  · rw [wireKey_filter k h]
    exact ⟨by decide!, by decide!⟩
  · rw [wireKey_collapse k h]
    exact ⟨by decide!, by decide!⟩

theorem gtWithin_append (a p t : GoString) (h : gtWithin a p = true) :
    strLE a (p ++ t) = false := by
  induction a generalizing p with
  | nil => simp [gtWithin] at h
  | cons x xs ih =>
    cases p with
    | nil => simp [gtWithin] at h
    | cons y ys =>
      simp only [gtWithin] at h
      simp only [List.cons_append, strLE]
      by_cases hyx : y < x
      · have : ¬ x < y := not_lt.mpr (le_of_lt hyx)
        simp [this, hyx]
      · by_cases hxy : x < y
        · simp [hyx, hxy] at h
        · simp only [hyx, hxy, if_false] at h ⊢
          exact ih ys h

theorem gtWithin_head (x y : Byte) (xs ys : GoString) (h : y < x) :
    gtWithin (x :: xs) (y :: ys) = true := by
  simp [gtWithin, h]

theorem fixed_gt_synth (a b : GoString) (ha : a ∈ fixedKeys)
    (hb : synthKey (ascii "filter") b = true ∨ synthKey (ascii "collapse") b = true) :
    strLE a b = false := by
  have h1 : fixedKeys.all
      (fun a => gtWithin a (ascii "filter") && gtWithin a (ascii "collapse")) = true := by
    decide!
  have h2 := List.all_eq_true.mp h1 a ha
  simp only [Bool.and_eq_true] at h2
  rcases hb with hb | hb
  · obtain ⟨ds, -, -, rfl⟩ := (synthKey_iff _ _).mp hb
    exact gtWithin_append a _ ds h2.1
  · obtain ⟨ds, -, -, rfl⟩ := (synthKey_iff _ _).mp hb
    exact gtWithin_append a _ ds h2.2

theorem filter_gt_collapse (a b : GoString) (ha : synthKey (ascii "filter") a = true)
    (hb : synthKey (ascii "collapse") b = true) : strLE a b = false := by
  obtain ⟨ds, -, -, rfl⟩ := (synthKey_iff _ _).mp ha
  obtain ⟨ds1, -, -, rfl⟩ := (synthKey_iff _ _).mp hb
  apply gtWithin_append
  rw [ascii_filter, ascii_collapse]
  exact gtWithin_head 102 99 _ _ (by decide)

/-- The rewrite keeps the order of the stored keys. -/
theorem wireKey_monotone (a b : GoString) (ha : Allowed a) (hb : Allowed b)
    (hab : strLE a b = true) : strLE (wireKey a) (wireKey b) = true := by
  have hlit : fixedKeys.all
      (fun k => strLE (ascii "filter") k && strLE (ascii "collapse") k) = true := by decide!
  have hlit2 := List.all_eq_true.mp hlit
  rcases ha with ha | ha | ha
  · rcases hb with hb | hb | hb
    · rw [wireKey_fixed a ha, wireKey_fixed b hb]; exact hab
    · rw [fixed_gt_synth a b ha (Or.inl hb)] at hab; exact absurd hab Bool.false_ne_true
    · rw [fixed_gt_synth a b ha (Or.inr hb)] at hab; exact absurd hab Bool.false_ne_true
  · rw [wireKey_filter a ha]
    rcases hb with hb | hb | hb
    · rw [wireKey_fixed b hb]
      have := hlit2 b hb
      simp only [Bool.and_eq_true] at this
      exact this.1
    · rw [wireKey_filter b hb]; exact strLE_refl _
    · rw [filter_gt_collapse a b ha hb] at hab; exact absurd hab Bool.false_ne_true
  · rw [wireKey_collapse a ha]
    rcases hb with hb | hb | hb
    · rw [wireKey_fixed b hb]
      have := hlit2 b hb
      simp only [Bool.and_eq_true] at this
      exact this.2
    · rw [wireKey_filter b hb]; decide!
    · rw [wireKey_collapse b hb]; exact strLE_refl _

theorem getEntry_ne_nil_mem (l : List (GoString × GoString)) (k : GoString)
    (h : getEntry l k ≠ []) : k ∈ l.map Prod.fst := by
  induction l with
  | nil => simp [getEntry] at h
  | cons e rest ih =>
    obtain ⟨k0, x0⟩ := e
    simp only [getEntry] at h
    by_cases hk : k0 = k
    · simp [hk]
    · simp only [hk, if_false] at h
      simp [ih h]

theorem sortedKeys_ne_nil (cdx : CDXAPI) (hurl : cdx.URL ≠ ascii "") :
    cdx.params.sortedKeys ≠ [] := by
  have hm : ascii "url" ∈ cdx.params.entries.map Prod.fst :=
    getEntry_ne_nil_mem _ _ hurl
  have := (perm_sortedKeys cdx.params).mem_iff.mpr hm
  exact List.ne_nil_of_mem this

/-- The pairs of the query string that `buildURL` writes, read back by splitting at `&`. -/
theorem split_query (cdx : CDXAPI) (fs cs : List GoString)
    (h : Inv cdx.params cdx.regFilterKeys cdx.collapsingKeys fs cs)
    (hurl : cdx.URL ≠ ascii "") :
    splitOn 38 (joinAmp (cdx.params.sortedKeys.map
      (fun k => wireKey k ++ 61 :: QueryEscape (cdx.params.Get k)))) =
    cdx.params.sortedKeys.map (fun k => wireKey k ++ 61 :: QueryEscape (cdx.params.Get k)) := by
  apply splitOn_joinAmp
  · simpa using sortedKeys_ne_nil cdx hurl
  · intro p hp b hb
    obtain ⟨k, hk, rfl⟩ := List.mem_map.mp hp
    rcases List.mem_append.mp hb with h1 | h1
    · exact (notSep_ne b (wireKey_notSep k (allowed_of_inv h k hk) b h1)).1
    · rcases List.mem_cons.mp h1 with h2 | h2
      · rw [h2]; decide
      · exact (notSep_ne b (escape_notSep _ b h2)).1

theorem pairKeys_query (cdx : CDXAPI) (fs cs : List GoString)
    (h : Inv cdx.params cdx.regFilterKeys cdx.collapsingKeys fs cs) :
    (cdx.params.sortedKeys.map
      (fun k => wireKey k ++ 61 :: QueryEscape (cdx.params.Get k))).map pairKey =
    cdx.params.sortedKeys.map wireKey := by
  rw [List.map_map]
  apply List.map_congr_left
  intro k hk
  exact pairKey_pair _ _ (wireKey_notSep k (allowed_of_inv h k hk))

/-- C8: for every configuration obtained from the empty one by builder and query calls
that has a target URL, `buildURL` writes the endpoint prefix followed by a query string
whose pairs, split at `&`, have their keys in ascending order. -/
theorem c8_keys_ascending (env : Env) (ops : List Op) (urlDst : GoString)
    (hurl : (applyOps env CDXAPI.empty ops).URL ≠ ascii "") :
    ∃ q, (applyOps env CDXAPI.empty ops).buildURL urlDst = (none, cdxURL ++ q) ∧
      List.Sorted StrLE ((splitOn 38 q).map pairKey) := by
  have hinv := reachable_inv env ops
  refine ⟨_, buildURL_normal_form _ _ _ urlDst hinv hurl, ?_⟩
  rw [split_query _ _ _ hinv hurl, pairKeys_query _ _ _ hinv]
  have hs := sorted_sortedKeys (applyOps env CDXAPI.empty ops).params
  unfold List.Sorted at hs ⊢
  rw [List.pairwise_map]
  exact hs.imp_of_mem (fun ha hb hab =>
    wireKey_monotone _ _ (allowed_of_inv hinv _ ha) (allowed_of_inv hinv _ hb) hab)

/-- Witness for C8 on the configuration of `TestCDXAPI_buildURL`. -/
theorem c8_keys_ascending_witness :
    (applyOps (fixedEnv []) CDXAPI.empty buildURLTestOps).URL ≠ ascii "" ∧
    ∃ q, (applyOps (fixedEnv []) CDXAPI.empty buildURLTestOps).buildURL [] =
        (none, cdxURL ++ q) ∧
      List.Sorted StrLE ((splitOn 38 q).map pairKey) :=
  ⟨by decide!, c8_keys_ascending (fixedEnv []) buildURLTestOps [] (by decide!)⟩

/-! ### Escaping round trip -/

theorem hex_round_trip : ∀ c : Byte,
    (ishex (upperhex (c.val / 16)) && ishex (upperhex (c.val % 16)) &&
      decide ((Fin.ofNat (unhex (upperhex (c.val / 16)) * 16 +
        unhex (upperhex (c.val % 16))) : Byte) = c)) = true :=
  byte_all _ (by decide!)

theorem unreserved_plain : ∀ c : Byte,
    (shouldEscape c || (decide (c ≠ 37) && decide (c ≠ 43))) = true :=
  byte_all _ (by decide!)

theorem unescape_plus (rest : GoString) :
    QueryUnescape (43 :: rest) = (QueryUnescape rest).map (fun t => (32 : Byte) :: t) := by
  have h1 : ¬ ((43 : Byte) = 37) := by decide
  conv_lhs => unfold QueryUnescape
  simp only [h1, if_false, if_true]

theorem unescape_plain (c : Byte) (rest : GoString) (h1 : c ≠ 37) (h2 : c ≠ 43) :
    QueryUnescape (c :: rest) = (QueryUnescape rest).map (fun t => c :: t) := by
  conv_lhs => unfold QueryUnescape
  simp only [h1, h2, if_false]

theorem unescape_percent (h l : Byte) (rest : GoString) (hh : ishex h = true)
    (hl : ishex l = true) :
    QueryUnescape (37 :: h :: l :: rest) =
      (QueryUnescape rest).map (fun t => (Fin.ofNat (unhex h * 16 + unhex l) : Byte) :: t) := by
  conv_lhs => unfold QueryUnescape
  simp only [if_true, hh, hl, Bool.and_self]

theorem unescape_escapeByte (c : Byte) (rest : GoString) :
    QueryUnescape (escapeByte c ++ rest) = (QueryUnescape rest).map (fun t => c :: t) := by
  unfold escapeByte
  by_cases h32 : c = 32
  · subst h32
    simp only [if_true, List.singleton_append]
    exact unescape_plus rest
  · simp only [h32, if_false]
    by_cases hesc : shouldEscape c = true
    · have hh := hex_round_trip c
      simp only [Bool.and_eq_true, decide_eq_true_eq] at hh
      obtain ⟨⟨h1, h2⟩, h3⟩ := hh
      simp only [hesc, if_true, List.cons_append, List.nil_append]
      rw [unescape_percent _ _ _ h1 h2, h3]
    · have hp := unreserved_plain c
      simp only [hesc, Bool.false_or, Bool.and_eq_true, decide_eq_true_eq] at hp
      simp only [hesc, Bool.false_eq_true, if_false, List.singleton_append]
      exact unescape_plain c rest hp.1 hp.2

/-- Unescaping an escaped string gives the string back. -/
theorem unescape_escape (s : GoString) : QueryUnescape (QueryEscape s) = some s := by
  induction s with
  | nil => rfl
  | cons c cs ih =>
    have e : QueryEscape (c :: cs) = escapeByte c ++ QueryEscape cs := by
      simp [QueryEscape]
    rw [e, unescape_escapeByte, ih]
    rfl

/-! ### The repeated pairs -/

theorem wireKey_eq_filter_iff (k : GoString) (h : Allowed k) :
    wireKey k = ascii "filter" ↔ synthKey (ascii "filter") k = true := by
  constructor
  · intro hw
    rcases h with h | h | h
    · rw [wireKey_fixed k h] at hw
      rw [hw] at h
      exact absurd h (by decide)
    · exact h
    · rw [wireKey_collapse k h] at hw
      exact absurd hw (by decide)
  · exact wireKey_filter k

theorem wireKey_eq_collapse_iff (k : GoString) (h : Allowed k) :
    wireKey k = ascii "collapse" ↔ synthKey (ascii "collapse") k = true := by
  constructor
  · intro hw
    rcases h with h | h | h
    · rw [wireKey_fixed k h] at hw
      rw [hw] at h
      exact absurd h (by decide)
    · rw [wireKey_filter k h] at hw
      exact absurd hw (by decide)
    · exact h
  · exact wireKey_collapse k

theorem nodup_sortedKeys {p : Values} {fk ck fs cs : List GoString} (h : Inv p fk ck fs cs) :
    p.sortedKeys.Nodup :=
  (perm_sortedKeys p).nodup_iff.mpr h.nodup

theorem filter_keys_perm {p : Values} {fk ck fs cs : List GoString} (h : Inv p fk ck fs cs) :
    List.Perm (p.sortedKeys.filter (synthKey (ascii "filter"))) fk := by
  have hfk : fk.Nodup := by rw [h.keysF]; exact nodup_synth_list _ _
  rw [List.perm_ext_iff_of_nodup ((nodup_sortedKeys h).filter _) hfk]
  intro k
  simp only [List.mem_filter]
  constructor
  · rintro ⟨hk, hs⟩
    have hk1 : k ∈ p.entries.map Prod.fst := (perm_sortedKeys p).mem_iff.mp hk
    rcases h.dom k hk1 with h1 | h1 | h1
    · rw [fixed_not_synth_filter k h1] at hs; exact absurd hs Bool.false_ne_true
    · exact h1
    · rw [synth_collapse_not_filter k (inv_synth_collapse h k h1)] at hs
      exact absurd hs Bool.false_ne_true
  · intro hk
    exact ⟨(perm_sortedKeys p).mem_iff.mpr (h.memF k hk), inv_synth_filter h k hk⟩

theorem collapse_keys_perm {p : Values} {fk ck fs cs : List GoString} (h : Inv p fk ck fs cs) :
    List.Perm (p.sortedKeys.filter (synthKey (ascii "collapse"))) ck := by
  have hck : ck.Nodup := by rw [h.keysC]; exact nodup_synth_list _ _
  rw [List.perm_ext_iff_of_nodup ((nodup_sortedKeys h).filter _) hck]
  intro k
  simp only [List.mem_filter]
  constructor
  · rintro ⟨hk, hs⟩
    have hk1 : k ∈ p.entries.map Prod.fst := (perm_sortedKeys p).mem_iff.mp hk
    rcases h.dom k hk1 with h1 | h1 | h1
    · rw [fixed_not_synth_collapse k h1] at hs; exact absurd hs Bool.false_ne_true
    · rw [synth_filter_not_collapse k (inv_synth_filter h k h1)] at hs
      exact absurd hs Bool.false_ne_true
    · exact h1
  · intro hk
    exact ⟨(perm_sortedKeys p).mem_iff.mpr (h.memC k hk), inv_synth_collapse h k hk⟩

/-- The values of the pairs written under the wire key `name`, unescaped, are the
stored values of the stored keys that are written under `name`. -/
theorem family_values (p : Values) (name : GoString) (sel : GoString → Bool)
    (hall : ∀ k ∈ p.sortedKeys, Allowed k)
    (hsel : ∀ k ∈ p.sortedKeys, (wireKey k = name ↔ sel k = true)) :
    (((p.sortedKeys.map (fun k => wireKey k ++ 61 :: QueryEscape (p.Get k))).filter
      (fun q => decide (pairKey q = name))).map (fun q => QueryUnescape (pairValue q))) =
    (p.sortedKeys.filter sel).map (fun k => some (p.Get k)) := by
  generalize p.sortedKeys = ks at hall hsel
  induction ks with
  | nil => rfl
  | cons k rest ih =>
    have hk := hall k (List.mem_cons_self _ _)
    have ih1 := ih (fun x hx => hall x (List.mem_cons_of_mem _ hx))
      (fun x hx => hsel x (List.mem_cons_of_mem _ hx))
    have hkey := pairKey_pair (wireKey k) (QueryEscape (p.Get k)) (wireKey_notSep k hk)
    have hval := pairValue_pair (wireKey k) (QueryEscape (p.Get k)) (wireKey_notSep k hk)
    have hs := hsel k (List.mem_cons_self _ _)
    simp only [List.map_cons, List.filter_cons, hkey]
    by_cases hw : wireKey k = name
    · simp only [hw, decide_True, if_true, hs.mp hw, List.map_cons, ih1]
      rw [← hw, hval, unescape_escape]
    · have hs2 : sel k = false := by
        cases hsk : sel k with
        | false => rfl
        | true => exact absurd (hs.mpr hsk) hw
      simp only [hw, decide_False, hs2, Bool.false_eq_true, if_false, ih1]

/-- C9: for every configuration obtained from the empty one by builder and query calls
that has a target URL, the query string written by `buildURL` has, under the key
`filter`, exactly the values of the regex filters added since the last reset (as many
pairs as values, the unescaped values equal to them up to order), likewise under
`collapse` the added collapse values, and no pair whose key is `filter<N>` or
`collapse<N>`. -/
theorem c9_added_values_all_written (env : Env) (ops : List Op) (urlDst : GoString)
    (hurl : (applyOps env CDXAPI.empty ops).URL ≠ ascii "") :
    ∃ q, (applyOps env CDXAPI.empty ops).buildURL urlDst = (none, cdxURL ++ q) ∧
      List.Perm
        (((splitOn 38 q).filter (fun p => decide (pairKey p = ascii "filter"))).map
          (fun p => QueryUnescape (pairValue p)))
        ((addedFilters env CDXAPI.empty [] ops).map some) ∧
      List.Perm
        (((splitOn 38 q).filter (fun p => decide (pairKey p = ascii "collapse"))).map
          (fun p => QueryUnescape (pairValue p)))
        ((addedCollapses env CDXAPI.empty [] ops).map some) ∧
      ((splitOn 38 q).filter (fun p => decide (pairKey p = ascii "filter"))).length =
        (addedFilters env CDXAPI.empty [] ops).length ∧
      ((splitOn 38 q).filter (fun p => decide (pairKey p = ascii "collapse"))).length =
        (addedCollapses env CDXAPI.empty [] ops).length ∧
      ∀ p ∈ splitOn 38 q, synthKey (ascii "filter") (pairKey p) = false ∧
        synthKey (ascii "collapse") (pairKey p) = false := by
  have hinv := reachable_inv env ops
  have hall := allowed_of_inv hinv
  refine ⟨_, buildURL_normal_form _ _ _ urlDst hinv hurl, ?_⟩
  rw [split_query _ _ _ hinv hurl]
  have hF : List.Perm
      (((List.map (fun k => wireKey k ++ 61 :: QueryEscape
          ((applyOps env CDXAPI.empty ops).params.Get k))
          (applyOps env CDXAPI.empty ops).params.sortedKeys).filter
          (fun p => decide (pairKey p = ascii "filter"))).map
        (fun p => QueryUnescape (pairValue p)))
      ((addedFilters env CDXAPI.empty [] ops).map some) := by
    rw [family_values _ (ascii "filter") (synthKey (ascii "filter")) hall
      (fun k hk => wireKey_eq_filter_iff k (hall k hk))]
    have := (filter_keys_perm hinv).map (fun k => some ((applyOps env CDXAPI.empty ops).params.Get k))
    rw [← hinv.valsF, List.map_map]
    exact this
  have hC : List.Perm
      (((List.map (fun k => wireKey k ++ 61 :: QueryEscape
          ((applyOps env CDXAPI.empty ops).params.Get k))
          (applyOps env CDXAPI.empty ops).params.sortedKeys).filter
          (fun p => decide (pairKey p = ascii "collapse"))).map
        (fun p => QueryUnescape (pairValue p)))
      ((addedCollapses env CDXAPI.empty [] ops).map some) := by
    rw [family_values _ (ascii "collapse") (synthKey (ascii "collapse")) hall
      (fun k hk => wireKey_eq_collapse_iff k (hall k hk))]
    have := (collapse_keys_perm hinv).map
      (fun k => some ((applyOps env CDXAPI.empty ops).params.Get k))
    rw [← hinv.valsC, List.map_map]
    exact this
  refine ⟨hF, hC, ?_, ?_, ?_⟩
  · simpa using hF.length_eq
  · simpa using hC.length_eq
  · intro p hp
    obtain ⟨k, hk, rfl⟩ := List.mem_map.mp hp
    rw [pairKey_pair _ _ (wireKey_notSep k (hall k hk))]
    exact wireKey_not_synth k (hall k hk)

/-- Witness for C9 on the configuration of `TestCDXAPI_buildURL`: one filter and two
collapses were added. -/
theorem c9_added_values_all_written_witness :
    (applyOps (fixedEnv []) CDXAPI.empty buildURLTestOps).URL ≠ ascii "" ∧
    addedFilters (fixedEnv []) CDXAPI.empty [] buildURLTestOps = [ascii "!mimetype:text/html"] ∧
    addedCollapses (fixedEnv []) CDXAPI.empty [] buildURLTestOps =
      [ascii "length:10", ascii "statuscode"] ∧
    ∃ q, (applyOps (fixedEnv []) CDXAPI.empty buildURLTestOps).buildURL [] =
        (none, cdxURL ++ q) ∧
      List.Perm
        (((splitOn 38 q).filter (fun p => decide (pairKey p = ascii "filter"))).map
          (fun p => QueryUnescape (pairValue p)))
        ((addedFilters (fixedEnv []) CDXAPI.empty [] buildURLTestOps).map some) ∧
      List.Perm
        (((splitOn 38 q).filter (fun p => decide (pairKey p = ascii "collapse"))).map
          (fun p => QueryUnescape (pairValue p)))
        ((addedCollapses (fixedEnv []) CDXAPI.empty [] buildURLTestOps).map some) ∧
      ((splitOn 38 q).filter (fun p => decide (pairKey p = ascii "filter"))).length =
        (addedFilters (fixedEnv []) CDXAPI.empty [] buildURLTestOps).length ∧
      ((splitOn 38 q).filter (fun p => decide (pairKey p = ascii "collapse"))).length =
        (addedCollapses (fixedEnv []) CDXAPI.empty [] buildURLTestOps).length ∧
      ∀ p ∈ splitOn 38 q, synthKey (ascii "filter") (pairKey p) = false ∧
        synthKey (ascii "collapse") (pairKey p) = false :=
  ⟨by decide!, by decide!, by decide!,
   c9_added_values_all_written (fixedEnv []) buildURLTestOps [] (by decide!)⟩

/-- A configuration made by `NewCDXAPI` is the empty configuration after `SetURL`, so the
statements about call sequences from the empty configuration cover it. -/
theorem newCDXAPI_eq_applyOps (env : Env) (url : GoString) (c0 : CDXAPI)
    (h : NewCDXAPI env url = .ok c0) : c0 = applyOps env CDXAPI.empty [.SetURL url] := by
  unfold NewCDXAPI at h
  simp only [applyOps, List.foldl, applyOp]
  rcases hs : CDXAPI.SetURL env CDXAPI.empty url with ⟨e, c⟩
  rw [hs] at h
  cases e with
  | none => simp only [Except.ok.injEq] at h; exact h.symm
  | some err => simp at h

/-! ### Getters after setters -/

theorem get_set_same (p : Values) (k v : GoString) : (p.Set k v).Get k = v :=
  getEntry_setEntry_same _ _ _

theorem get_set_ne (p : Values) (k v k1 : GoString) (h : k1 ≠ k) :
    (p.Set k v).Get k1 = p.Get k1 :=
  getEntry_setEntry_ne _ _ _ _ h

theorem get_del_ne (p : Values) (k k1 : GoString) (h : k1 ≠ k) :
    (p.Del k).Get k1 = p.Get k1 :=
  getEntry_delEntry_ne _ _ _ h

theorem getEntry_not_mem (l : List (GoString × GoString)) (k : GoString)
    (h : k ∉ l.map Prod.fst) : getEntry l k = [] := by
  induction l with
  | nil => rfl
  | cons e rest ih =>
    obtain ⟨k0, x0⟩ := e
    simp only [List.map_cons, List.mem_cons, not_or] at h
    simp only [getEntry, Ne.symm h.1, if_false]
    exact ih h.2

theorem get_del_same (p : Values) (k : GoString) : (p.Del k).Get k = [] := by
  apply getEntry_not_mem
  intro h
  exact ((mem_keys_delEntry _ _ _).mp h).1 rfl

theorem setMatchType_ok (cdx : CDXAPI) (m : Int) (name : GoString)
    (h : matchTypes m = some name) :
    cdx.SetMatchType m = (none, { cdx with params := cdx.params.Set (ascii "matchType") name }) := by
  simp only [CDXAPI.SetMatchType, h]

theorem matchType_of_stored (cdx : CDXAPI) (name : GoString) :
    CDXAPI.MatchType { cdx with params := cdx.params.Set (ascii "matchType") name } =
      (if name = ascii "exact" then MatchTypeExact
       else if name = ascii "prefix" then MatchTypePrefix
       else if name = ascii "host" then MatchTypeHost
       else if name = ascii "domain" then MatchTypeDomain
       else MatchTypeExact) := by
  simp only [CDXAPI.MatchType, get_set_same]

/-- C16: for each of the four match types `SetMatchType` returns no error and
`MatchType()` then returns that match type; for every other value `SetMatchType`
returns `ErrorInvalidMatchType` and `MatchType()` returns what it returned before. -/
theorem c16_matchType_round_trip (cdx : CDXAPI) (m : Int) :
    ((m = MatchTypeExact ∨ m = MatchTypePrefix ∨ m = MatchTypeHost ∨ m = MatchTypeDomain) →
      (cdx.SetMatchType m).1 = none ∧ (cdx.SetMatchType m).2.MatchType = m) ∧
    (¬ (m = MatchTypeExact ∨ m = MatchTypePrefix ∨ m = MatchTypeHost ∨ m = MatchTypeDomain) →
      (cdx.SetMatchType m).1 = some .ErrorInvalidMatchType ∧
      (cdx.SetMatchType m).2.MatchType = cdx.MatchType) := by
  constructor
  · rintro (h | h | h | h)
    · subst h
      rw [setMatchType_ok cdx _ (ascii "exact") (by decide)]
      exact ⟨rfl, by rw [matchType_of_stored]; decide⟩
    · subst h
      rw [setMatchType_ok cdx _ (ascii "prefix") (by decide)]
      exact ⟨rfl, by rw [matchType_of_stored]; decide⟩
    · subst h
      rw [setMatchType_ok cdx _ (ascii "host") (by decide)]
      exact ⟨rfl, by rw [matchType_of_stored]; decide⟩
    · subst h
      rw [setMatchType_ok cdx _ (ascii "domain") (by decide)]
      exact ⟨rfl, by rw [matchType_of_stored]; decide⟩
  · intro h
    simp only [not_or] at h
    have hm : matchTypes m = none := by
      simp only [matchTypes, h.1, h.2.1, h.2.2.1, h.2.2.2, if_false]
    have hs : cdx.SetMatchType m = (some .ErrorInvalidMatchType, cdx) := by
      simp only [CDXAPI.SetMatchType, hm]
    rw [hs]
    exact ⟨rfl, rfl⟩

/-- Witness for C16: match type host is stored and read back, and the value 7 is refused
without changing what `MatchType()` returns. -/
theorem c16_matchType_round_trip_witness :
    (CDXAPI.empty.SetMatchType MatchTypeHost).1 = none ∧
    (CDXAPI.empty.SetMatchType MatchTypeHost).2.MatchType = MatchTypeHost ∧
    ((CDXAPI.empty.SetMatchType MatchTypeHost).2.SetMatchType 7).1 =
      some .ErrorInvalidMatchType ∧
    ((CDXAPI.empty.SetMatchType MatchTypeHost).2.SetMatchType 7).2.MatchType =
      (CDXAPI.empty.SetMatchType MatchTypeHost).2.MatchType :=
  ⟨((c16_matchType_round_trip CDXAPI.empty MatchTypeHost).1 (by decide)).1,
   ((c16_matchType_round_trip CDXAPI.empty MatchTypeHost).1 (by decide)).2,
   ((c16_matchType_round_trip (CDXAPI.empty.SetMatchType MatchTypeHost).2 7).2 (by decide)).1,
   ((c16_matchType_round_trip (CDXAPI.empty.SetMatchType MatchTypeHost).2 7).2 (by decide)).2⟩

/-! ### `strconv.Atoi` after `strconv.Itoa` -/

theorem isDigit_not_sign (c : Byte) (h : isDigit c = true) : ¬ c = 45 ∧ ¬ c = 43 := by
  constructor <;> intro e <;> subst e <;> exact absurd h (by decide)

theorem atoi_cons_digit (c : Byte) (rest : GoString) (n : Nat) (hc : isDigit c = true)
    (hv : digitsValue (c :: rest) 0 = some n) (h : n ≤ 9223372036854775807) :
    Atoi (c :: rest) = .ok (n : Int) := by
  obtain ⟨hc45, hc43⟩ := isDigit_not_sign c hc
  have h1 : (-9223372036854775808 : Int) ≤ (n : Int) := by omega
  have h2 : (n : Int) ≤ 9223372036854775807 := by omega
  unfold Atoi
  simp only [hc45, hc43, or_self, if_false, decide_False, hv, Bool.false_eq_true, h1, h2,
    and_self, if_true]

theorem atoi_natToDec (n : Nat) (h : n ≤ 9223372036854775807) :
    Atoi (natToDec n) = .ok (n : Int) := by
  have hv := digitsValue_decDigits (n + 1) n (by omega)
  have hd := natToDec_all_digits n
  have hne := natToDec_ne_nil n
  unfold natToDec at hd hne ⊢
  cases hs : decDigits (n + 1) n with
  | nil => exact absurd hs hne
  | cons c rest =>
    rw [hs] at hv hd
    exact atoi_cons_digit c rest n (hd c (List.mem_cons_self _ _)) hv h

theorem itoa_pos (n : Int) (h : 0 < n) : Itoa n = natToDec n.natAbs := by
  have : ¬ n < 0 := by omega
  simp only [Itoa, this, if_false]

theorem atoi_itoa_pos (n : Int) (h : 0 < n) (hmax : n ≤ 9223372036854775807) :
    Atoi (Itoa n) = .ok n := by
  rw [itoa_pos n h, atoi_natToDec n.natAbs (by omega)]
  congr 1
  omega

theorem itoa_pos_ne_nil (n : Int) (h : 0 < n) : Itoa n ≠ ascii "" := by
  rw [itoa_pos n h]
  exact natToDec_ne_nil _

/-- C17: for every `int` `n`, `SetLimit(n)` returns `ErrorInvalidNumber` exactly when
`n <= 0` and otherwise returns no error, after which `Limit()` returns `n`; the same for
`SetOffset` and `Offset()`. -/
theorem c17_limit_offset_round_trip (cdx : CDXAPI) (n : Int)
    (hint : -9223372036854775808 ≤ n ∧ n ≤ 9223372036854775807) :
    ((cdx.SetLimit n).1 = some .ErrorInvalidNumber ↔ n ≤ 0) ∧
    (0 < n → (cdx.SetLimit n).1 = none ∧ (cdx.SetLimit n).2.Limit = n) ∧
    ((cdx.SetOffset n).1 = some .ErrorInvalidNumber ↔ n ≤ 0) ∧
    (0 < n → (cdx.SetOffset n).1 = none ∧ (cdx.SetOffset n).2.Offset = n) := by
  by_cases hn : n ≤ 0
  · have h0 : ¬ 0 < n := by omega
    have hl : cdx.SetLimit n = (some .ErrorInvalidNumber, cdx) := by
      simp only [CDXAPI.SetLimit, if_pos hn]
    have ho : cdx.SetOffset n = (some .ErrorInvalidNumber, cdx) := by
      simp only [CDXAPI.SetOffset, if_pos hn]
    rw [hl, ho]
    exact ⟨by simp [hn], fun h => absurd h h0, by simp [hn], fun h => absurd h h0⟩
  · have h0 : 0 < n := by omega
    have hl : (cdx.SetLimit n) =
        (none, { cdx with params := cdx.params.Set (ascii "limit") (Itoa n) }) := by
      simp only [CDXAPI.SetLimit, if_neg hn]
    have ho : (cdx.SetOffset n) =
        (none, { cdx with params := cdx.params.Set (ascii "offset") (Itoa n) }) := by
      simp only [CDXAPI.SetOffset, if_neg hn]
    rw [hl, ho]
    refine ⟨by simp [hn], fun _ => ⟨rfl, ?_⟩, by simp [hn], fun _ => ⟨rfl, ?_⟩⟩
    · simp only [CDXAPI.Limit, get_set_same, itoa_pos_ne_nil n h0, if_false,
        atoi_itoa_pos n h0 hint.2]
    · simp only [CDXAPI.Offset, get_set_same, itoa_pos_ne_nil n h0, if_false,
        atoi_itoa_pos n h0 hint.2]

/-- Witness for C17 with `n = 25`. -/
theorem c17_limit_offset_round_trip_witness :
    ((CDXAPI.empty.SetLimit 25).1 = some .ErrorInvalidNumber ↔ (25 : Int) ≤ 0) ∧
    ((0 : Int) < 25 → (CDXAPI.empty.SetLimit 25).1 = none ∧
      (CDXAPI.empty.SetLimit 25).2.Limit = 25) ∧
    ((CDXAPI.empty.SetOffset 25).1 = some .ErrorInvalidNumber ↔ (25 : Int) ≤ 0) ∧
    ((0 : Int) < 25 → (CDXAPI.empty.SetOffset 25).1 = none ∧
      (CDXAPI.empty.SetOffset 25).2.Offset = 25) :=
  c17_limit_offset_round_trip CDXAPI.empty 25 (by decide)

/-! ### Resets -/

theorem setEntry_idem (l : List (GoString × GoString)) (k v : GoString) :
    setEntry (setEntry l k v) k v = setEntry l k v := by
  induction l with
  | nil => simp [setEntry]
  | cons e rest ih =>
    obtain ⟨k0, x0⟩ := e
    by_cases hk : k0 = k
    · simp [setEntry, hk]
    · simp [setEntry, hk, ih]

theorem delEntry_idem (l : List (GoString × GoString)) (k : GoString) :
    delEntry (delEntry l k) k = delEntry l k := by
  induction l with
  | nil => rfl
  | cons e rest ih =>
    obtain ⟨k0, x0⟩ := e
    by_cases hk : k0 = k
    · simp [delEntry, hk, ih]
    · simp [delEntry, hk, ih]

theorem delEntry_comm (l : List (GoString × GoString)) (a b : GoString) :
    delEntry (delEntry l a) b = delEntry (delEntry l b) a := by
  induction l with
  | nil => rfl
  | cons e rest ih =>
    obtain ⟨k0, x0⟩ := e
    by_cases ha : k0 = a
    · subst ha
      by_cases hb : k0 = b
      · subst hb; simp [delEntry]
      · simp [delEntry, hb, ih]
    · by_cases hb : k0 = b
      · subst hb; simp [delEntry, ha, ih]
      · simp [delEntry, ha, hb, ih]

theorem set_idem (p : Values) (k v : GoString) : (p.Set k v).Set k v = p.Set k v := by
  simp only [Values.Set, setEntry_idem]

theorem del_idem (p : Values) (k : GoString) : (p.Del k).Del k = p.Del k := by
  simp only [Values.Del, delEntry_idem]

theorem del_del_idem (p : Values) (a b : GoString) :
    (((p.Del a).Del b).Del a).Del b = (p.Del a).Del b := by
  simp only [Values.Del]
  rw [delEntry_comm (delEntry p.entries a) b a, delEntry_idem, delEntry_idem]

/-- C20: each of the ten reset methods, applied twice, leaves the configuration that
one application leaves, for every configuration. -/
theorem c20_resets_idempotent (cdx : CDXAPI) :
    cdx.ResetMatchType.ResetMatchType = cdx.ResetMatchType ∧
    cdx.ResetOutputFormat.ResetOutputFormat = cdx.ResetOutputFormat ∧
    cdx.ResetLimit.ResetLimit = cdx.ResetLimit ∧
    cdx.ResetOffset.ResetOffset = cdx.ResetOffset ∧
    cdx.ResetGzip.ResetGzip = cdx.ResetGzip ∧
    cdx.ResetTimeFilter.ResetTimeFilter = cdx.ResetTimeFilter ∧
    cdx.ResetRegexFilters.ResetRegexFilters = cdx.ResetRegexFilters ∧
    cdx.ResetCollapsing.ResetCollapsing = cdx.ResetCollapsing ∧
    cdx.ResetResumptionKey.ResetResumptionKey = cdx.ResetResumptionKey ∧
    cdx.ResetPagination.ResetPagination = cdx.ResetPagination := by
  refine ⟨?_, ?_, ?_, ?_, ?_, ?_, ?_, ?_, ?_, ?_⟩
  · simp only [CDXAPI.ResetMatchType, set_idem]
  · simp only [CDXAPI.ResetOutputFormat, del_idem]
  · simp only [CDXAPI.ResetLimit, del_idem]
  · simp only [CDXAPI.ResetOffset, del_idem]
  · simp only [CDXAPI.ResetGzip, del_idem]
  · simp only [CDXAPI.ResetTimeFilter, del_del_idem]
  · simp only [CDXAPI.ResetRegexFilters, List.foldl_nil]
  · simp only [CDXAPI.ResetCollapsing, List.foldl_nil]
  · by_cases hp : cdx.usePagination = true
    · simp only [CDXAPI.ResetResumptionKey, CDXAPI.SetResumptionKey, hp, if_true]
    · simp only [CDXAPI.ResetResumptionKey, CDXAPI.SetResumptionKey, hp, if_false,
        Bool.false_eq_true, del_del_idem]
  · by_cases hr : cdx.useResumptionKey = true
    · simp only [CDXAPI.ResetPagination, CDXAPI.SetPagination, hr, if_true]
    · have h0 : ¬ ((0 : Int) < 0) := by decide
      simp only [CDXAPI.ResetPagination, CDXAPI.SetPagination, hr, if_false, h0,
        Bool.false_eq_true, del_idem]

/-- C18 (code defect): `ResetPagination` goes through `SetPagination(false, 0)` and drops
its error.  While resumption mode is on, that call is refused, so nothing is reset: after
`SetURL("archive.org")`, `SetResumptionKey(true, "k")`, `ResetPagination()` the page is
still the zero value 0 of the struct, not the documented default -1. -/
theorem c18_reset_pagination_skipped_under_resumption :
    (applyOps (fixedEnv []) CDXAPI.empty resumptionOps).ResetPagination.PaginationPage = 0 ∧
    (applyOps (fixedEnv []) CDXAPI.empty resumptionOps).ResetPagination =
      applyOps (fixedEnv []) CDXAPI.empty resumptionOps ∧
    ((applyOps (fixedEnv []) CDXAPI.empty resumptionOps).SetPagination false 0).1 =
      some .ErrorPaginationResumption := by
  decide!

/-! ### The decoding loop -/

/-- The loop changes the receiver in its parameter store only. -/
theorem decodeRows_fields (rows : List (List GoString)) :
    ∀ (cdx : CDXAPI) (result : List CDXResult),
      (decodeRows cdx result rows).2 =
        { cdx with params := (decodeRows cdx result rows).2.params } := by
  induction rows with
  | nil => intro cdx result; rfl
  | cons row rest ih =>
    intro cdx result
    match row with
    | [] => simpa [decodeRows] using ih cdx result
    | [key] =>
      by_cases h : cdx.ResumptionKeyEnabled = true
      · simp only [decodeRows, h, if_true]
        exact ih _ result
      · simpa [decodeRows, h] using ih cdx result
    | f0 :: f1 :: fs =>
      cases hrow : decodeRow (f0 :: f1 :: fs) with
      | error out => simp only [decodeRows, hrow]
      | ok r => simpa [decodeRows, hrow] using ih cdx _

/-- The loop leaves every stored key other than `resumeKey` as it was. -/
theorem decodeRows_other_keys (rows : List (List GoString)) :
    ∀ (cdx : CDXAPI) (result : List CDXResult) (k : GoString), k ≠ ascii "resumeKey" →
      (decodeRows cdx result rows).2.params.Get k = cdx.params.Get k ∧
      (k ∈ (decodeRows cdx result rows).2.params.entries.map Prod.fst ↔
        k ∈ cdx.params.entries.map Prod.fst) := by
  induction rows with
  | nil => intro cdx result k _; exact ⟨rfl, Iff.rfl⟩
  | cons row rest ih =>
    intro cdx result k hk
    match row with
    | [] => simpa [decodeRows] using ih cdx result k hk
    | [key] =>
      by_cases h : cdx.ResumptionKeyEnabled = true
      · simp only [decodeRows, h, if_true]
        have := ih { cdx with params := cdx.params.Set (ascii "resumeKey") key } result k hk
        refine ⟨this.1.trans (get_set_ne _ _ _ _ hk), this.2.trans ?_⟩
        simp only [Values.Set, mem_keys_setEntry, hk, false_or]
      · simpa [decodeRows, h] using ih cdx result k hk
    | f0 :: f1 :: fs =>
      cases hrow : decodeRow (f0 :: f1 :: fs) with
      | error out =>
        have e : (decodeRows cdx result ((f0 :: f1 :: fs) :: rest)).2 = cdx := by
          simp only [decodeRows, hrow]
        rw [e]
        exact ⟨rfl, Iff.rfl⟩
      | ok r => simpa [decodeRows, hrow] using ih cdx _ k hk

/-- With resumption mode off the loop does not touch the receiver. -/
theorem decodeRows_disabled (rows : List (List GoString)) :
    ∀ (cdx : CDXAPI) (result : List CDXResult), cdx.useResumptionKey = false →
      (decodeRows cdx result rows).2 = cdx := by
  induction rows with
  | nil => intro cdx result _; rfl
  | cons row rest ih =>
    intro cdx result hoff
    match row with
    | [] => simpa [decodeRows] using ih cdx result hoff
    | [key] =>
      have h : ¬ cdx.ResumptionKeyEnabled = true := by
        simp [CDXAPI.ResumptionKeyEnabled, hoff]
      simpa [decodeRows, h] using ih cdx result hoff
    | f0 :: f1 :: fs =>
      cases hrow : decodeRow (f0 :: f1 :: fs) with
      | error out => simp only [decodeRows, hrow]
      | ok r => simpa [decodeRows, hrow] using ih cdx _ hoff

/-- A row that ends the call ends it with a panic or with an error and no records. -/
theorem decodeRow_error (row : List GoString) (out : Outcome (List CDXResult × Option Error))
    (h : decodeRow row = .error out) :
    (∃ i n, out = .panicked i n) ∨ (∃ err, out = .returned ([], some err)) := by
  unfold decodeRow at h
  cases h4 : row[4]? with
  | none =>
    simp only [h4] at h
    injection h with h
    exact Or.inl ⟨_, _, h.symm⟩
  | some f4 =>
    simp only [h4] at h
    generalize (if f4 = ascii "-" then row.set 4 (ascii "0") else row) = row1 at h
    cases h7 : row1[7]? with
    | none =>
      simp only [h7] at h
      injection h with h
      exact Or.inl ⟨_, _, h.symm⟩
    | some f7 =>
      simp only [h7] at h
      cases ht : timeParse (row1.getD 1 []) with
      | error e =>
        simp only [ht] at h
        injection h with h
        exact Or.inr ⟨_, h.symm⟩
      | ok t =>
        simp only [ht] at h
        cases hc : Atoi (row1.getD 4 []) with
        | error e =>
          simp only [hc] at h
          injection h with h
          exact Or.inr ⟨_, h.symm⟩
        | ok code =>
          simp only [hc] at h
          cases hl : Atoi (row1.getD 6 []) with
          | error e =>
            simp only [hl] at h
            injection h with h
            exact Or.inr ⟨_, h.symm⟩
          | ok ln => simp only [hl] at h; cases h

/-- The records, the error and a panic of the loop depend neither on the receiver nor
on the single-field rows. -/
theorem decodeRows_outcome (rows : List (List GoString)) :
    ∀ (cdx cdx1 : CDXAPI) (result : List CDXResult),
      (decodeRows cdx result rows).1 = (decodeRows cdx1 result (dropCursorRows rows)).1 := by
  induction rows with
  | nil => intro cdx cdx1 result; rfl
  | cons row rest ih =>
    intro cdx cdx1 result
    match row with
    | [] =>
      have : dropCursorRows ([] :: rest) = [] :: dropCursorRows rest := by
        simp [dropCursorRows]
      rw [this]
      simpa [decodeRows] using ih cdx cdx1 result
    | [key] =>
      have : dropCursorRows ([key] :: rest) = dropCursorRows rest := by
        simp [dropCursorRows]
      rw [this]
      by_cases h : cdx.ResumptionKeyEnabled = true
      · simp only [decodeRows, h, if_true]
        exact ih _ cdx1 result
      · simpa [decodeRows, h] using ih cdx cdx1 result
    | f0 :: f1 :: fs =>
      have : dropCursorRows ((f0 :: f1 :: fs) :: rest) =
          (f0 :: f1 :: fs) :: dropCursorRows rest := by
        simp [dropCursorRows]
      rw [this]
      cases hrow : decodeRow (f0 :: f1 :: fs) with
      | error out => simp only [decodeRows, hrow]
      | ok r => simpa [decodeRows, hrow] using ih cdx cdx1 _

/-- When the loop runs through all rows with resumption mode on, the stored cursor is
the sole field of the last single-field row, or what it was when there is none. -/
theorem decodeRows_cursor (rows : List (List GoString)) :
    ∀ (cdx : CDXAPI) (result l : List CDXResult), cdx.useResumptionKey = true →
      (decodeRows cdx result rows).1 = .returned (l, none) →
      (decodeRows cdx result rows).2.params.Get (ascii "resumeKey") =
        (lastCursor rows).getD (cdx.params.Get (ascii "resumeKey")) := by
  induction rows with
  | nil => intro cdx result l _ _; rfl
  | cons row rest ih =>
    intro cdx result l hon hret
    match row with
    | [] =>
      have hl : lastCursor ([] :: rest) = lastCursor rest := by
        simp only [lastCursor]; cases lastCursor rest <;> rfl
      rw [hl]
      simp only [decodeRows] at hret ⊢
      exact ih cdx result l hon hret
    | [key] =>
      have h : cdx.ResumptionKeyEnabled = true := hon
      simp only [decodeRows, h, if_true] at hret ⊢
      have := ih { cdx with params := cdx.params.Set (ascii "resumeKey") key } result l hon hret
      rw [this, get_set_same]
      simp only [lastCursor]
      cases lastCursor rest <;> rfl
    | f0 :: f1 :: fs =>
      have hl : lastCursor ((f0 :: f1 :: fs) :: rest) = lastCursor rest := by
        simp only [lastCursor]; cases lastCursor rest <;> rfl
      rw [hl]
      cases hrow : decodeRow (f0 :: f1 :: fs) with
      | error out =>
        simp only [decodeRows, hrow] at hret
        rcases decodeRow_error _ _ hrow with ⟨i, n, ho⟩ | ⟨err, ho⟩
        · rw [ho] at hret; cases hret
        · rw [ho] at hret; cases hret
      | ok r =>
        simp only [decodeRows, hrow] at hret ⊢
        exact ih cdx _ l hon hret

/-! ### `Perform`, step by step -/

/-- A property of the receiver that survives the steps of `Perform` survives `Perform`. -/
theorem perform_induct (P : CDXAPI → Prop) (env : Env) (cdx : CDXAPI)
    (net : Except Error HTTPResponse) (h0 : P cdx)
    (hset : ∀ c, P c → P { c with params := c.params.Set (ascii "output") (ascii "json") })
    (hdel : ∀ c, P c → P { c with params := c.params.Del (ascii "output") })
    (hbuf : ∀ c b, P c → P { c with urlBuf := b })
    (hrows : ∀ c res rows, P c → P (decodeRows c res rows).2) :
    P (CDXAPI.Perform env cdx net).2 := by
  unfold CDXAPI.Perform
  simp only []
  generalize hc : (if (!decide (cdx.params.Get (ascii "output") = ascii "json")) = true then
      { cdx with params := cdx.params.Set (ascii "output") (ascii "json") } else cdx) = c1
  have h1 : P c1 := by
    subst hc
    split
    · exact hset cdx h0
    · exact h0
  have h2 : P (c1.RawPerform net).2 := by
    unfold CDXAPI.RawPerform
    split
    · exact hbuf c1 _ h1
    · cases net with
      | error e => exact hbuf c1 _ h1
      | ok resp =>
        by_cases h : resp.StatusCode = 200
        · simp only [h, ne_eq, not_true_eq_false, if_false]
          exact hbuf c1 _ h1
        · simp only [ne_eq, h, not_false_eq_true, if_true]
          exact hbuf c1 _ h1
  rcases hr : c1.RawPerform net with ⟨r, c2⟩
  rw [hr] at h2
  simp only [] at h2
  cases r with
  | error e => exact h2
  | ok qry =>
    simp only []
    cases hb : qry.resp.Body with
    | error e => exact h2
    | ok qryRes =>
      simp only []
      cases hj : env.jsonUnmarshal qryRes with
      | error e => exact h2
      | ok splitBuf =>
        simp only []
        have h3 := hrows c2 [] (splitBuf.drop 1) h2
        rcases hd : decodeRows c2 [] (List.drop 1 splitBuf) with ⟨o, c3⟩
        rw [hd] at h3
        simp only [] at h3
        match o with
        | .panicked i n => exact h3
        | .returned (result, some err) => exact h3
        | .returned (result, none) =>
          simp only []
          split
          · exact hdel c3 h3
          · exact h3

theorem rawPerform_ok (c : CDXAPI) (net : Except Error HTTPResponse) (qry : CDXRawQuery)
    (c2 : CDXAPI) (h : c.RawPerform net = (.ok qry, c2)) :
    net = .ok qry.resp ∧ c2 = { c with urlBuf := c2.urlBuf } := by
  unfold CDXAPI.RawPerform at h
  split at h
  · cases h
  · cases net with
    | error e => cases h
    | ok resp =>
      by_cases hs : resp.StatusCode = 200
      · simp only [hs, ne_eq, not_true_eq_false, if_false] at h
        injection h with h1 h2
        injection h1 with h1
        subst h1 h2
        exact ⟨rfl, rfl⟩
      · simp only [ne_eq, hs, not_false_eq_true, if_true] at h
        cases h

/-- The steps of a `Perform` call that returns without error: the output is forced to
JSON unless it is JSON already, the rows after row 0 are decoded to the end, and the
forced output is deleted again. -/
theorem perform_success (env : Env) (cdx : CDXAPI) (net : Except Error HTTPResponse)
    (l : List CDXResult) (h : (CDXAPI.Perform env cdx net).1 = .returned (l, none)) :
    ∃ resp qryRes splitBuf c2,
      net = .ok resp ∧ resp.Body = .ok qryRes ∧ env.jsonUnmarshal qryRes = .ok splitBuf ∧
      c2 = { (if cdx.params.Get (ascii "output") = ascii "json" then cdx
              else { cdx with params := cdx.params.Set (ascii "output") (ascii "json") })
             with urlBuf := c2.urlBuf } ∧
      (decodeRows c2 [] (splitBuf.drop 1)).1 = .returned (l, none) ∧
      (CDXAPI.Perform env cdx net).2 =
        (if cdx.params.Get (ascii "output") = ascii "json" then
          (decodeRows c2 [] (splitBuf.drop 1)).2
         else { (decodeRows c2 [] (splitBuf.drop 1)).2 with
                params := (decodeRows c2 [] (splitBuf.drop 1)).2.params.Del (ascii "output") }) := by
  unfold CDXAPI.Perform at h ⊢
  simp only [] at h ⊢
  by_cases hj0 : cdx.params.Get (ascii "output") = ascii "json"
  · simp only [hj0, decide_True, Bool.not_true, Bool.false_eq_true, if_false, if_true] at h ⊢
    rcases hr : cdx.RawPerform net with ⟨r, c2⟩
    simp only [hr] at h ⊢
    cases r with
    | error e => simp only [] at h; cases h
    | ok qry =>
      simp only [] at h ⊢
      obtain ⟨hnet, hc2⟩ := rawPerform_ok _ net qry c2 hr
      cases hb : qry.resp.Body with
      | error e => simp only [hb] at h; cases h
      | ok qryRes =>
        simp only [hb] at h ⊢
        cases hj : env.jsonUnmarshal qryRes with
        | error e => simp only [hj] at h; cases h
        | ok splitBuf =>
          simp only [hj] at h ⊢
          rcases hd : decodeRows c2 [] (List.drop 1 splitBuf) with ⟨o, c3⟩
          simp only [hd] at h ⊢
          refine ⟨qry.resp, qryRes, splitBuf, c2, hnet, hb, hj, hc2, ?_, ?_⟩
          · rw [hd]
            match o, h with
            | .returned (result, none), h => simpa using h
          · rw [hd]
            match o, h with
            | .returned (result, none), h => rfl
  · simp only [hj0, decide_False, Bool.not_false, if_true, if_false] at h ⊢
    rcases hr : CDXAPI.RawPerform
      { cdx with params := cdx.params.Set (ascii "output") (ascii "json") } net with ⟨r, c2⟩
    simp only [hr] at h ⊢
    cases r with
    | error e => simp only [] at h; cases h
    | ok qry =>
      simp only [] at h ⊢
      obtain ⟨hnet, hc2⟩ := rawPerform_ok _ net qry c2 hr
      cases hb : qry.resp.Body with
      | error e => simp only [hb] at h; cases h
      | ok qryRes =>
        simp only [hb] at h ⊢
        cases hj : env.jsonUnmarshal qryRes with
        | error e => simp only [hj] at h; cases h
        | ok splitBuf =>
          simp only [hj] at h ⊢
          rcases hd : decodeRows c2 [] (List.drop 1 splitBuf) with ⟨o, c3⟩
          simp only [hd] at h ⊢
          refine ⟨qry.resp, qryRes, splitBuf, c2, hnet, hb, hj, hc2, ?_, ?_⟩
          · rw [hd]
            match o, h with
            | .returned (result, none), h => simpa using h
          · rw [hd]
            match o, h with
            | .returned (result, none), h => rfl

/-! ### Single-field rows and parse errors -/

theorem get_after_forced_output (cdx c2 : CDXAPI) (k : GoString) (hk : k ≠ ascii "output")
    (hc2 : c2 = { (if cdx.params.Get (ascii "output") = ascii "json" then cdx
              else { cdx with params := cdx.params.Set (ascii "output") (ascii "json") })
             with urlBuf := c2.urlBuf }) :
    c2.params.Get k = cdx.params.Get k := by
  rw [hc2]
  by_cases hj : cdx.params.Get (ascii "output") = ascii "json"
  · simp only [hj, if_true]
  · simp only [hj, if_false]
    exact get_set_ne _ _ _ _ hk

theorem flag_after_forced_output (cdx c2 : CDXAPI)
    (hc2 : c2 = { (if cdx.params.Get (ascii "output") = ascii "json" then cdx
              else { cdx with params := cdx.params.Set (ascii "output") (ascii "json") })
             with urlBuf := c2.urlBuf }) :
    c2.useResumptionKey = cdx.useResumptionKey := by
  rw [hc2]
  by_cases hj : cdx.params.Get (ascii "output") = ascii "json"
  · simp only [hj, if_true]
  · simp only [hj, if_false]

/-- With resumption mode off `Perform` leaves the stored cursor alone, however it ends. -/
theorem perform_cursor_disabled (env : Env) (cdx : CDXAPI) (net : Except Error HTTPResponse)
    (hoff : cdx.useResumptionKey = false) :
    (CDXAPI.Perform env cdx net).2.params.Get (ascii "resumeKey") =
      cdx.params.Get (ascii "resumeKey") := by
  have := perform_induct
    (fun c => c.useResumptionKey = false ∧
      c.params.Get (ascii "resumeKey") = cdx.params.Get (ascii "resumeKey"))
    env cdx net ⟨hoff, rfl⟩
    (fun c hc => ⟨hc.1, (get_set_ne _ _ _ _ (by decide)).trans hc.2⟩)
    (fun c hc => ⟨hc.1, (get_del_ne _ _ _ (by decide)).trans hc.2⟩)
    (fun c b hc => hc)
    (fun c res rows hc => by rw [decodeRows_disabled rows c res hc.1]; exact hc)
  exact this.2

/-- C11, as amended: (1) a row of exactly one field contributes no record: the records,
the error or the panic of the decoding loop are those of the body without such rows;
(2) when `Perform` returns without error and resumption mode is on, the stored cursor
is the sole field of the last single-field row after row 0, and is unchanged when there
is no such row; (3) when resumption mode is off, the stored cursor is unchanged by
`Perform`, however the call ends. -/
theorem c11_cursor_rows (env : Env) (cdx : CDXAPI) (net : Except Error HTTPResponse) :
    (∀ (c c1 : CDXAPI) (res : List CDXResult) (rows : List (List GoString)),
      (decodeRows c res rows).1 = (decodeRows c1 res (dropCursorRows rows)).1) ∧
    (∀ (l : List CDXResult) (resp : HTTPResponse) (qryRes : GoString)
        (splitBuf : List (List GoString)),
      net = .ok resp → resp.Body = .ok qryRes → env.jsonUnmarshal qryRes = .ok splitBuf →
      cdx.ResumptionKeyEnabled = true →
      (CDXAPI.Perform env cdx net).1 = .returned (l, none) →
      (CDXAPI.Perform env cdx net).2.ResumptionKey =
        (lastCursor (splitBuf.drop 1)).getD cdx.ResumptionKey) ∧
    (cdx.ResumptionKeyEnabled = false →
      (CDXAPI.Perform env cdx net).2.ResumptionKey = cdx.ResumptionKey) := by
  refine ⟨fun c c1 res rows => decodeRows_outcome rows c c1 res, ?_,
    fun hoff => perform_cursor_disabled env cdx net hoff⟩
  intro l resp qryRes splitBuf hnet hbody hjson hon hret
  obtain ⟨resp1, qryRes1, splitBuf1, c2, hnet1, hb1, hj1, hc2, hdec, hfin⟩ :=
    perform_success env cdx net l hret
  have e1 : resp1 = resp := by
    rw [hnet] at hnet1
    injection hnet1 with h
    exact h.symm
  subst e1
  have e2 : qryRes1 = qryRes := by
    rw [hbody] at hb1
    injection hb1 with h
    exact h.symm
  subst e2
  have e3 : splitBuf1 = splitBuf := by
    rw [hjson] at hj1
    injection hj1 with h
    exact h.symm
  subst e3
  have hflag : c2.useResumptionKey = true :=
    (flag_after_forced_output cdx c2 hc2).trans hon
  have hcur := decodeRows_cursor (splitBuf1.drop 1) c2 [] l hflag hdec
  rw [get_after_forced_output cdx c2 (ascii "resumeKey") (by decide) hc2] at hcur
  unfold CDXAPI.ResumptionKey
  rw [hfin, ← hcur]
  by_cases hj : cdx.params.Get (ascii "output") = ascii "json"
  · simp only [hj, if_true]
  · simp only [hj, if_false]
    exact get_del_ne _ _ _ (by decide)

/-- Witness for C11: with resumption mode on, a body of the label row, one decodable
row and the single-field rows `first` and `second` yields one record and the cursor
`second`; with resumption mode off the cursor stays empty. -/
theorem c11_cursor_rows_witness :
    (decodeRows CDXAPI.empty [] (goodRowThenCursors.drop 1)).1 =
      (decodeRows CDXAPI.empty [] (dropCursorRows (goodRowThenCursors.drop 1))).1 ∧
    (CDXAPI.Perform (fixedEnv goodRowThenCursors)
        (applyOps (fixedEnv []) CDXAPI.empty resumptionOps) (.ok ⟨200, .ok []⟩)).1 =
      .returned ([sevenFieldRecord], none) ∧
    (CDXAPI.Perform (fixedEnv goodRowThenCursors)
        (applyOps (fixedEnv []) CDXAPI.empty resumptionOps) (.ok ⟨200, .ok []⟩)).2.ResumptionKey =
      (lastCursor (goodRowThenCursors.drop 1)).getD
        (applyOps (fixedEnv []) CDXAPI.empty resumptionOps).ResumptionKey ∧
    lastCursor (goodRowThenCursors.drop 1) = some (ascii "second") ∧
    (CDXAPI.Perform (fixedEnv goodRowThenCursors)
        (applyOps (fixedEnv []) CDXAPI.empty [.SetURL (ascii "archive.org")])
        (.ok ⟨200, .ok []⟩)).2.ResumptionKey =
      (applyOps (fixedEnv []) CDXAPI.empty [.SetURL (ascii "archive.org")]).ResumptionKey := by
  refine ⟨?_, ?_, ?_, ?_, ?_⟩
  · exact (c11_cursor_rows (fixedEnv []) CDXAPI.empty (.ok ⟨200, .ok []⟩)).1 _ _ _ _
  · decide!
  · exact (c11_cursor_rows (fixedEnv goodRowThenCursors)
      (applyOps (fixedEnv []) CDXAPI.empty resumptionOps) (.ok ⟨200, .ok []⟩)).2.1
      [sevenFieldRecord] ⟨200, .ok []⟩ [] goodRowThenCursors rfl rfl rfl (by decide!)
      (by decide!)
  · decide!
  · exact (c11_cursor_rows (fixedEnv goodRowThenCursors)
      (applyOps (fixedEnv []) CDXAPI.empty [.SetURL (ascii "archive.org")])
      (.ok ⟨200, .ok []⟩)).2.2 (by decide!)

/-- C11 as stated fails: with resumption mode on and the body `cursorThenBadRow` (label
row, single-field row `first`, a row whose timestamp does not parse, single-field row
`second`) `Perform` returns the parse error after it has stored `first`; the cursor is not
the field `second` of the last single-field row of the body. -/
theorem c11_counterexample :
    (applyOps (fixedEnv []) CDXAPI.empty resumptionOps).ResumptionKeyEnabled = true ∧
    lastCursor (cursorThenBadRow.drop 1) = some (ascii "second") ∧
    (CDXAPI.Perform (fixedEnv cursorThenBadRow)
        (applyOps (fixedEnv []) CDXAPI.empty resumptionOps) (.ok ⟨200, .ok []⟩)).1 =
      .returned ([], some (.library (ascii "time.Parse"))) ∧
    (CDXAPI.Perform (fixedEnv cursorThenBadRow)
        (applyOps (fixedEnv []) CDXAPI.empty resumptionOps) (.ok ⟨200, .ok []⟩)).2.ResumptionKey =
      ascii "first" ∧
    (CDXAPI.Perform (fixedEnv cursorThenBadRow)
        (applyOps (fixedEnv []) CDXAPI.empty resumptionOps) (.ok ⟨200, .ok []⟩)).2.ResumptionKey ≠
      ascii "second" := by
  decide!

/-- Whenever the decoding loop returns an error, it returns it with an empty list. -/
theorem decodeRows_error_empty (rows : List (List GoString)) :
    ∀ (cdx : CDXAPI) (result l : List CDXResult) (err : Error),
      (decodeRows cdx result rows).1 = .returned (l, some err) → l = [] := by
  induction rows with
  | nil => intro cdx result l err h; simp [decodeRows] at h
  | cons row rest ih =>
    intro cdx result l err h
    match row with
    | [] => simp only [decodeRows] at h; exact ih cdx result l err h
    | [key] =>
      by_cases hk : cdx.ResumptionKeyEnabled = true
      · simp only [decodeRows, hk, if_true] at h; exact ih _ result l err h
      · simp only [decodeRows, hk, if_false] at h; exact ih cdx result l err h
    | f0 :: f1 :: fs =>
      cases hrow : decodeRow (f0 :: f1 :: fs) with
      | error out =>
        simp only [decodeRows, hrow] at h
        rcases decodeRow_error _ _ hrow with ⟨i, n, ho⟩ | ⟨e, ho⟩
        · rw [ho] at h; cases h
        · rw [ho] at h; injection h with h; injection h with h1 h2; exact h1.symm
      | ok r =>
        simp only [decodeRows, hrow] at h
        exact ih cdx _ l err h

/-- C12 (code defect): a seven-field data row with an unparsable timestamp does not
make `Perform` return the parse error with an empty list: the read of index 7 comes
before the parse and the call panics.  Only in a row of eight or more fields is the
parse reached; there the error is returned with an empty list, also after a row that
was decoded. -/
theorem c12_bad_timestamp_row_panics :
    (CDXAPI.Perform (fixedEnv [labelRow, badTimestampRow])
        (applyOps (fixedEnv []) CDXAPI.empty [.SetURL (ascii "archive.org")])
        (.ok ⟨200, .ok []⟩)).1 = .panicked 7 7 ∧
    (CDXAPI.Perform
        (fixedEnv [labelRow, sevenFieldRow ++ [ascii "extra"], badTimestampRow ++ [ascii "extra"]])
        (applyOps (fixedEnv []) CDXAPI.empty [.SetURL (ascii "archive.org")])
        (.ok ⟨200, .ok []⟩)).1 = .returned ([], some (.library (ascii "time.Parse"))) := by
  decide!

/-! ### Stored output and stored cursor along call sequences -/

theorem inv2P_set (p : Values) (enabled : Bool) (k v : GoString) (h : Inv2P p enabled)
    (hk1 : k ≠ ascii "output") (hk2 : k ≠ ascii "resumeKey") : Inv2P (p.Set k v) enabled := by
  constructor
  · intro hm
    rw [get_set_ne p k v _ (Ne.symm hk1)]
    apply h.1
    rcases (mem_keys_setEntry _ _ _ _).mp hm with e | hm1
    · exact absurd e.symm hk1
    · exact hm1
  · intro hoff
    rw [get_set_ne p k v _ (Ne.symm hk2)]
    exact h.2 hoff

theorem inv2P_del (p : Values) (enabled : Bool) (k : GoString) (h : Inv2P p enabled) :
    Inv2P (p.Del k) enabled := by
  constructor
  · intro hm
    obtain ⟨hne, hm1⟩ := (mem_keys_delEntry _ _ _).mp hm
    rw [get_del_ne p k _ hne]
    exact h.1 hm1
  · intro hoff
    by_cases hk : ascii "resumeKey" = k
    · rw [← hk]; exact get_del_same p _
    · rw [get_del_ne p k _ hk]
      exact h.2 hoff

theorem inv2P_foldl_del (ks : List GoString) (p : Values) (enabled : Bool)
    (h : Inv2P p enabled) : Inv2P (ks.foldl Values.Del p) enabled := by
  induction ks generalizing p with
  | nil => exact h
  | cons k rest ih => exact ih _ (inv2P_del p enabled k h)

theorem inv2P_set_output (p : Values) (enabled : Bool) (h : Inv2P p enabled) :
    Inv2P (p.Set (ascii "output") (ascii "json")) enabled := by
  constructor
  · intro _
    exact get_set_same _ _ _
  · intro hoff
    rw [get_set_ne p _ _ _ (by decide)]
    exact h.2 hoff

theorem inv2P_set_cursor (p : Values) (enabled : Bool) (v : GoString) (h : Inv2P p enabled) :
    Inv2P (p.Set (ascii "resumeKey") v) true := by
  constructor
  · intro hm
    rw [get_set_ne p _ _ _ (by decide)]
    apply h.1
    rcases (mem_keys_setEntry _ _ _ _).mp hm with e | hm1
    · exact absurd e (by decide)
    · exact hm1
  · intro hoff
    cases hoff

theorem inv2P_enabled (p : Values) (enabled : Bool) (h : Inv2P p enabled) : Inv2P p true :=
  ⟨h.1, fun hoff => by cases hoff⟩

theorem inv2P_del_cursor (p : Values) (enabled : Bool) (h : Inv2P p enabled) :
    Inv2P (p.Del (ascii "resumeKey")) false :=
  ⟨(inv2P_del p enabled _ h).1, fun _ => get_del_same p _⟩

theorem synth_ne_output_cursor (name : GoString) (n : Nat)
    (h1 : synthKey name (ascii "output") = false)
    (h2 : synthKey name (ascii "resumeKey") = false) :
    name ++ natToDec n ≠ ascii "output" ∧ name ++ natToDec n ≠ ascii "resumeKey" := by
  have hs := synthKey_synthName name n
  unfold synthName at hs
  constructor
  · intro e; rw [e, h1] at hs; exact Bool.false_ne_true hs
  · intro e; rw [e, h2] at hs; exact Bool.false_ne_true hs

theorem decodeRows_inv2 (rows : List (List GoString)) :
    ∀ (cdx : CDXAPI) (result : List CDXResult), Inv2 cdx →
      Inv2 (decodeRows cdx result rows).2 := by
  induction rows with
  | nil => intro cdx result h; exact h
  | cons row rest ih =>
    intro cdx result h
    match row with
    | [] => simpa [decodeRows] using ih cdx result h
    | [key] =>
      by_cases hk : cdx.ResumptionKeyEnabled = true
      · simp only [decodeRows, hk, if_true]
        apply ih
        have hon : cdx.useResumptionKey = true := hk
        unfold Inv2 at h ⊢
        simp only [hon] at h ⊢
        exact inv2P_set_cursor _ _ key h
      · simpa [decodeRows, hk] using ih cdx result h
    | f0 :: f1 :: fs =>
      cases hrow : decodeRow (f0 :: f1 :: fs) with
      | error out => simp only [decodeRows, hrow]; exact h
      | ok r => simpa [decodeRows, hrow] using ih cdx _ h

theorem applyOp_inv2 (env : Env) (cdx : CDXAPI) (op : Op) (h : Inv2 cdx) :
    Inv2 (applyOp env cdx op) := by
  have hset : ∀ (k v : GoString), k ≠ ascii "output" → k ≠ ascii "resumeKey" →
      Inv2 { cdx with params := cdx.params.Set k v } :=
    fun k v h1 h2 => inv2P_set _ _ k v h h1 h2
  have hdel : ∀ (k : GoString), Inv2 { cdx with params := cdx.params.Del k } :=
    fun k => inv2P_del _ _ k h
  cases op with
  | Perform net =>
    exact perform_induct Inv2 env cdx net h
      (fun c hc => inv2P_set_output _ _ hc) (fun c hc => inv2P_del _ _ _ hc)
      (fun c b hc => hc) (fun c res rows hc => decodeRows_inv2 rows c res hc)
  | RawPerform net =>
    simp only [applyOp, CDXAPI.RawPerform]
    split
    · exact h
    · cases net with
      | error e => exact h
      | ok resp =>
        by_cases hs : resp.StatusCode = 200
        · simp only [hs, ne_eq, not_true_eq_false, if_false]; exact h
        · simp only [ne_eq, hs, not_false_eq_true, if_true]; exact h
  | AddRegexFilter fld regex negate =>
    simp only [applyOp, CDXAPI.AddRegexFilter]
    cases hn : fields fld with
    | none => exact h
    | some name =>
      cases hc : env.regexpCompile regex with
      | some err => exact h
      | none =>
        have hne := synth_ne_output_cursor (ascii "filter") cdx.regFilterKeys.length
          (by decide!) (by decide!)
        exact inv2P_set _ _ _ _ h hne.1 hne.2
  | AddCollapsing fld n =>
    simp only [applyOp, CDXAPI.AddCollapsing]
    cases hn : fields fld with
    | none => exact h
    | some name =>
      by_cases hc : n < 0
      · simp only [if_pos hc]; exact h
      · simp only [if_neg hc]
        have hne := synth_ne_output_cursor (ascii "collapse") cdx.collapsingKeys.length
          (by decide!) (by decide!)
        exact inv2P_set _ _ _ _ h hne.1 hne.2
  | ResetRegexFilters => exact inv2P_foldl_del _ _ _ h
  | ResetCollapsing => exact inv2P_foldl_del _ _ _ h
  | SetAPIKey k => exact h
  | SetMatchType m =>
    simp only [applyOp, CDXAPI.SetMatchType]
    cases hn : matchTypes m with
    | none => exact h
    | some name => exact hset _ _ (by decide) (by decide)
  | ResetMatchType => exact hset _ _ (by decide) (by decide)
  | SetOutputFormat f =>
    simp only [applyOp, CDXAPI.SetOutputFormat]
    cases hn : outputFormats f with
    | none => exact h
    | some name =>
      by_cases hf : f = OutputFormatCDX
      · simp only [if_pos hf]; exact hdel _
      · simp only [if_neg hf]
        have hname : name = ascii "json" := by
          simp only [outputFormats, hf, if_false] at hn
          by_cases hj : f = OutputFormatJSON
          · simp only [hj, if_true, Option.some.injEq] at hn; exact hn.symm
          · simp only [hj, if_false] at hn; cases hn
        rw [hname]
        exact inv2P_set_output _ _ h
  | ResetOutputFormat => exact hdel _
  | SetURL url =>
    simp only [applyOp, CDXAPI.SetURL]
    cases hs : env.urlParse url with
    | error err => exact h
    | ok scheme =>
      by_cases hn : (!decide (scheme = ascii "http" ∨ scheme = ascii "https" ∨
          scheme = ascii "")) = true
      · simp only [if_pos hn]; exact h
      · simp only [if_neg hn]; exact hset _ _ (by decide) (by decide)
  | SetLimit n =>
    simp only [applyOp, CDXAPI.SetLimit]
    by_cases hn : n ≤ 0
    · simp only [if_pos hn]; exact h
    · simp only [if_neg hn]; exact hset _ _ (by decide) (by decide)
  | ResetLimit => exact hdel _
  | SetTimeFilter a b =>
    simp only [applyOp, CDXAPI.SetTimeFilter]
    by_cases hn : b.Sub a < 0
    · simp only [if_pos hn]; exact h
    · simp only [if_neg hn]
      exact inv2P_set _ _ _ _ (inv2P_set _ _ _ _ h (by decide) (by decide)) (by decide)
        (by decide)
  | ResetTimeFilter => exact inv2P_del _ _ _ (inv2P_del _ _ _ h)
  | SetGzip b =>
    simp only [applyOp, CDXAPI.SetGzip]
    cases b with
    | true => exact hdel _
    | false => exact hset _ _ (by decide) (by decide)
  | ResetGzip => exact hdel _
  | SetOffset n =>
    simp only [applyOp, CDXAPI.SetOffset]
    by_cases hn : n ≤ 0
    · simp only [if_pos hn]; exact h
    · simp only [if_neg hn]; exact hset _ _ (by decide) (by decide)
  | ResetOffset => exact hdel _
  | SetResumptionKey enabled key =>
    simp only [applyOp, CDXAPI.SetResumptionKey]
    by_cases hp : cdx.usePagination = true
    · simp only [if_pos hp]; exact h
    · simp only [if_neg hp]
      cases enabled with
      | true =>
        exact inv2P_set _ _ _ _ (inv2P_set_cursor _ _ key h) (by decide) (by decide)
      | false =>
        exact inv2P_del _ _ _ (inv2P_del_cursor _ _ h)
  | ResetResumptionKey =>
    simp only [applyOp, CDXAPI.ResetResumptionKey, CDXAPI.SetResumptionKey]
    by_cases hp : cdx.usePagination = true
    · simp only [if_pos hp]; exact h
    · simp only [if_neg hp]
      exact inv2P_del _ _ _ (inv2P_del_cursor _ _ h)
  | SetPagination enabled page =>
    simp only [applyOp, CDXAPI.SetPagination]
    by_cases hr : cdx.useResumptionKey = true
    · simp only [if_pos hr]; exact h
    · simp only [if_neg hr]
      by_cases hpg : page < 0
      · simp only [if_pos hpg]; exact h
      · simp only [if_neg hpg]
        cases enabled with
        | true => exact hset _ _ (by decide) (by decide)
        | false => exact hdel _
  | ResetPagination =>
    simp only [applyOp, CDXAPI.ResetPagination, CDXAPI.SetPagination]
    by_cases hr : cdx.useResumptionKey = true
    · simp only [if_pos hr]; exact h
    · simp only [if_neg hr]
      exact hdel _

theorem applyOps_inv2 (env : Env) (ops : List Op) :
    ∀ cdx : CDXAPI, Inv2 cdx → Inv2 (applyOps env cdx ops) := by
  induction ops with
  | nil => intro cdx h; exact h
  | cons op rest ih =>
    intro cdx h
    have := ih _ (applyOp_inv2 env cdx op h)
    simpa [applyOps] using this

theorem reachable_inv2 (env : Env) (ops : List Op) :
    Inv2 (applyOps env CDXAPI.empty ops) :=
  applyOps_inv2 env ops CDXAPI.empty ⟨fun h => by simp [CDXAPI.empty] at h, fun _ => rfl⟩

theorem reachable_exclusive (env : Env) (ops : List Op) :
    ¬ ((applyOps env CDXAPI.empty ops).usePagination = true ∧
       (applyOps env CDXAPI.empty ops).useResumptionKey = true) :=
  applyOps_exclusive env ops CDXAPI.empty (by simp [CDXAPI.empty])

/-! ### What a successful `Perform` leaves behind -/

theorem mem_keys_set (p : Values) (k v x : GoString) :
    x ∈ (p.Set k v).entries.map Prod.fst ↔ x = k ∨ x ∈ p.entries.map Prod.fst :=
  mem_keys_setEntry _ _ _ _

theorem mem_keys_del (p : Values) (k x : GoString) :
    x ∈ (p.Del k).entries.map Prod.fst ↔ x ≠ k ∧ x ∈ p.entries.map Prod.fst :=
  mem_keys_delEntry _ _ _

theorem get_not_mem (p : Values) (k : GoString) (h : k ∉ p.entries.map Prod.fst) :
    p.Get k = [] :=
  getEntry_not_mem _ _ h

/-- After a `Perform` that returns without error, every stored key other than
`resumeKey` is stored as before with the value it had, provided a stored `output` was
`json`; the fields of the receiver other than the parameter store and the URL buffer
are untouched. -/
theorem perform_success_frame (env : Env) (cdx : CDXAPI) (net : Except Error HTTPResponse)
    (l : List CDXResult) (hinv : Inv2 cdx)
    (h : (CDXAPI.Perform env cdx net).1 = .returned (l, none)) :
    (∀ k, k ≠ ascii "resumeKey" →
      (CDXAPI.Perform env cdx net).2.params.Get k = cdx.params.Get k ∧
      (k ∈ (CDXAPI.Perform env cdx net).2.params.entries.map Prod.fst ↔
        k ∈ cdx.params.entries.map Prod.fst)) ∧
    (CDXAPI.Perform env cdx net).2 =
      { cdx with params := (CDXAPI.Perform env cdx net).2.params,
                 urlBuf := (CDXAPI.Perform env cdx net).2.urlBuf } := by
  obtain ⟨resp, qryRes, splitBuf, c2, -, -, -, hc2, -, hfin⟩ :=
    perform_success env cdx net l h
  have hrows := decodeRows_other_keys (splitBuf.drop 1) c2 []
  have hfld := decodeRows_fields (splitBuf.drop 1) c2 []
  generalize (decodeRows c2 [] (List.drop 1 splitBuf)).2 = c3 at hfin hrows hfld
  rw [hfin]
  by_cases hj : cdx.params.Get (ascii "output") = ascii "json"
  · simp only [hj, if_true] at hc2 ⊢
    have hp : c2.params = cdx.params := by rw [hc2]
    constructor
    · intro k hk
      have := hrows k hk
      rw [hp] at this
      exact this
    · rw [hfld, hc2]
  · simp only [hj, if_false] at hc2 ⊢
    have hp : c2.params = cdx.params.Set (ascii "output") (ascii "json") := by rw [hc2]
    have hout : ascii "output" ∉ cdx.params.entries.map Prod.fst := fun hm => hj (hinv.1 hm)
    constructor
    · intro k hk
      have hk2 := hrows k hk
      rw [hp] at hk2
      by_cases hko : k = ascii "output"
      · subst hko
        constructor
        · rw [get_del_same, get_not_mem _ _ hout]
        · constructor
          · intro hm
            exact absurd rfl ((mem_keys_del _ _ _).mp hm).1
          · intro hm
            exact absurd hm hout
      · constructor
        · show (c3.params.Del (ascii "output")).Get k = _
          rw [get_del_ne _ _ _ hko, hk2.1, get_set_ne _ _ _ _ hko]
        · show k ∈ (c3.params.Del (ascii "output")).entries.map Prod.fst ↔ _
          rw [mem_keys_del, hk2.2, mem_keys_set]
          constructor
          · rintro ⟨-, h1 | h1⟩
            · exact absurd h1 hko
            · exact h1
          · intro h1
            exact ⟨hko, Or.inr h1⟩
    · rw [hfld, hc2]

/-- C13: when `Perform`, called on a configuration obtained from the empty one by
builder and query calls, returns without error, the `output` key is stored afterwards
exactly if it was stored before, `OutputFormat()` returns what it returned before, every
key other than `resumeKey` is stored as before with the same value, and the fields of
the configuration other than the parameter store and the internal URL buffer are
unchanged. -/
theorem c13_perform_restores_output (env : Env) (ops : List Op)
    (net : Except Error HTTPResponse) (l : List CDXResult)
    (h : (CDXAPI.Perform env (applyOps env CDXAPI.empty ops) net).1 = .returned (l, none)) :
    (ascii "output" ∈
        (CDXAPI.Perform env (applyOps env CDXAPI.empty ops) net).2.params.entries.map Prod.fst ↔
      ascii "output" ∈ (applyOps env CDXAPI.empty ops).params.entries.map Prod.fst) ∧
    (CDXAPI.Perform env (applyOps env CDXAPI.empty ops) net).2.OutputFormat =
      (applyOps env CDXAPI.empty ops).OutputFormat ∧
    (∀ k, k ≠ ascii "resumeKey" →
      (CDXAPI.Perform env (applyOps env CDXAPI.empty ops) net).2.params.Get k =
        (applyOps env CDXAPI.empty ops).params.Get k ∧
      (k ∈ (CDXAPI.Perform env (applyOps env CDXAPI.empty ops) net).2.params.entries.map
          Prod.fst ↔
        k ∈ (applyOps env CDXAPI.empty ops).params.entries.map Prod.fst)) ∧
    (CDXAPI.Perform env (applyOps env CDXAPI.empty ops) net).2 =
      { applyOps env CDXAPI.empty ops with
        params := (CDXAPI.Perform env (applyOps env CDXAPI.empty ops) net).2.params,
        urlBuf := (CDXAPI.Perform env (applyOps env CDXAPI.empty ops) net).2.urlBuf } := by
  obtain ⟨hk, hf⟩ := perform_success_frame env _ net l (reachable_inv2 env ops) h
  refine ⟨(hk _ (by decide)).2, ?_, hk, hf⟩
  unfold CDXAPI.OutputFormat
  rw [(hk _ (by decide)).1]

/-- Witness for C13: `Perform` on a configuration with CDX output and resumption mode
on, answered by the label row and a single-field row, returns no records and no error. -/
theorem c13_perform_restores_output_witness :
    (CDXAPI.Perform (fixedEnv [labelRow, [ascii "next"]])
        (applyOps (fixedEnv [labelRow, [ascii "next"]]) CDXAPI.empty resumptionOps)
        (.ok ⟨200, .ok []⟩)).1 = .returned ([], none) ∧
    (CDXAPI.Perform (fixedEnv [labelRow, [ascii "next"]])
        (applyOps (fixedEnv [labelRow, [ascii "next"]]) CDXAPI.empty resumptionOps)
        (.ok ⟨200, .ok []⟩)).2.OutputFormat =
      (applyOps (fixedEnv [labelRow, [ascii "next"]]) CDXAPI.empty resumptionOps).OutputFormat ∧
    (CDXAPI.Perform (fixedEnv [labelRow, [ascii "next"]])
        (applyOps (fixedEnv [labelRow, [ascii "next"]]) CDXAPI.empty resumptionOps)
        (.ok ⟨200, .ok []⟩)).2.ResumptionKey = ascii "next" := by
  refine ⟨by decide!, ?_, by decide!⟩
  exact (c13_perform_restores_output (fixedEnv [labelRow, [ascii "next"]]) resumptionOps
    (.ok ⟨200, .ok []⟩) [] (by decide!)).2.1

/-! ### Defaults after the resets -/

theorem resetRegexFilters_no_filter_key (env : Env) (ops : List Op) (k : GoString)
    (hk : k ∈ (applyOps env CDXAPI.empty ops).ResetRegexFilters.params.entries.map Prod.fst) :
    synthKey (ascii "filter") k = false := by
  have hinv := reachable_inv env ops
  obtain ⟨hn, hm⟩ := (mem_keys_foldl_del _ _ _).mp hk
  rcases hinv.dom k hm with h1 | h1 | h1
  · exact fixed_not_synth_filter k h1
  · exact absurd h1 hn
  · exact synth_collapse_not_filter k (inv_synth_collapse hinv k h1)

theorem resetCollapsing_no_collapse_key (env : Env) (ops : List Op) (k : GoString)
    (hk : k ∈ (applyOps env CDXAPI.empty ops).ResetCollapsing.params.entries.map Prod.fst) :
    synthKey (ascii "collapse") k = false := by
  have hinv := reachable_inv env ops
  obtain ⟨hn, hm⟩ := (mem_keys_foldl_del _ _ _).mp hk
  rcases hinv.dom k hm with h1 | h1 | h1
  · exact fixed_not_synth_collapse k h1
  · exact synth_filter_not_collapse k (inv_synth_filter hinv k h1)
  · exact absurd h1 hn

theorem resetResumptionKey_default (env : Env) (ops : List Op) :
    (applyOps env CDXAPI.empty ops).ResetResumptionKey.ResumptionKeyEnabled = false ∧
    (applyOps env CDXAPI.empty ops).ResetResumptionKey.ResumptionKey = ascii "" := by
  have hex := reachable_exclusive env ops
  have hinv := reachable_inv2 env ops
  generalize applyOps env CDXAPI.empty ops = c at hex hinv
  unfold CDXAPI.ResetResumptionKey CDXAPI.SetResumptionKey
  by_cases hp : c.usePagination = true
  · have hoff : c.useResumptionKey = false := by
      cases hr : c.useResumptionKey with
      | false => rfl
      | true => exact absurd ⟨hp, hr⟩ hex
    simp only [hp, if_true]
    exact ⟨hoff, hinv.2 hoff⟩
  · simp only [hp, if_false, Bool.false_eq_true]
    refine ⟨rfl, ?_⟩
    show ((c.params.Del (ascii "resumeKey")).Del (ascii "showResumeKey")).Get
      (ascii "resumeKey") = ascii ""
    rw [get_del_ne _ _ _ (by decide), get_del_same]
    rfl

/-- C19: in every configuration obtained from the empty one by builder and query calls,
each reset leaves the default seen through the getter: match type exact; output format
CDX with no `output` key stored; limit -1; offset -1; gzip on; no `from` or `to` key
stored; no `filter<N>` key stored and an empty filter key list; no `collapse<N>` key
stored and an empty collapse key list; resumption mode off with an empty cursor. -/
theorem c19_resets_restore_defaults (env : Env) (ops : List Op) :
    (applyOps env CDXAPI.empty ops).ResetMatchType.MatchType = MatchTypeExact ∧
    ((applyOps env CDXAPI.empty ops).ResetOutputFormat.OutputFormat = OutputFormatCDX ∧
      ascii "output" ∉
        (applyOps env CDXAPI.empty ops).ResetOutputFormat.params.entries.map Prod.fst) ∧
    (applyOps env CDXAPI.empty ops).ResetLimit.Limit = -1 ∧
    (applyOps env CDXAPI.empty ops).ResetOffset.Offset = -1 ∧
    (applyOps env CDXAPI.empty ops).ResetGzip.Gzip = true ∧
    (ascii "from" ∉ (applyOps env CDXAPI.empty ops).ResetTimeFilter.params.entries.map Prod.fst ∧
      ascii "to" ∉ (applyOps env CDXAPI.empty ops).ResetTimeFilter.params.entries.map Prod.fst) ∧
    ((∀ k ∈ (applyOps env CDXAPI.empty ops).ResetRegexFilters.params.entries.map Prod.fst,
        synthKey (ascii "filter") k = false) ∧
      (applyOps env CDXAPI.empty ops).ResetRegexFilters.regFilterKeys = []) ∧
    ((∀ k ∈ (applyOps env CDXAPI.empty ops).ResetCollapsing.params.entries.map Prod.fst,
        synthKey (ascii "collapse") k = false) ∧
      (applyOps env CDXAPI.empty ops).ResetCollapsing.collapsingKeys = []) ∧
    ((applyOps env CDXAPI.empty ops).ResetResumptionKey.ResumptionKeyEnabled = false ∧
      (applyOps env CDXAPI.empty ops).ResetResumptionKey.ResumptionKey = ascii "") := by
  refine ⟨?_, ⟨?_, ?_⟩, ?_, ?_, ?_, ⟨?_, ?_⟩,
    ⟨fun k hk => resetRegexFilters_no_filter_key env ops k hk, rfl⟩,
    ⟨fun k hk => resetCollapsing_no_collapse_key env ops k hk, rfl⟩,
    resetResumptionKey_default env ops⟩
  · unfold CDXAPI.ResetMatchType
    rw [matchType_of_stored]
    decide
  · simp only [CDXAPI.ResetOutputFormat, CDXAPI.OutputFormat, get_del_same]
    decide
  · intro hm
    exact ((mem_keys_del _ _ _).mp hm).1 rfl
  · simp only [CDXAPI.ResetLimit, CDXAPI.Limit, get_del_same]
    decide
  · simp only [CDXAPI.ResetOffset, CDXAPI.Offset, get_del_same]
    decide
  · simp only [CDXAPI.ResetGzip, CDXAPI.Gzip, get_del_same]
    decide
  · intro hm
    have h1 := ((mem_keys_del _ _ _).mp hm).2
    exact ((mem_keys_del _ _ _).mp h1).1 rfl
  · intro hm
    exact ((mem_keys_del _ _ _).mp hm).1 rfl

/-! ### Calendar arithmetic and the rendering of times -/

theorem decDigits_length_le (fuel n w : Nat) (hw : 1 ≤ w) (h : n < 10 ^ w) :
    (decDigits fuel n).length ≤ w := by
  induction fuel generalizing n w with
  | zero => simp [decDigits]
  | succ f ih =>
    simp only [decDigits]
    split
    · simpa using hw
    · rename_i hn
      obtain ⟨v, rfl⟩ : ∃ v, w = v + 1 := ⟨w - 1, by omega⟩
      have hv : 1 ≤ v := by
        rcases Nat.eq_zero_or_pos v with e | e
        · subst e
          simp at h
          omega
        · exact e
      have hq : n / 10 < 10 ^ v := by
        rw [Nat.div_lt_iff_lt_mul (by decide)]
        rw [pow_succ] at h
        exact h
      have := ih (n / 10) v hv hq
      rw [List.length_append]
      simp only [List.length_singleton]
      omega

theorem digitsValue_replicate_zero (k : Nat) (s : GoString) :
    digitsValue (List.replicate k (48 : Byte) ++ s) 0 = digitsValue s 0 := by
  induction k with
  | zero => simp
  | succ k ih =>
    rw [List.replicate_succ, List.cons_append, digitsValue]
    have h1 : isDigit (48 : Byte) = true := by decide
    have h2 : 0 * 10 + ((48 : Byte).val - 48) = 0 := by decide
    rw [if_pos h1, h2]
    exact ih

theorem appendInt_nonneg (x : Int) (w : Nat) (h0 : 0 ≤ x) :
    appendInt x w =
      List.replicate (w - (natToDec x.toNat).length) (48 : Byte) ++ natToDec x.toNat := by
  have e : x.natAbs = x.toNat := by omega
  have hn : ¬ x < 0 := by omega
  simp only [appendInt, e, if_neg hn, List.nil_append]

/-- A number of at most `w` decimal digits is rendered by `appendInt` as exactly `w`
digits whose value it is. -/
theorem appendInt_digits (x : Int) (w : Nat) (h0 : 0 ≤ x) (hw : 1 ≤ w) (h1 : x < 10 ^ w) :
    (appendInt x w).length = w ∧ (∀ b ∈ appendInt x w, isDigit b = true) ∧
      digitsValue (appendInt x w) 0 = some x.toNat := by
  have hlt : x.toNat < 10 ^ w := by
    have : ((x.toNat : Nat) : Int) < ((10 ^ w : Nat) : Int) := by
      rw [Int.toNat_of_nonneg h0]
      push_cast
      exact h1
    exact_mod_cast this
  have hl : (natToDec x.toNat).length ≤ w := decDigits_length_le _ _ _ hw hlt
  rw [appendInt_nonneg x w h0]
  refine ⟨?_, ?_, ?_⟩
  · rw [List.length_append, List.length_replicate]
    omega
  · intro b hb
    rw [List.mem_append] at hb
    rcases hb with hb | hb
    · rw [List.eq_of_mem_replicate hb]
      decide
    · exact natToDec_all_digits _ b hb
  · rw [digitsValue_replicate_zero]
    exact digitsValue_decDigits _ _ (by omega)

theorem getnum_two (a b : Byte) (rest : GoString) ( fixed : Bool)
    (ha : isDigit a = true) (hb : isDigit b = true) :
    getnum (a :: b :: rest) fixed = some ((((a.val - 48) * 10 + (b.val - 48) : Nat) : Int), rest) := by
  simp only [getnum, ha, hb, if_true]

theorem digitsValue_two (a b : Byte) (ha : isDigit a = true) (hb : isDigit b = true) :
    digitsValue [a, b] 0 = some ((a.val - 48) * 10 + (b.val - 48)) := by
  simp only [digitsValue, ha, hb, if_true]
  simp

/-- A number below one hundred is rendered as two digits, which `getnum` reads back. -/
theorem getnum_appendInt (x : Int) (rest : GoString) ( fixed : Bool) (h0 : 0 ≤ x) (h1 : x ≤ 99) :
    getnum (appendInt x 2 ++ rest) fixed = some (x, rest) := by
  obtain ⟨hl, hd, hv⟩ := appendInt_digits x 2 h0 (by decide) (by norm_num; omega)
  match hs : appendInt x 2, hl with
  | [a, b], _ =>
    rw [hs] at hd hv
    have ha : isDigit a = true := hd a (by simp)
    have hb : isDigit b = true := hd b (by simp)
    rw [digitsValue_two a b ha hb] at hv
    have hv2 := Option.some.inj hv
    show getnum (a :: b :: rest) fixed = _
    rw [getnum_two a b rest fixed ha hb, hv2, Int.toNat_of_nonneg h0]

/-- A year from 0 to 9999 is rendered as four digits whose value it is. -/
theorem appendInt_year (x : Int) (h0 : 0 ≤ x) (h1 : x ≤ 9999) :
    ∃ y0 y1 y2 y3 : Byte, appendInt x 4 = [y0, y1, y2, y3] ∧
      isDigit y0 = true ∧ isDigit y1 = true ∧ isDigit y2 = true ∧ isDigit y3 = true ∧
      digitsValue [y0, y1, y2, y3] 0 = some x.toNat := by
  obtain ⟨hl, hd, hv⟩ := appendInt_digits x 4 h0 (by decide) (by norm_num; omega)
  match hs : appendInt x 4, hl with
  | [a, b, c, d], _ =>
    rw [hs] at hd hv
    exact ⟨a, b, c, d, rfl, hd a (by simp), hd b (by simp), hd c (by simp), hd d (by simp), hv⟩

set_option maxHeartbeats 4000000 in
/-- Within one 400-year era the year-of-era computed from the day-of-era is in range,
the remaining day-of-year is at most 365, and it is 365 only in a leap year (counted
from March). -/
theorem doy_bounds (doe yoe : Int) (h0 : 0 ≤ doe) (h1 : doe ≤ 146096)
    (hy : yoe = (doe - doe / 1460 + doe / 36524 - doe / 146096) / 365) :
    0 ≤ yoe ∧ yoe ≤ 399 ∧
    0 ≤ doe - (365 * yoe + yoe / 4 - yoe / 100) ∧
    doe - (365 * yoe + yoe / 4 - yoe / 100) ≤ 365 ∧
    (doe - (365 * yoe + yoe / 4 - yoe / 100) = 365 →
      yoe % 4 = 3 ∧ (yoe % 100 ≠ 99 ∨ yoe = 399)) := by
  obtain ⟨c, hc⟩ : ∃ c, c = doe / 1460 := ⟨_, rfl⟩
  obtain ⟨b, hb⟩ : ∃ b, b = yoe - 4 * c := ⟨_, rfl⟩
  have hc0 : 0 ≤ c := by omega
  have hc1 : c ≤ 100 := by omega
  have hb0 : -1 ≤ b := by omega
  have hb1 : b ≤ 4 := by omega
  rw [← hc] at hy
  interval_cases c <;> interval_cases b <;> omega

set_option maxHeartbeats 4000000 in
/-- The date computed from a day number has a month from 1 to 12 and a day that exists
in that month, and `daysFromCivil` maps it back to the day number. -/
theorem civilFromDays_spec (z : Int) :
    1 ≤ (civilFromDays z).2.1 ∧ (civilFromDays z).2.1 ≤ 12 ∧
    1 ≤ (civilFromDays z).2.2 ∧
    (civilFromDays z).2.2 ≤ daysIn (civilFromDays z).2.1 (civilFromDays z).1 ∧
    daysFromCivil (civilFromDays z).1 (civilFromDays z).2.1 (civilFromDays z).2.2 = z := by
  obtain ⟨era, hera⟩ : ∃ era, era = (z + 719468) / 146097 := ⟨_, rfl⟩
  obtain ⟨doe, hdoe⟩ : ∃ doe, doe = (z + 719468) % 146097 := ⟨_, rfl⟩
  obtain ⟨yoe, hyoe⟩ :
    ∃ yoe, yoe = (doe - doe / 1460 + doe / 36524 - doe / 146096) / 365 := ⟨_, rfl⟩
  obtain ⟨doy, hdoy⟩ : ∃ doy, doy = doe - (365 * yoe + yoe / 4 - yoe / 100) := ⟨_, rfl⟩
  obtain ⟨mp, hmp⟩ : ∃ mp, mp = (5 * doy + 2) / 153 := ⟨_, rfl⟩
  obtain ⟨d, hd⟩ : ∃ d, d = doy - (153 * mp + 2) / 5 + 1 := ⟨_, rfl⟩
  have hc : civilFromDays z =
      (if (if mp < 10 then mp + 3 else mp - 9) ≤ 2 then yoe + era * 400 + 1
        else yoe + era * 400, if mp < 10 then mp + 3 else mp - 9, d) := by
    subst hd hmp hdoy hyoe hdoe hera
    rfl
  have h0 : 0 ≤ doe := by omega
  have h1 : doe ≤ 146096 := by omega
  obtain ⟨hy0, hy1, hd0, hd1, hleap⟩ := doy_bounds doe yoe h0 h1 hyoe
  rw [← hdoy] at hd0 hd1 hleap
  have hm0 : 0 ≤ mp := by omega
  have hm1 : mp ≤ 11 := by omega
  have e1 : (yoe + era * 400) / 400 = era := by omega
  have e2 : (yoe + era * 400) % 400 = yoe := by omega
  have e3 : yoe % 400 = yoe := by omega
  have e4 : yoe % 400 / 4 = yoe / 4 := by rw [e3]
  have e5 : yoe % 400 / 100 = yoe / 100 := by rw [e3]
  rw [hc]
  clear hc hyoe
  interval_cases mp <;> simp only [daysIn, daysFromCivil] <;> norm_num <;>
    (try split_ifs) <;> omega

theorem parseFraction_nil : parseFraction [] = (0, []) := rfl

/-- Parsing the rendering of a time whose year has four digits gives the wall clock of
that time read as UTC. -/
theorem timeParse_format (t : Time) (hy0 : 0 ≤ t.Year) (hy1 : t.Year ≤ 9999) :
    timeParse t.Format = .ok ⟨t.sec + t.offset, 0, 0⟩ := by
  obtain ⟨a, ha⟩ : ∃ a, a = t.sec + t.offset := ⟨_, rfl⟩
  obtain ⟨r, hr⟩ : ∃ r, r = a % 86400 := ⟨_, rfl⟩
  obtain ⟨hm0, hm1, hd0, hd1, hrt⟩ := civilFromDays_spec (a / 86400)
  have hY0 : 0 ≤ (civilFromDays (a / 86400)).1 := by rw [ha]; exact hy0
  have hY1 : (civilFromDays (a / 86400)).1 ≤ 9999 := by rw [ha]; exact hy1
  have hF : t.Format =
      appendInt (civilFromDays (a / 86400)).1 4 ++ (appendInt (civilFromDays (a / 86400)).2.1 2 ++
        (appendInt (civilFromDays (a / 86400)).2.2 2 ++ (appendInt (r / 3600) 2 ++
          (appendInt (r % 3600 / 60) 2 ++ (appendInt (r % 60) 2 ++ []))))) := by
    rw [hr, ha]
    simp only [Time.Format, List.append_assoc, List.append_nil]
  generalize civilFromDays (a / 86400) = c at hm0 hm1 hd0 hd1 hrt hY0 hY1 hF
  obtain ⟨Y, M, D⟩ := c
  simp only at hm0 hm1 hd0 hd1 hrt hY0 hY1 hF
  obtain ⟨y0, y1, y2, y3, hY, -, -, -, -, hv⟩ := appendInt_year Y hY0 hY1
  have hcast : ((Y.toNat : Nat) : Int) = Y := Int.toNat_of_nonneg hY0
  have hr0 : 0 ≤ r := by omega
  have hr1 : r < 86400 := by omega
  have g1 := getnum_appendInt M (appendInt D 2 ++ (appendInt (r / 3600) 2 ++
    (appendInt (r % 3600 / 60) 2 ++ (appendInt (r % 60) 2 ++ [])))) true (by omega) (by omega)
  have hD31 : D ≤ 31 := by
    have : daysIn M Y ≤ 31 := by
      unfold daysIn
      split_ifs <;> omega
    omega
  have g2 := getnum_appendInt D (appendInt (r / 3600) 2 ++
    (appendInt (r % 3600 / 60) 2 ++ (appendInt (r % 60) 2 ++ []))) true (by omega) (by omega)
  have g3 := getnum_appendInt (r / 3600)
    (appendInt (r % 3600 / 60) 2 ++ (appendInt (r % 60) 2 ++ [])) false (by omega) (by omega)
  have g4 := getnum_appendInt (r % 3600 / 60) (appendInt (r % 60) 2 ++ []) true
    (by omega) (by omega)
  have g5 := getnum_appendInt (r % 60) [] true (by omega) (by omega)
  have n1 : ¬ (M ≤ 0 ∨ 12 < M) := by omega
  have n2 : ¬ (24 ≤ r / 3600) := by omega
  have n3 : ¬ (60 ≤ r % 3600 / 60) := by omega
  have n4 : ¬ (60 ≤ r % 60) := by omega
  have n5 : ¬ (D < 1 ∨ daysIn M Y < D) := by omega
  have hsum : daysFromCivil Y M D * 86400 + r / 3600 * 3600 + r % 3600 / 60 * 60 + r % 60 = a := by
    rw [hrt]
    omega
  rw [hF, hY]
  simp only [List.cons_append, List.nil_append, timeParse, hv, g1, g2, g3, g4, g5,
    if_neg n1, if_neg n2, if_neg n3, if_neg n4, hcast, if_neg n5, parseFraction_nil, hsum]
  rw [← ha]

/-! ### The time filter -/

theorem sub_neg_iff_before (t u : Time) (ht : t.nsec < 1000000000) (hu : u.nsec < 1000000000) :
    t.Sub u < 0 ↔ t.Before u = true := by
  simp only [Time.Sub, Time.Before, decide_eq_true_eq]
  split_ifs <;> omega

/-- The rendering of a time whose year has four digits is fourteen digits. -/
theorem format_digits (t : Time) (hy0 : 0 ≤ t.Year) (hy1 : t.Year ≤ 9999) :
    t.Format.length = 14 ∧ t.Format.all isDigit = true := by
  obtain ⟨a, ha⟩ : ∃ a, a = t.sec + t.offset := ⟨_, rfl⟩
  obtain ⟨r, hr⟩ : ∃ r, r = a % 86400 := ⟨_, rfl⟩
  obtain ⟨hm0, hm1, hd0, hd1, -⟩ := civilFromDays_spec (a / 86400)
  have hY0 : 0 ≤ (civilFromDays (a / 86400)).1 := by rw [ha]; exact hy0
  have hY1 : (civilFromDays (a / 86400)).1 ≤ 9999 := by rw [ha]; exact hy1
  have hF : t.Format =
      appendInt (civilFromDays (a / 86400)).1 4 ++ (appendInt (civilFromDays (a / 86400)).2.1 2 ++
        (appendInt (civilFromDays (a / 86400)).2.2 2 ++ (appendInt (r / 3600) 2 ++
          (appendInt (r % 3600 / 60) 2 ++ appendInt (r % 60) 2)))) := by
    rw [hr, ha]
    simp only [Time.Format, List.append_assoc]
  generalize civilFromDays (a / 86400) = c at hm0 hm1 hd0 hd1 hY0 hY1 hF
  obtain ⟨Y, M, D⟩ := c
  simp only at hm0 hm1 hd0 hd1 hY0 hY1 hF
  have hD31 : D ≤ 31 := by
    have : daysIn M Y ≤ 31 := by
      unfold daysIn
      split_ifs <;> omega
    omega
  have k1 := appendInt_digits Y 4 hY0 (by decide) (by norm_num; omega)
  have k2 := appendInt_digits M 2 (by omega) (by decide) (by norm_num; omega)
  have k3 := appendInt_digits D 2 (by omega) (by decide) (by norm_num; omega)
  have k4 := appendInt_digits (r / 3600) 2 (by omega) (by decide) (by norm_num; omega)
  have k5 := appendInt_digits (r % 3600 / 60) 2 (by omega) (by decide) (by norm_num; omega)
  have k6 := appendInt_digits (r % 60) 2 (by omega) (by decide) (by norm_num; omega)
  rw [hF]
  refine ⟨?_, ?_⟩
  · simp only [List.length_append, k1.1, k2.1, k3.1, k4.1, k5.1, k6.1]
  · simp only [List.all_append, List.all_eq_true.mpr k1.2.1, List.all_eq_true.mpr k2.2.1,
      List.all_eq_true.mpr k3.2.1, List.all_eq_true.mpr k4.2.1, List.all_eq_true.mpr k5.2.1,
      List.all_eq_true.mpr k6.2.1, Bool.and_self]

theorem setTimeFilter_ok (cdx : CDXAPI) (tFrom tTo : Time) (h : ¬ tTo.Sub tFrom < 0) :
    cdx.SetTimeFilter tFrom tTo = (none, { cdx with params :=
      (cdx.params.Set (ascii "from") tFrom.Format).Set (ascii "to") tTo.Format }) := by
  simp only [CDXAPI.SetTimeFilter, if_neg h]

theorem setTimeFilter_stored (cdx : CDXAPI) (tFrom tTo : Time) (h : ¬ tTo.Sub tFrom < 0) :
    (cdx.SetTimeFilter tFrom tTo).2.params.Get (ascii "from") = tFrom.Format ∧
    (cdx.SetTimeFilter tFrom tTo).2.params.Get (ascii "to") = tTo.Format := by
  rw [setTimeFilter_ok cdx tFrom tTo h]
  exact ⟨by rw [get_set_ne _ _ _ _ (by decide), get_set_same], get_set_same _ _ _⟩

/-- C14 (amended).  For times as Go builds them (nanoseconds below one second),
`SetTimeFilter(from, to)` fails, with `ErrorInvalidFromTo`, if and only if `to` is
strictly before `from`; it has no other error.  On success the stored `from` and `to`
parameters are `from.Format("20060102150405")` and `to.Format("20060102150405")`, and
the rendering of a bound is fourteen digits when the year of that bound, in its
location, is from 0 to 9999. -/
theorem c14_setTimeFilter (cdx : CDXAPI) (tFrom tTo : Time)
    (hf : tFrom.nsec < 1000000000) (ht : tTo.nsec < 1000000000) :
    ((cdx.SetTimeFilter tFrom tTo).1 = some .ErrorInvalidFromTo ↔ tTo.Before tFrom = true) ∧
    ((cdx.SetTimeFilter tFrom tTo).1 = none ↔ tTo.Before tFrom = false) ∧
    ((cdx.SetTimeFilter tFrom tTo).1 = none →
      (cdx.SetTimeFilter tFrom tTo).2.params.Get (ascii "from") = tFrom.Format ∧
      (cdx.SetTimeFilter tFrom tTo).2.params.Get (ascii "to") = tTo.Format ∧
      (0 ≤ tFrom.Year ∧ tFrom.Year ≤ 9999 →
        tFrom.Format.length = 14 ∧ tFrom.Format.all isDigit = true) ∧
      (0 ≤ tTo.Year ∧ tTo.Year ≤ 9999 →
        tTo.Format.length = 14 ∧ tTo.Format.all isDigit = true)) := by
  have hb := sub_neg_iff_before tTo tFrom ht hf
  by_cases h : tTo.Sub tFrom < 0
  · have hB : tTo.Before tFrom = true := hb.mp h
    have hs : cdx.SetTimeFilter tFrom tTo = (some .ErrorInvalidFromTo, cdx) := by
      simp only [CDXAPI.SetTimeFilter, if_pos h]
    rw [hs, hB]
    refine ⟨by simp, by simp, ?_⟩
    intro hn
    exact absurd hn (by simp)
  · have hB : tTo.Before tFrom = false := by
      cases e : tTo.Before tFrom
      · rfl
      · exact absurd (hb.mpr e) h
    have hst := setTimeFilter_stored cdx tFrom tTo h
    rw [setTimeFilter_ok cdx tFrom tTo h] at hst ⊢
    rw [hB]
    refine ⟨by simp, by simp, ?_⟩
    intro _
    exact ⟨hst.1, hst.2, fun hy => format_digits tFrom hy.1 hy.2,
      fun hy => format_digits tTo hy.1 hy.2⟩

/-- Witness for C14 with the two times of `TestCDXAPI_TimeFilter`. -/
theorem c14_setTimeFilter_witness :
    ((CDXAPI.empty.SetTimeFilter testTimeFrom testTimeTo).1 = some .ErrorInvalidFromTo ↔
      testTimeTo.Before testTimeFrom = true) ∧
    ((CDXAPI.empty.SetTimeFilter testTimeFrom testTimeTo).1 = none ↔
      testTimeTo.Before testTimeFrom = false) ∧
    ((CDXAPI.empty.SetTimeFilter testTimeFrom testTimeTo).1 = none →
      (CDXAPI.empty.SetTimeFilter testTimeFrom testTimeTo).2.params.Get (ascii "from") =
        testTimeFrom.Format ∧
      (CDXAPI.empty.SetTimeFilter testTimeFrom testTimeTo).2.params.Get (ascii "to") =
        testTimeTo.Format ∧
      (0 ≤ testTimeFrom.Year ∧ testTimeFrom.Year ≤ 9999 →
        testTimeFrom.Format.length = 14 ∧ testTimeFrom.Format.all isDigit = true) ∧
      (0 ≤ testTimeTo.Year ∧ testTimeTo.Year ≤ 9999 →
        testTimeTo.Format.length = 14 ∧ testTimeTo.Format.all isDigit = true)) :=
  c14_setTimeFilter CDXAPI.empty testTimeFrom testTimeTo (by decide) (by decide)

/-- C14, counterexample to the claim as written: the first second of the year 10000
is accepted as both bounds, and the stored `from` parameter is then the fifteen bytes
`100000101000000`, not a 14-digit rendering. -/
theorem c14_counterexample :
    (CDXAPI.empty.SetTimeFilter year10000 year10000).1 = none ∧
    (CDXAPI.empty.SetTimeFilter year10000 year10000).2.params.Get (ascii "from") =
      ascii "100000101000000" ∧
    ((CDXAPI.empty.SetTimeFilter year10000 year10000).2.params.Get (ascii "from")).length = 15 ∧
    year10000.Year = 10000 := by
  decide!

/-- C15 (amended).  For times in UTC as Go builds them, with `from` not after `to` and
the years of both from 0 to 9999, `SetTimeFilter(from, to)` succeeds and `TimeFilter()`
then returns exactly `from` and `to` truncated to whole seconds. -/
theorem c15_timeFilter_round_trip (cdx : CDXAPI) (tFrom tTo : Time)
    (hf : tFrom.nsec < 1000000000) (ht : tTo.nsec < 1000000000)
    (hfo : tFrom.offset = 0) (hto : tTo.offset = 0)
    (hfy : 0 ≤ tFrom.Year ∧ tFrom.Year ≤ 9999) (hty : 0 ≤ tTo.Year ∧ tTo.Year ≤ 9999)
    (hle : tTo.Before tFrom = false) :
    (cdx.SetTimeFilter tFrom tTo).1 = none ∧
    (cdx.SetTimeFilter tFrom tTo).2.TimeFilter = (tFrom.truncateSecond, tTo.truncateSecond) := by
  have h : ¬ tTo.Sub tFrom < 0 := by
    intro hlt
    have := (sub_neg_iff_before tTo tFrom ht hf).mp hlt
    rw [hle] at this
    exact absurd this (by decide)
  have hst := setTimeFilter_stored cdx tFrom tTo h
  refine ⟨by rw [setTimeFilter_ok cdx tFrom tTo h], ?_⟩
  simp only [CDXAPI.TimeFilter, hst.1, hst.2, timeParse_format tFrom hfy.1 hfy.2,
    timeParse_format tTo hty.1 hty.2, Time.truncateSecond, hfo, hto, add_zero]

/-- Witness for C15 with the two times of `TestCDXAPI_TimeFilter`. -/
theorem c15_timeFilter_round_trip_witness :
    (CDXAPI.empty.SetTimeFilter testTimeFrom testTimeTo).1 = none ∧
    (CDXAPI.empty.SetTimeFilter testTimeFrom testTimeTo).2.TimeFilter =
      (testTimeFrom.truncateSecond, testTimeTo.truncateSecond) :=
  c15_timeFilter_round_trip CDXAPI.empty testTimeFrom testTimeTo (by decide) (by decide)
    rfl rfl (by decide!) (by decide!) (by decide)

/-- C15, counterexamples to the claim as written.  A time in a zone one hour east of
UTC is stored as its wall clock and read back as that wall clock in UTC, an instant
one hour later than the one set; and bounds in the year 10000 are stored as fifteen
bytes, which do not parse, so that the getter returns the zero time twice. -/
theorem c15_counterexample :
    ((CDXAPI.empty.SetTimeFilter zonedEpoch zonedEpoch).1 = none ∧
      (CDXAPI.empty.SetTimeFilter zonedEpoch zonedEpoch).2.TimeFilter =
        (⟨3600, 0, 0⟩, ⟨3600, 0, 0⟩) ∧
      zonedEpoch.truncateSecond = ⟨0, 0, 3600⟩) ∧
    ((CDXAPI.empty.SetTimeFilter year10000 year10000).1 = none ∧
      (CDXAPI.empty.SetTimeFilter year10000 year10000).2.TimeFilter =
        (⟨-62135596800, 0, 0⟩, ⟨-62135596800, 0, 0⟩) ∧
      year10000.truncateSecond = ⟨253402300800, 0, 0⟩) := by
  decide!

/-! ### Adding filters and collapse directives -/

theorem fields_none_iff (fld : Int) : fields fld = none ↔ ¬ (0 ≤ fld ∧ fld ≤ 6) := by
  simp only [fields, FieldURLKey, FieldTimestamp, FieldOriginal, FieldMimetype,
    FieldStatuscode, FieldDigest, FieldLength]
  split_ifs <;> simp <;> omega

theorem fresh_filter_key {p : Values} {fk ck fs cs : List GoString} (h : Inv p fk ck fs cs) :
    ascii "filter" ++ natToDec fk.length ∉ p.entries.map Prod.fst := by
  intro hm
  have hk : synthKey (ascii "filter") (ascii "filter" ++ natToDec fk.length) = true :=
    synthKey_synthName _ _
  rcases h.dom _ hm with h1 | h1 | h1
  · rw [fixed_not_synth_filter _ h1] at hk
    exact absurd hk (by decide)
  · rw [inv_len_filter h] at h1
    rw [h.keysF] at h1
    exact synthName_not_mem (ascii "filter") fs.length h1
  · rw [synth_collapse_not_filter _ (inv_synth_collapse h _ h1)] at hk
    exact absurd hk (by decide)

theorem fresh_collapse_key {p : Values} {fk ck fs cs : List GoString} (h : Inv p fk ck fs cs) :
    ascii "collapse" ++ natToDec ck.length ∉ p.entries.map Prod.fst := by
  intro hm
  have hk : synthKey (ascii "collapse") (ascii "collapse" ++ natToDec ck.length) = true :=
    synthKey_synthName _ _
  rcases h.dom _ hm with h1 | h1 | h1
  · rw [fixed_not_synth_collapse _ h1] at hk
    exact absurd hk (by decide)
  · rw [synth_filter_not_collapse _ (inv_synth_filter h _ h1)] at hk
    exact absurd hk (by decide)
  · rw [inv_len_collapse h] at h1
    rw [h.keysC] at h1
    exact synthName_not_mem (ascii "collapse") cs.length h1

/-- C21.  On a configuration reached from the empty one by any calls,
`AddRegexFilter(field, pattern, negate)` returns `ErrorInvalidField` and changes nothing
when `field` is not one of the seven fields 0 to 6; otherwise it returns the error of
`regexp.Compile` and changes nothing when the pattern does not compile; otherwise it
succeeds, and stores under a synthetic key `filterN` that was not stored before the
value `<field>:<pattern>`, with `!` in front exactly when `negate` is set, where
`<field>` is the wire name of the field; the key is appended to the list of filter
keys and no other key changes its value. -/
theorem c21_addRegexFilter (env : Env) (ops : List Op) (cdx : CDXAPI)
    (hc : cdx = applyOps env CDXAPI.empty ops) (fld : Int) (regex : GoString) (negate : Bool) :
    (fields fld = none ↔ ¬ (0 ≤ fld ∧ fld ≤ 6)) ∧
    (fields fld = none →
      CDXAPI.AddRegexFilter env cdx fld regex negate = (some .ErrorInvalidField, cdx)) ∧
    (∀ err, fields fld ≠ none → env.regexpCompile regex = some err →
      CDXAPI.AddRegexFilter env cdx fld regex negate = (some err, cdx)) ∧
    (∀ name, fields fld = some name → env.regexpCompile regex = none →
      (CDXAPI.AddRegexFilter env cdx fld regex negate).1 = none ∧
      ∃ key, synthKey (ascii "filter") key = true ∧ key ∉ cdx.params.entries.map Prod.fst ∧
        (CDXAPI.AddRegexFilter env cdx fld regex negate).2.regFilterKeys =
          cdx.regFilterKeys ++ [key] ∧
        (CDXAPI.AddRegexFilter env cdx fld regex negate).2.params.Get key =
          (if negate then ascii "!" else []) ++ name ++ ascii ":" ++ regex ∧
        ∀ k, k ≠ key →
          (CDXAPI.AddRegexFilter env cdx fld regex negate).2.params.Get k = cdx.params.Get k) := by
  have hinv := reachable_inv env ops
  rw [← hc] at hinv
  refine ⟨fields_none_iff fld, ?_, ?_, ?_⟩
  · intro hf
    simp only [CDXAPI.AddRegexFilter, hf]
  · intro err hf he
    cases hn : fields fld with
    | none => exact absurd hn hf
    | some name => simp only [CDXAPI.AddRegexFilter, hn, he]
  · intro name hf he
    have hs : CDXAPI.AddRegexFilter env cdx fld regex negate =
        (none, { cdx with
          regFilterKeys := cdx.regFilterKeys ++ [ascii "filter" ++ natToDec cdx.regFilterKeys.length],
          params := cdx.params.Set (ascii "filter" ++ natToDec cdx.regFilterKeys.length)
            (filterValue name regex negate) }) := by
      simp only [CDXAPI.AddRegexFilter, hf, he]
    rw [hs]
    refine ⟨rfl, ascii "filter" ++ natToDec cdx.regFilterKeys.length, synthKey_synthName _ _,
      fresh_filter_key hinv, rfl, ?_, ?_⟩
    · exact get_set_same _ _ _
    · intro k hk
      exact get_set_ne _ _ _ _ hk

/-- Witness for C21: the negated filter of `TestCDXAPI_AddRegexFilter` on a fresh
configuration for `archive.org`. -/
theorem c21_addRegexFilter_witness :
    (CDXAPI.AddRegexFilter (fixedEnv []) (applyOps (fixedEnv []) CDXAPI.empty
        [.SetURL (ascii "archive.org")]) FieldDigest (ascii "XYA") true).1 = none ∧
    (CDXAPI.AddRegexFilter (fixedEnv []) (applyOps (fixedEnv []) CDXAPI.empty
        [.SetURL (ascii "archive.org")]) FieldDigest (ascii "XYA") true).2.params.Get
      (ascii "filter0") = ascii "!digest:XYA" ∧
    (CDXAPI.AddRegexFilter (fixedEnv []) (applyOps (fixedEnv []) CDXAPI.empty
        [.SetURL (ascii "archive.org")]) (-1) (ascii ".*") false) =
      (some .ErrorInvalidField, applyOps (fixedEnv []) CDXAPI.empty
        [.SetURL (ascii "archive.org")]) := by
  refine ⟨?_, by decide!, ?_⟩
  · exact ((c21_addRegexFilter (fixedEnv []) [.SetURL (ascii "archive.org")] _ rfl FieldDigest
      (ascii "XYA") true).2.2.2 (ascii "digest") (by decide!) rfl).1
  · exact (c21_addRegexFilter (fixedEnv []) [.SetURL (ascii "archive.org")] _ rfl (-1)
      (ascii ".*") false).2.1 (by decide!)

/-- C22.  On a configuration reached from the empty one by any calls,
`AddCollapsing(field, n)` returns `ErrorInvalidField` and changes nothing when `field`
is not one of the seven fields 0 to 6 (whatever `n` is); for a defined field it returns
`ErrorInvalidNumber` and changes nothing when `n < 0`; otherwise it succeeds and stores
under a synthetic key `collapseN` that was not stored before the wire name of the field
alone when `n = 0`, and the name, `:` and `n` in decimal when `n > 0`; the key is
appended to the list of collapse keys and no other key changes its value. -/
theorem c22_addCollapsing (env : Env) (ops : List Op) (cdx : CDXAPI)
    (hc : cdx = applyOps env CDXAPI.empty ops) (fld n : Int) :
    (fields fld = none ↔ ¬ (0 ≤ fld ∧ fld ≤ 6)) ∧
    (fields fld = none → cdx.AddCollapsing fld n = (some .ErrorInvalidField, cdx)) ∧
    (fields fld ≠ none → n < 0 → cdx.AddCollapsing fld n = (some .ErrorInvalidNumber, cdx)) ∧
    (∀ name, fields fld = some name → 0 ≤ n →
      (cdx.AddCollapsing fld n).1 = none ∧
      ∃ key, synthKey (ascii "collapse") key = true ∧ key ∉ cdx.params.entries.map Prod.fst ∧
        (cdx.AddCollapsing fld n).2.collapsingKeys = cdx.collapsingKeys ++ [key] ∧
        (n = 0 → (cdx.AddCollapsing fld n).2.params.Get key = name) ∧
        (0 < n → (cdx.AddCollapsing fld n).2.params.Get key =
          name ++ ascii ":" ++ natToDec n.natAbs) ∧
        ∀ k, k ≠ key → (cdx.AddCollapsing fld n).2.params.Get k = cdx.params.Get k) := by
  have hinv := reachable_inv env ops
  rw [← hc] at hinv
  refine ⟨fields_none_iff fld, ?_, ?_, ?_⟩
  · intro hf
    simp only [CDXAPI.AddCollapsing, hf]
  · intro hf hn
    cases hx : fields fld with
    | none => exact absurd hx hf
    | some name => simp only [CDXAPI.AddCollapsing, hx, if_pos hn]
  · intro name hf hn
    have hn2 : ¬ n < 0 := by omega
    have hs : cdx.AddCollapsing fld n =
        (none, { cdx with
          collapsingKeys :=
            cdx.collapsingKeys ++ [ascii "collapse" ++ natToDec cdx.collapsingKeys.length],
          params := cdx.params.Set (ascii "collapse" ++ natToDec cdx.collapsingKeys.length)
            (collapseValue name n) }) := by
      simp only [CDXAPI.AddCollapsing, hf, if_neg hn2]
    rw [hs]
    refine ⟨rfl, ascii "collapse" ++ natToDec cdx.collapsingKeys.length, synthKey_synthName _ _,
      fresh_collapse_key hinv, rfl, ?_, ?_, ?_⟩
    · intro h0
      have : ¬ n > 0 := by omega
      show (cdx.params.Set _ _).Get _ = _
      rw [get_set_same]
      simp only [collapseValue, if_neg this, List.append_nil]
    · intro h0
      have : n > 0 := h0
      show (cdx.params.Set _ _).Get _ = _
      rw [get_set_same]
      simp only [collapseValue, if_pos this, itoa_pos n h0, List.append_assoc]
    · intro k hk
      exact get_set_ne _ _ _ _ hk

/-- Witness for C22: the two successful calls of `TestCDXAPI_AddCollapsing` and its two
failing ones, on a fresh configuration for `archive.org`. -/
theorem c22_addCollapsing_witness :
    ((applyOps (fixedEnv []) CDXAPI.empty [.SetURL (ascii "archive.org")]).AddCollapsing
        FieldDigest 0).2.params.Get (ascii "collapse0") = ascii "digest" ∧
    ((applyOps (fixedEnv []) CDXAPI.empty [.SetURL (ascii "archive.org")]).AddCollapsing
        FieldDigest 10).2.params.Get (ascii "collapse0") = ascii "digest:10" ∧
    ((applyOps (fixedEnv []) CDXAPI.empty [.SetURL (ascii "archive.org")]).AddCollapsing
        FieldDigest (-1)) = (some .ErrorInvalidNumber,
      applyOps (fixedEnv []) CDXAPI.empty [.SetURL (ascii "archive.org")]) ∧
    ((applyOps (fixedEnv []) CDXAPI.empty [.SetURL (ascii "archive.org")]).AddCollapsing
        (-1) 1) = (some .ErrorInvalidField,
      applyOps (fixedEnv []) CDXAPI.empty [.SetURL (ascii "archive.org")]) := by
  refine ⟨by decide!, by decide!, ?_, ?_⟩
  · exact (c22_addCollapsing (fixedEnv []) [.SetURL (ascii "archive.org")] _ rfl FieldDigest
      (-1)).2.2.1 (by decide!) (by decide)
  · exact (c22_addCollapsing (fixedEnv []) [.SetURL (ascii "archive.org")] _ rfl (-1) 1).2.1
      (by decide!)

/-! ### The target URL and the output encoding -/

/-- C23 (amended).  `SetURL(url)` returns the error of `neturl.Parse` itself when `url`
does not parse, returns `ErrorInvalidScheme` when it parses with a scheme other than
`http`, `https` or the empty one, and changes nothing in both cases; otherwise it
succeeds, and `URL()` then returns `url` unchanged. -/
theorem c23_setURL (env : Env) (cdx : CDXAPI) (url : GoString) :
    (∀ err, env.urlParse url = .error err → CDXAPI.SetURL env cdx url = (some err, cdx)) ∧
    (∀ scheme, env.urlParse url = .ok scheme →
      scheme ≠ ascii "http" → scheme ≠ ascii "https" → scheme ≠ ascii "" →
      CDXAPI.SetURL env cdx url = (some .ErrorInvalidScheme, cdx)) ∧
    (∀ scheme, env.urlParse url = .ok scheme →
      scheme = ascii "http" ∨ scheme = ascii "https" ∨ scheme = ascii "" →
      (CDXAPI.SetURL env cdx url).1 = none ∧ (CDXAPI.SetURL env cdx url).2.URL = url) := by
  refine ⟨?_, ?_, ?_⟩
  · intro err h
    simp only [CDXAPI.SetURL, h]
  · intro scheme h h1 h2 h3
    have hn : ¬ (scheme = ascii "http" ∨ scheme = ascii "https" ∨ scheme = ascii "") := by
      rintro (e | e | e)
      · exact h1 e
      · exact h2 e
      · exact h3 e
    simp [CDXAPI.SetURL, h, hn]
  · intro scheme h hs
    have e : CDXAPI.SetURL env cdx url =
        (none, { cdx with params := cdx.params.Set (ascii "url") url }) := by
      simp [CDXAPI.SetURL, h, hs]
    rw [e]
    exact ⟨rfl, get_set_same _ _ _⟩

/-- Witness for C23: the three kinds of URL in one environment. -/
theorem c23_setURL_witness :
    CDXAPI.SetURL schemeEnv CDXAPI.empty (ascii "ftp://archive.org") =
      (some .ErrorInvalidScheme, CDXAPI.empty) ∧
    ((CDXAPI.SetURL schemeEnv CDXAPI.empty (ascii "archive.org")).1 = none ∧
      (CDXAPI.SetURL schemeEnv CDXAPI.empty (ascii "archive.org")).2.URL = ascii "archive.org") := by
  refine ⟨?_, ?_⟩
  · exact (c23_setURL schemeEnv CDXAPI.empty (ascii "ftp://archive.org")).2.1 (ascii "ftp")
      (by decide!) (by decide) (by decide) (by decide)
  · exact (c23_setURL schemeEnv CDXAPI.empty (ascii "archive.org")).2.2 [] (by decide!)
      (Or.inr (Or.inr rfl))

/-- C23, counterexample to the claim as written: for a string that does not parse,
`SetURL` returns the parser's error, which is not `ErrorInvalidURL`. -/
theorem c23_counterexample :
    CDXAPI.SetURL schemeEnv CDXAPI.empty (ascii ":") =
      (some (.library (ascii "missing protocol scheme")), CDXAPI.empty) ∧
    (CDXAPI.SetURL schemeEnv CDXAPI.empty (ascii ":")).1 ≠ some .ErrorInvalidURL := by
  decide!

theorem setURL_url_of_ok (env : Env) (cdx : CDXAPI) (url : GoString)
    (h : (CDXAPI.SetURL env cdx url).1 = none) : (CDXAPI.SetURL env cdx url).2.URL = url := by
  simp only [CDXAPI.SetURL] at h ⊢
  split at h
  · exact absurd h (by simp)
  · split at h
    · exact absurd h (by simp)
    · rename_i hp hs
      simp only [hp, hs]
      exact get_set_same _ _ _

theorem url_perform (env : Env) (cdx : CDXAPI) (net : Except Error HTTPResponse) :
    (CDXAPI.Perform env cdx net).2.URL = cdx.URL := by
  apply perform_induct (fun c => c.URL = cdx.URL) env cdx net rfl
  · intro c h
    show (c.params.Set _ _).Get _ = _
    rw [get_set_ne _ _ _ _ (by decide)]
    exact h
  · intro c h
    show (c.params.Del _).Get _ = _
    rw [get_del_ne _ _ _ (by decide)]
    exact h
  · intro c b h
    exact h
  · intro c res rows h
    show (decodeRows c res rows).2.params.Get _ = _
    rw [(decodeRows_other_keys rows c res (ascii "url") (by decide)).1]
    exact h

theorem url_rawPerform (cdx : CDXAPI) (net : Except Error HTTPResponse) :
    (cdx.RawPerform net).2.URL = cdx.URL := by
  simp only [CDXAPI.RawPerform]
  split
  · rfl
  · split
    · rfl
    · split <;> rfl

theorem url_ne_synth (name : GoString) (n : Nat) (h : synthKey name (ascii "url") = false) :
    ascii "url" ≠ name ++ natToDec n := by
  intro e
  have := synthKey_synthName name n
  rw [synthName, ← e, h] at this
  exact absurd this (by decide)

/-- A call leaves the stored target alone, unless it is a `SetURL`, which stores its
argument or fails. -/
theorem url_applyOp (env : Env) (cdx : CDXAPI) (op : Op) (fs cs : List GoString)
    (h : Inv cdx.params cdx.regFilterKeys cdx.collapsingKeys fs cs) :
    (applyOp env cdx op).URL = cdx.URL ∨
      ∃ u, op = .SetURL u ∧ (applyOp env cdx op).URL = u := by
  have hu := inv_fixed_not_listed h (ascii "url") (by decide)
  have k1 : ascii "url" ≠ ascii "matchType" := by decide
  have k2 : ascii "url" ≠ ascii "output" := by decide
  have k3 : ascii "url" ≠ ascii "limit" := by decide
  have k4 : ascii "url" ≠ ascii "from" := by decide
  have k5 : ascii "url" ≠ ascii "to" := by decide
  have k6 : ascii "url" ≠ ascii "gzip" := by decide
  have k7 : ascii "url" ≠ ascii "offset" := by decide
  have k8 : ascii "url" ≠ ascii "resumeKey" := by decide
  have k9 : ascii "url" ≠ ascii "showResumeKey" := by decide
  have k10 : ascii "url" ≠ ascii "page" := by decide
  have k11 := url_ne_synth (ascii "filter") cdx.regFilterKeys.length
    (fixed_not_synth_filter _ (by decide))
  have k12 := url_ne_synth (ascii "collapse") cdx.collapsingKeys.length
    (fixed_not_synth_collapse _ (by decide))
  cases op with
  | SetURL u =>
    simp only [applyOp, CDXAPI.SetURL]
    split
    · exact Or.inl rfl
    · split
      · exact Or.inl rfl
      · exact Or.inr ⟨u, rfl, get_set_same _ _ _⟩
  | ResetRegexFilters =>
    exact Or.inl (get_foldl_del _ _ _ hu.1)
  | ResetCollapsing =>
    exact Or.inl (get_foldl_del _ _ _ hu.2)
  | Perform net => exact Or.inl (url_perform env cdx net)
  | RawPerform net => exact Or.inl (url_rawPerform cdx net)
  | SetAPIKey a => exact Or.inl rfl
  | SetMatchType m =>
    left
    simp only [applyOp, CDXAPI.SetMatchType, CDXAPI.URL]
    split
    · rfl
    · exact get_set_ne _ _ _ _ k1
  | ResetMatchType => exact Or.inl (get_set_ne _ _ _ _ k1)
  | SetOutputFormat f =>
    left
    simp only [applyOp, CDXAPI.SetOutputFormat, CDXAPI.URL]
    split
    · rfl
    · split
      · exact get_del_ne _ _ _ k2
      · exact get_set_ne _ _ _ _ k2
  | ResetOutputFormat => exact Or.inl (get_del_ne _ _ _ k2)
  | SetLimit l =>
    left
    simp only [applyOp, CDXAPI.SetLimit, CDXAPI.URL]
    split
    · rfl
    · exact get_set_ne _ _ _ _ k3
  | ResetLimit => exact Or.inl (get_del_ne _ _ _ k3)
  | AddRegexFilter fld regex negate =>
    left
    simp only [applyOp, CDXAPI.AddRegexFilter, CDXAPI.URL]
    split
    · rfl
    · split
      · rfl
      · exact get_set_ne _ _ _ _ k11
  | SetTimeFilter a b =>
    left
    simp only [applyOp, CDXAPI.SetTimeFilter, CDXAPI.URL]
    split
    · rfl
    · show ((cdx.params.Set _ _).Set _ _).Get _ = _
      rw [get_set_ne _ _ _ _ k5, get_set_ne _ _ _ _ k4]
  | ResetTimeFilter =>
    left
    show ((cdx.params.Del _).Del _).Get _ = _
    rw [get_del_ne _ _ _ k5, get_del_ne _ _ _ k4]
    rfl
  | AddCollapsing fld n =>
    left
    simp only [applyOp, CDXAPI.AddCollapsing, CDXAPI.URL]
    split
    · rfl
    · split
      · rfl
      · exact get_set_ne _ _ _ _ k12
  | SetGzip e =>
    left
    simp only [applyOp, CDXAPI.SetGzip, CDXAPI.URL]
    split
    · exact get_del_ne _ _ _ k6
    · exact get_set_ne _ _ _ _ k6
  | ResetGzip => exact Or.inl (get_del_ne _ _ _ k6)
  | SetOffset o =>
    left
    simp only [applyOp, CDXAPI.SetOffset, CDXAPI.URL]
    split
    · rfl
    · exact get_set_ne _ _ _ _ k7
  | ResetOffset => exact Or.inl (get_del_ne _ _ _ k7)
  | SetResumptionKey e key =>
    left
    simp only [applyOp, CDXAPI.SetResumptionKey, CDXAPI.URL]
    split
    · rfl
    · split
      · show ((cdx.params.Set _ _).Set _ _).Get _ = _
        rw [get_set_ne _ _ _ _ k9, get_set_ne _ _ _ _ k8]
      · show ((cdx.params.Del _).Del _).Get _ = _
        rw [get_del_ne _ _ _ k9, get_del_ne _ _ _ k8]
  | ResetResumptionKey =>
    left
    simp only [applyOp, CDXAPI.ResetResumptionKey, CDXAPI.SetResumptionKey, CDXAPI.URL]
    split
    · rfl
    · show ((cdx.params.Del _).Del _).Get _ = _
      rw [get_del_ne _ _ _ k9, get_del_ne _ _ _ k8]
  | SetPagination e p =>
    left
    simp only [applyOp, CDXAPI.SetPagination, CDXAPI.URL]
    split
    · rfl
    · split
      · rfl
      · split
        · exact get_set_ne _ _ _ _ k10
        · exact get_del_ne _ _ _ k10
  | ResetPagination =>
    left
    simp only [applyOp, CDXAPI.ResetPagination, CDXAPI.SetPagination, CDXAPI.URL]
    split
    · rfl
    · split
      · rfl
      · exact get_del_ne _ _ _ k10

theorem url_applyOps (env : Env) (ops : List Op) :
    ∀ (cdx : CDXAPI) (fs cs : List GoString),
      Inv cdx.params cdx.regFilterKeys cdx.collapsingKeys fs cs → cdx.URL ≠ ascii "" →
      (∀ u, Op.SetURL u ∈ ops → u ≠ ascii "") → (applyOps env cdx ops).URL ≠ ascii "" := by
  induction ops with
  | nil =>
    intro cdx fs cs _ hne _
    exact hne
  | cons op rest ih =>
    intro cdx fs cs hinv hne hops
    have hstep : (applyOp env cdx op).URL ≠ ascii "" := by
      rcases url_applyOp env cdx op fs cs hinv with e | ⟨u, rfl, e⟩
      · rw [e]
        exact hne
      · rw [e]
        exact hops u (List.mem_cons_self _ _)
    exact ih (applyOp env cdx op) _ _ (applyOp_inv env cdx op fs cs hinv) hstep
      (fun u hu => hops u (List.mem_cons_of_mem _ hu))

/-- C24 (amended).  If `NewCDXAPI(url)` succeeds, `URL()` of the configuration it
returns is `url`.  If `url` is not empty and no `SetURL` call of a sequence of calls has
an empty argument, then after the sequence `URL()` is not empty and `buildURL` does not
fail. -/
theorem c24_target_kept (env : Env) (url : GoString) (c0 : CDXAPI)
    (h : NewCDXAPI env url = .ok c0) (ops : List Op) (hurl : url ≠ ascii "")
    (hops : ∀ u, Op.SetURL u ∈ ops → u ≠ ascii "") :
    c0.URL = url ∧ (applyOps env c0 ops).URL ≠ ascii "" ∧
      ∀ urlDst, ((applyOps env c0 ops).buildURL urlDst).1 = none := by
  have e0 := newCDXAPI_eq_applyOps env url c0 h
  have hinv : Inv c0.params c0.regFilterKeys c0.collapsingKeys
      (addedFilters env CDXAPI.empty [] [.SetURL url])
      (addedCollapses env CDXAPI.empty [] [.SetURL url]) := by
    rw [e0]
    exact reachable_inv env [.SetURL url]
  have hu : c0.URL = url := by
    have h3 := setURL_url_of_ok env CDXAPI.empty url
    unfold NewCDXAPI at h
    rcases hs : CDXAPI.SetURL env CDXAPI.empty url with ⟨e, c⟩
    rw [hs] at h h3
    cases e with
    | some err => exact absurd h (by simp)
    | none =>
      simp only [Except.ok.injEq] at h
      subst h
      exact h3 rfl
  have hne := url_applyOps env ops c0 _ _ hinv (by rw [hu]; exact hurl) hops
  refine ⟨hu, hne, ?_⟩
  intro urlDst
  simp only [CDXAPI.URL] at hne
  simp only [CDXAPI.buildURL, if_neg hne]

/-- Witness for C24: the configuration for `archive.org` after the calls of
`TestCDXAPI_buildURL`. -/
theorem c24_target_kept_witness :
    (applyOps (fixedEnv []) CDXAPI.empty [.SetURL (ascii "archive.org")]).URL =
      ascii "archive.org" ∧
    (applyOps (fixedEnv []) (applyOps (fixedEnv []) CDXAPI.empty [.SetURL (ascii "archive.org")])
      buildURLTestOps).URL ≠ ascii "" ∧
    ∀ urlDst, ((applyOps (fixedEnv []) (applyOps (fixedEnv []) CDXAPI.empty
      [.SetURL (ascii "archive.org")]) buildURLTestOps).buildURL urlDst).1 = none :=
  c24_target_kept (fixedEnv []) (ascii "archive.org") _ rfl buildURLTestOps (by decide)
    (by
      intro u hu
      simp only [buildURLTestOps, List.mem_cons, Op.SetURL.injEq, reduceCtorEq, false_or,
        or_false, List.mem_nil_iff, List.mem_singleton] at hu
      rw [hu]
      decide)

/-- C24, counterexamples to the claim as written.  The empty string parses as a URL, so
`NewCDXAPI("")` succeeds with an empty target, and `SetURL("")` empties the target of
a configuration made for `archive.org`; in both configurations `buildURL` fails with
`ErrorInvalidURL`. -/
theorem c24_counterexample :
    (NewCDXAPI (fixedEnv []) (ascii "") =
        .ok (applyOps (fixedEnv []) CDXAPI.empty [.SetURL (ascii "")]) ∧
      (applyOps (fixedEnv []) CDXAPI.empty [.SetURL (ascii "")]).URL = ascii "" ∧
      ((applyOps (fixedEnv []) CDXAPI.empty [.SetURL (ascii "")]).buildURL []).1 =
        some .ErrorInvalidURL) ∧
    (NewCDXAPI (fixedEnv []) (ascii "archive.org") =
        .ok (applyOps (fixedEnv []) CDXAPI.empty [.SetURL (ascii "archive.org")]) ∧
      (applyOps (fixedEnv []) CDXAPI.empty
        [.SetURL (ascii "archive.org"), .SetURL (ascii "")]).URL = ascii "" ∧
      ((applyOps (fixedEnv []) CDXAPI.empty
        [.SetURL (ascii "archive.org"), .SetURL (ascii "")]).buildURL []).1 =
          some .ErrorInvalidURL) := by
  decide!

theorem outputFormats_none_iff (f : Int) :
    outputFormats f = none ↔ f ≠ OutputFormatJSON ∧ f ≠ OutputFormatCDX := by
  simp only [outputFormats]
  split_ifs <;> simp_all

/-- C25.  `SetOutputFormat(fmt)` returns `ErrorInvalidOutputFormat` and changes nothing
for every value other than the two defined encodings.  `SetOutputFormat(CDX)` succeeds
and leaves no `output` key stored; `SetOutputFormat(JSON)` succeeds and stores
`output=json`; in both cases `OutputFormat()` then returns the format set and no other
key changes its value.  A configuration without a stored `output` key reports CDX. -/
theorem c25_setOutputFormat (cdx : CDXAPI) :
    (∀ f, f ≠ OutputFormatJSON → f ≠ OutputFormatCDX →
      cdx.SetOutputFormat f = (some .ErrorInvalidOutputFormat, cdx)) ∧
    ((cdx.SetOutputFormat OutputFormatCDX).1 = none ∧
      ascii "output" ∉ (cdx.SetOutputFormat OutputFormatCDX).2.params.entries.map Prod.fst ∧
      (cdx.SetOutputFormat OutputFormatCDX).2.OutputFormat = OutputFormatCDX) ∧
    ((cdx.SetOutputFormat OutputFormatJSON).1 = none ∧
      (cdx.SetOutputFormat OutputFormatJSON).2.params.Get (ascii "output") = ascii "json" ∧
      ascii "output" ∈ (cdx.SetOutputFormat OutputFormatJSON).2.params.entries.map Prod.fst ∧
      (cdx.SetOutputFormat OutputFormatJSON).2.OutputFormat = OutputFormatJSON) ∧
    (∀ f k, k ≠ ascii "output" →
      (cdx.SetOutputFormat f).2.params.Get k = cdx.params.Get k) ∧
    (ascii "output" ∉ cdx.params.entries.map Prod.fst → cdx.OutputFormat = OutputFormatCDX) := by
  have hc : cdx.SetOutputFormat OutputFormatCDX =
      (none, { cdx with params := cdx.params.Del (ascii "output") }) := rfl
  have hj : cdx.SetOutputFormat OutputFormatJSON =
      (none, { cdx with params := cdx.params.Set (ascii "output") (ascii "json") }) := rfl
  refine ⟨?_, ?_, ?_, ?_, ?_⟩
  · intro f h1 h2
    have := (outputFormats_none_iff f).mpr ⟨h1, h2⟩
    simp only [CDXAPI.SetOutputFormat, this]
  · rw [hc]
    refine ⟨rfl, ?_, ?_⟩
    · intro hm
      exact ((mem_keys_del _ _ _).mp hm).1 rfl
    · show (if (cdx.params.Del (ascii "output")).Get (ascii "output") = ascii "json" then _
        else _) = _
      rw [get_del_same]
      rfl
  · rw [hj]
    refine ⟨rfl, get_set_same _ _ _, (mem_keys_set _ _ _ _).mpr (Or.inl rfl), ?_⟩
    show (if (cdx.params.Set (ascii "output") (ascii "json")).Get (ascii "output") = ascii "json"
      then _ else _) = _
    rw [get_set_same]
    rfl
  · intro f k hk
    simp only [CDXAPI.SetOutputFormat]
    split
    · rfl
    · split
      · exact get_del_ne _ _ _ hk
      · exact get_set_ne _ _ _ _ hk
  · intro hm
    show (if cdx.params.Get (ascii "output") = ascii "json" then _ else _) = _
    rw [get_not_mem _ _ hm]
    rfl

/-! ### Reading a snapshot -/

/-- C26 (code defect).  When the request of the first `Read` on an unopened handle is
answered with a status other than 200, that `Read` returns `ErrorBadResponse`, but the
handle is not exhausted: it keeps the response, its `eof` flag stays unset, and the
next `Read` reads from the body of the refused response, whatever the transport would
answer now.  With a non-empty body and a non-empty buffer it returns data, not
end-of-data. -/
theorem c26_bad_status_not_terminal (newRequest : GoString → Option Error)
    (dr : cdxResultReader) (resp : HTTPResponse) (size : Nat)
    (h1 : dr.eof = false) (h2 : dr.resp = none)
    (h3 : newRequest (dataURL ++ ascii "/" ++ dr.timestamp.Format ++ ascii "/" ++ dr.original) =
      none)
    (hs : resp.StatusCode ≠ 200) :
    (dr.Read newRequest (.ok resp) size).n = 0 ∧
    (dr.Read newRequest (.ok resp) size).err = some .ErrorBadResponse ∧
    (dr.Read newRequest (.ok resp) size).reader = { dr with resp := some resp } ∧
    (dr.Read newRequest (.ok resp) size).reader.eof = false ∧
    ∀ net2 size2,
      ((dr.Read newRequest (.ok resp) size).reader.Read newRequest net2 size2).n =
        (resp.Read size2).1.1 ∧
      ((dr.Read newRequest (.ok resp) size).reader.Read newRequest net2 size2).err =
        (resp.Read size2).1.2.1 ∧
      ((dr.Read newRequest (.ok resp) size).reader.Read newRequest net2 size2).data =
        (resp.Read size2).1.2.2 ∧
      (∀ b bs, resp.Body = .ok (b :: bs) → 0 < size2 →
        ((dr.Read newRequest (.ok resp) size).reader.Read newRequest net2 size2).err = none ∧
        0 < ((dr.Read newRequest (.ok resp) size).reader.Read newRequest net2 size2).n) := by
  have e : dr.Read newRequest (.ok resp) size =
      ⟨0, some .ErrorBadResponse, [], true, { dr with resp := some resp }⟩ := by
    simp only [cdxResultReader.Read, h1, h2, h3, if_pos hs]
    simp
  rw [e]
  refine ⟨rfl, rfl, rfl, h1, ?_⟩
  intro net2 size2
  have e2 : cdxResultReader.Read newRequest { dr with resp := some resp } net2 size2 =
      ⟨(resp.Read size2).1.1, (resp.Read size2).1.2.1, (resp.Read size2).1.2.2, false,
        { dr with resp := some (resp.Read size2).2 }⟩ := by
    simp only [cdxResultReader.Read, h1]
    simp
  rw [e2]
  refine ⟨rfl, rfl, rfl, ?_⟩
  intro b bs hb hpos
  obtain ⟨k, rfl⟩ : ∃ k, size2 = k + 1 := ⟨size2 - 1, by omega⟩
  simp [HTTPResponse.Read, hb]

/-- Witness for C26: a 404 response with the body `not found`; the second `Read`, with
a buffer of 16 bytes, returns these nine bytes and no error. -/
theorem c26_bad_status_not_terminal_witness :
    (freshHandle.Read (fun _ => none) (.ok notFoundResponse) 16).err = some .ErrorBadResponse ∧
    (freshHandle.Read (fun _ => none) (.ok notFoundResponse) 16).reader.eof = false ∧
    ((freshHandle.Read (fun _ => none) (.ok notFoundResponse) 16).reader.Read (fun _ => none)
      (.error ioEOF) 16).n = 9 ∧
    ((freshHandle.Read (fun _ => none) (.ok notFoundResponse) 16).reader.Read (fun _ => none)
      (.error ioEOF) 16).err = none ∧
    ((freshHandle.Read (fun _ => none) (.ok notFoundResponse) 16).reader.Read (fun _ => none)
      (.error ioEOF) 16).data = ascii "not found" := by
  refine ⟨?_, ?_, by decide!, by decide!, by decide!⟩
  · exact (c26_bad_status_not_terminal (fun _ => none) freshHandle notFoundResponse 16 rfl rfl
      rfl (by decide)).2.1
  · exact (c26_bad_status_not_terminal (fun _ => none) freshHandle notFoundResponse 16 rfl rfl
      rfl (by decide)).2.2.2.1

theorem read_closed (newRequest : GoString → Option Error) (dr : cdxResultReader)
    (net : Except Error HTTPResponse) (size : Nat) (h : dr.eof = true ∨ dr.resp ≠ none) :
    (dr.Read newRequest net size).fetched = false ∧
    ((dr.Read newRequest net size).reader.eof = true ∨
      (dr.Read newRequest net size).reader.resp ≠ none) := by
  by_cases he : dr.eof = true
  · simp [cdxResultReader.Read, he]
  · have hr : dr.resp ≠ none := by
      rcases h with h | h
      · exact absurd h he
      · exact h
    cases hx : dr.resp with
    | none => exact absurd hx hr
    | some resp =>
      simp only [cdxResultReader.Read, he, hx]
      simp

theorem read_fetched_closed (newRequest : GoString → Option Error) (dr : cdxResultReader)
    (net : Except Error HTTPResponse) (size : Nat)
    (h : (dr.Read newRequest net size).fetched = true) :
    (dr.Read newRequest net size).reader.eof = true ∨
      (dr.Read newRequest net size).reader.resp ≠ none := by
  by_cases hc : dr.eof = true ∨ dr.resp ≠ none
  · exact (read_closed newRequest dr net size hc).2
  · have he : dr.eof = false := by
      cases e : dr.eof
      · rfl
      · exact absurd (Or.inl e) hc
    have hr : dr.resp = none := by
      cases e : dr.resp
      · rfl
      · exact absurd (Or.inr (by rw [e]; simp)) hc
    cases hn : newRequest
        (dataURL ++ ascii "/" ++ dr.timestamp.Format ++ ascii "/" ++ dr.original) with
    | some err =>
      simp only [cdxResultReader.Read, he, hr, hn] at h
      simp at h
    | none =>
      cases net with
      | error err =>
        simp only [cdxResultReader.Read, he, hr, hn]
        simp
      | ok resp =>
        by_cases hst : resp.StatusCode = 200
        · simp only [cdxResultReader.Read, he, hr, hn]
          simp [hst]
        · simp only [cdxResultReader.Read, he, hr, hn]
          simp [hst]

theorem countFetches_closed (newRequest : GoString → Option Error)
    (calls : List (Except Error HTTPResponse × Nat)) :
    ∀ dr : cdxResultReader, dr.eof = true ∨ dr.resp ≠ none →
      countFetches newRequest dr calls = 0 := by
  induction calls with
  | nil => intro dr _; rfl
  | cons c rest ih =>
    intro dr h
    obtain ⟨net, size⟩ := c
    have hc := read_closed newRequest dr net size h
    simp only [countFetches, hc.1, ih _ hc.2]
    simp

/-- C27.  Whatever the handle, the sizes of the buffers and the answers of the
transport (an error, a status other than 200, or a status 200), a sequence of `Read`
calls on one handle sends at most one request. -/
theorem c27_at_most_one_fetch (newRequest : GoString → Option Error)
    (calls : List (Except Error HTTPResponse × Nat)) :
    ∀ dr : cdxResultReader, countFetches newRequest dr calls ≤ 1 := by
  induction calls with
  | nil => intro dr; simp [countFetches]
  | cons c rest ih =>
    intro dr
    obtain ⟨net, size⟩ := c
    by_cases hf : (dr.Read newRequest net size).fetched = true
    · have hc := read_fetched_closed newRequest dr net size hf
      simp only [countFetches, hf, countFetches_closed newRequest rest _ hc]
      simp
    · have := ih (dr.Read newRequest net size).reader
      simp only [countFetches, hf]
      simpa using this

/-! ### Skipped rows, the forced output key, and short rows -/

theorem decodeRows_skip_empty (rows : List (List GoString)) :
    ∀ (cdx : CDXAPI) (result : List CDXResult),
      decodeRows cdx result rows =
        decodeRows cdx result (rows.filter (fun r => decide (r ≠ []))) := by
  induction rows with
  | nil => intro cdx result; rfl
  | cons row rest ih =>
    intro cdx result
    match row with
    | [] =>
      rw [List.filter_cons_of_neg (by simp)]
      simp only [decodeRows]
      exact ih cdx result
    | [key] =>
      rw [List.filter_cons_of_pos (by simp)]
      simp only [decodeRows]
      split
      · exact ih _ result
      · exact ih cdx result
    | f0 :: f1 :: fs =>
      rw [List.filter_cons_of_pos (by simp)]
      simp only [decodeRows]
      split
      · rfl
      · exact ih cdx _

/-- C28.  `Perform` depends on the decoded body only through the rows after row 0 that
are not empty: two decoders whose results agree on these rows (and on the decoding
errors) give the same outcome (records, error, or panic) and the same configuration
afterwards, stored cursor included.  So the content of row 0 does not matter, and an
empty row at a later position contributes nothing. -/
theorem c28_row0_and_empty_rows_skipped (env env2 : Env) (cdx : CDXAPI)
    (net : Except Error HTTPResponse)
    (h : ∀ body, (env.jsonUnmarshal body).map countedRows =
      (env2.jsonUnmarshal body).map countedRows) :
    CDXAPI.Perform env cdx net = CDXAPI.Perform env2 cdx net := by
  unfold CDXAPI.Perform
  simp only []
  generalize (if (!decide (cdx.params.Get (ascii "output") = ascii "json")) = true then
      { cdx with params := cdx.params.Set (ascii "output") (ascii "json") } else cdx) = c1
  rcases c1.RawPerform net with ⟨r, c2⟩
  cases r with
  | error e => rfl
  | ok qry =>
    simp only []
    cases qry.resp.Body with
    | error e => rfl
    | ok qryRes =>
      simp only []
      have hb := h qryRes
      cases hj : env.jsonUnmarshal qryRes with
      | error e =>
        cases hj2 : env2.jsonUnmarshal qryRes with
        | error e2 =>
          rw [hj, hj2] at hb
          simp only [Except.map, Except.error.injEq] at hb
          rw [hb]
        | ok s2 =>
          rw [hj, hj2] at hb
          simp [Except.map] at hb
      | ok s =>
        cases hj2 : env2.jsonUnmarshal qryRes with
        | error e2 =>
          rw [hj, hj2] at hb
          simp [Except.map] at hb
        | ok s2 =>
          rw [hj, hj2] at hb
          simp only [Except.map, Except.ok.injEq, countedRows] at hb
          simp only []
          rw [decodeRows_skip_empty (s.drop 1), decodeRows_skip_empty (s2.drop 1), hb]

/-- Witness for C28: a body with the label row, a cursor row, an empty row and a
well-formed row of eight fields, against the same body with another row 0 and
without the empty row. -/
theorem c28_row0_and_empty_rows_skipped_witness :
    CDXAPI.Perform
        (fixedEnv [labelRow, [ascii "next"], [], sevenFieldRow ++ [ascii "extra"]])
        (applyOps (fixedEnv []) CDXAPI.empty resumptionOps) (.ok ⟨200, .ok []⟩) =
      CDXAPI.Perform
        (fixedEnv [sevenFieldRow, [ascii "next"], sevenFieldRow ++ [ascii "extra"]])
        (applyOps (fixedEnv []) CDXAPI.empty resumptionOps) (.ok ⟨200, .ok []⟩) :=
  c28_row0_and_empty_rows_skipped _ _ _ _ (fun _ => by
    simp only [fixedEnv]
    decide!)

theorem rawPerform_params (c : CDXAPI) (net : Except Error HTTPResponse) :
    (c.RawPerform net).2.params = c.params := by
  simp only [CDXAPI.RawPerform]
  split
  · rfl
  · split
    · rfl
    · split <;> rfl

/-- Unless `Perform` returns without error, a configuration whose stored output was
not `json` has `output=json` stored after the call. -/
theorem perform_forced_output_stays (env : Env) (cdx : CDXAPI)
    (net : Except Error HTTPResponse) (ho : cdx.params.Get (ascii "output") ≠ ascii "json") :
    (∀ l, (CDXAPI.Perform env cdx net).1 ≠ .returned (l, none)) →
      (CDXAPI.Perform env cdx net).2.params.Get (ascii "output") = ascii "json" := by
  unfold CDXAPI.Perform
  simp only []
  generalize hc : (if (!decide (cdx.params.Get (ascii "output") = ascii "json")) = true then
      { cdx with params := cdx.params.Set (ascii "output") (ascii "json") } else cdx) = c1
  have h1 : c1.params.Get (ascii "output") = ascii "json" := by
    subst hc
    simp only [ho, decide_False, Bool.not_false, if_true]
    exact get_set_same _ _ _
  have h2 : (c1.RawPerform net).2.params.Get (ascii "output") = ascii "json" := by
    rw [rawPerform_params]
    exact h1
  rcases hr : c1.RawPerform net with ⟨r, c2⟩
  rw [hr] at h2
  simp only [] at h2
  cases r with
  | error e => intro _; exact h2
  | ok qry =>
    simp only []
    cases hb : qry.resp.Body with
    | error e => intro _; exact h2
    | ok qryRes =>
      simp only []
      cases hj : env.jsonUnmarshal qryRes with
      | error e => intro _; exact h2
      | ok splitBuf =>
        simp only []
        have h3 := (decodeRows_other_keys (splitBuf.drop 1) c2 [] (ascii "output")
          (by decide)).1
        rw [h2] at h3
        rcases hd : decodeRows c2 [] (List.drop 1 splitBuf) with ⟨o, c3⟩
        rw [hd] at h3
        simp only [] at h3
        match o with
        | .panicked i n => intro _; exact h3
        | .returned (result, some err) => intro _; exact h3
        | .returned (result, none) =>
          intro hne
          exact absurd rfl (hne result)

/-- C29 (code defect).  When the stored output is not `json` and `Perform` returns an
error, the forced `output=json` stays stored: the parameters are not those of before
the call, and `OutputFormat()` returns JSON although it returned CDX before. -/
theorem c29_forced_output_left_behind (env : Env) (cdx : CDXAPI)
    (net : Except Error HTTPResponse) (l : List CDXResult) (err : Error)
    (ho : cdx.params.Get (ascii "output") ≠ ascii "json")
    (h : (CDXAPI.Perform env cdx net).1 = .returned (l, some err)) :
    cdx.OutputFormat = OutputFormatCDX ∧
    (CDXAPI.Perform env cdx net).2.OutputFormat = OutputFormatJSON ∧
    (CDXAPI.Perform env cdx net).2.params.Get (ascii "output") = ascii "json" ∧
    (CDXAPI.Perform env cdx net).2.params ≠ cdx.params := by
  have hk := perform_forced_output_stays env cdx net ho (by
    intro l2 e
    rw [h] at e
    simp at e)
  refine ⟨?_, ?_, hk, ?_⟩
  · simp only [CDXAPI.OutputFormat, if_neg ho]
  · simp only [CDXAPI.OutputFormat, hk, if_true]
  · intro e
    rw [e] at hk
    exact ho hk

/-- Witness for C29: a configuration for `archive.org` and a response with status 500;
and the empty configuration, for which `Perform` returns `ErrorInvalidURL`. -/
theorem c29_forced_output_left_behind_witness :
    ((CDXAPI.Perform (fixedEnv [])
        (applyOps (fixedEnv []) CDXAPI.empty [.SetURL (ascii "archive.org")])
        (.ok serverErrorResponse)).1 = .returned ([], some .ErrorBadResponse) ∧
      (applyOps (fixedEnv []) CDXAPI.empty [.SetURL (ascii "archive.org")]).OutputFormat =
        OutputFormatCDX ∧
      (CDXAPI.Perform (fixedEnv [])
        (applyOps (fixedEnv []) CDXAPI.empty [.SetURL (ascii "archive.org")])
        (.ok serverErrorResponse)).2.OutputFormat = OutputFormatJSON) ∧
    ((CDXAPI.Perform (fixedEnv []) CDXAPI.empty (.ok serverErrorResponse)).1 =
        .returned ([], some .ErrorInvalidURL) ∧
      (CDXAPI.Perform (fixedEnv []) CDXAPI.empty (.ok serverErrorResponse)).2.OutputFormat =
        OutputFormatJSON) := by
  refine ⟨⟨by decide!, ?_, ?_⟩, by decide!, by decide!⟩
  · exact (c29_forced_output_left_behind (fixedEnv [])
      (applyOps (fixedEnv []) CDXAPI.empty [.SetURL (ascii "archive.org")])
      (.ok serverErrorResponse) [] .ErrorBadResponse (by decide!) (by decide!)).1
  · exact (c29_forced_output_left_behind (fixedEnv [])
      (applyOps (fixedEnv []) CDXAPI.empty [.SetURL (ascii "archive.org")])
      (.ok serverErrorResponse) [] .ErrorBadResponse (by decide!) (by decide!)).2.1

theorem decodeRow_long (f0 f1 f2 f3 f4 f5 f6 f7 : GoString) (fs : List GoString) :
    (∃ rec, decodeRow (f0 :: f1 :: f2 :: f3 :: f4 :: f5 :: f6 :: f7 :: fs) = .ok rec) ∨
    (∃ err, decodeRow (f0 :: f1 :: f2 :: f3 :: f4 :: f5 :: f6 :: f7 :: fs) =
      .error (.returned ([], some err))) := by
  by_cases h4 : f4 = ascii "-"
  · simp only [decodeRow, h4]
    simp only [List.getElem?_cons_succ, List.getElem?_cons_zero, if_true, List.set_cons_succ,
      List.set_cons_zero, List.getD_cons_succ, List.getD_cons_zero]
    split
    · exact Or.inr ⟨_, rfl⟩
    · split
      · exact Or.inr ⟨_, rfl⟩
      · split
        · exact Or.inr ⟨_, rfl⟩
        · exact Or.inl ⟨_, rfl⟩
  · simp only [decodeRow]
    simp only [List.getElem?_cons_succ, List.getElem?_cons_zero, if_neg h4,
      List.getD_cons_succ, List.getD_cons_zero]
    split
    · exact Or.inr ⟨_, rfl⟩
    · split
      · exact Or.inr ⟨_, rfl⟩
      · split
        · exact Or.inr ⟨_, rfl⟩
        · exact Or.inl ⟨_, rfl⟩

theorem decodeRows_long_rows_return (rows : List (List GoString)) :
    ∀ (cdx : CDXAPI) (result : List CDXResult),
      (∀ r ∈ rows, r.length ≤ 1 ∨ 8 ≤ r.length) →
      ∃ out, (decodeRows cdx result rows).1 = .returned out := by
  induction rows with
  | nil => intro cdx result _; exact ⟨_, rfl⟩
  | cons row rest ih =>
    intro cdx result h
    have hrest : ∀ r ∈ rest, r.length ≤ 1 ∨ 8 ≤ r.length :=
      fun r hr => h r (List.mem_cons_of_mem _ hr)
    have hrow := h row (List.mem_cons_self _ _)
    match row, hrow with
    | [], _ =>
      simp only [decodeRows]
      exact ih cdx result hrest
    | [key], _ =>
      simp only [decodeRows]
      split
      · exact ih _ result hrest
      · exact ih cdx result hrest
    | f0 :: f1 :: f2 :: f3 :: f4 :: f5 :: f6 :: f7 :: fs, _ =>
      simp only [decodeRows]
      rcases decodeRow_long f0 f1 f2 f3 f4 f5 f6 f7 fs with ⟨rec, e⟩ | ⟨err, e⟩
      · rw [e]
        exact ih cdx _ hrest
      · rw [e]
        exact ⟨_, rfl⟩
    | [_, _], hr => simp at hr
    | [_, _, _], hr => simp at hr
    | [_, _, _, _], hr => simp at hr
    | [_, _, _, _, _], hr => simp at hr
    | [_, _, _, _, _, _], hr => simp at hr
    | [_, _, _, _, _, _, _], hr => simp at hr

/-- C30 (code defect).  The decoding loop is not total.  At a row of two to four
fields the read of `splitBuf[i][4]` is out of range, at a row of five to seven fields
the read of `splitBuf[i][7]`, and the call panics there, whatever the row holds and
whatever follows it.  Only when every row has no field, one field, or eight or more
fields does the loop return a record list or an error. -/
theorem c30_short_rows_panic (cdx : CDXAPI) (result : List CDXResult) :
    (∀ row rest, 2 ≤ row.length → row.length ≤ 4 →
      (decodeRows cdx result (row :: rest)).1 = .panicked 4 row.length) ∧
    (∀ row rest, 5 ≤ row.length → row.length ≤ 7 →
      (decodeRows cdx result (row :: rest)).1 = .panicked 7 row.length) ∧
    (∀ rows, (∀ r ∈ rows, r.length ≤ 1 ∨ 8 ≤ r.length) →
      ∃ out, (decodeRows cdx result rows).1 = .returned out) := by
  refine ⟨?_, ?_, fun rows h => decodeRows_long_rows_return rows cdx result h⟩
  · intro row rest h2 h4
    match row, h2, h4 with
    | [a, b], _, _ => simp [decodeRows, decodeRow]
    | [a, b, c], _, _ => simp [decodeRows, decodeRow]
    | [a, b, c, d], _, _ => simp [decodeRows, decodeRow]
    | [], h, _ => simp at h
    | [_], h, _ => simp at h
    | _ :: _ :: _ :: _ :: _ :: _, _, h => simp at h
  · intro row rest h5 h7
    match row, h5, h7 with
    | [a, b, c, d, e], _, _ => by_cases h4 : e = ascii "-" <;> simp [decodeRows, decodeRow, h4]
    | [a, b, c, d, e, f], _, _ =>
      by_cases h4 : e = ascii "-" <;> simp [decodeRows, decodeRow, h4]
    | [a, b, c, d, e, f, g], _, _ =>
      by_cases h4 : e = ascii "-" <;> simp [decodeRows, decodeRow, h4]
    | [], h, _ => simp at h
    | [_], h, _ => simp at h
    | [_, _], h, _ => simp at h
    | [_, _, _], h, _ => simp at h
    | [_, _, _, _], h, _ => simp at h
    | _ :: _ :: _ :: _ :: _ :: _ :: _ :: _ :: _, _, h => simp at h

/-- Witness for C30: a response with the label row and one row of two fields makes
`Perform` panic on index 4. -/
theorem c30_short_rows_panic_witness :
    (decodeRows CDXAPI.empty [] [twoFieldRow]).1 = .panicked 4 2 ∧
    (CDXAPI.Perform (fixedEnv [labelRow, twoFieldRow])
        (applyOps (fixedEnv []) CDXAPI.empty [.SetURL (ascii "archive.org")])
        (.ok ⟨200, .ok []⟩)).1 = .panicked 4 2 := by
  refine ⟨?_, by decide!⟩
  exact (c30_short_rows_panic CDXAPI.empty []).1 twoFieldRow [] (by decide) (by decide)

/-! ### The rewrite pass and the stored values -/

theorem filter_eq_key (l : List GoString) (k : GoString) (h : l.Nodup) :
    l.filter (fun x => decide (x = k)) = if k ∈ l then [k] else [] := by
  induction l with
  | nil => simp
  | cons a rest ih =>
    have hn := List.nodup_cons.mp h
    by_cases e : a = k
    · subst e
      rw [List.filter_cons_of_pos (by simp), ih hn.2, if_neg hn.1]
      simp
    · have e2 : ¬ k = a := fun x => e x.symm
      rw [List.filter_cons_of_neg (by simpa using e), ih hn.2]
      simp only [List.mem_cons, e2, false_or]

theorem wireKey_eq_fixed_iff (k x : GoString) (hk : k ∈ fixedKeys) (hx : Allowed x) :
    wireKey x = k ↔ decide (x = k) = true := by
  rw [decide_eq_true_eq]
  have kf : ascii "filter" ≠ k := by
    intro e
    rw [← e] at hk
    exact absurd hk (by decide)
  have kc : ascii "collapse" ≠ k := by
    intro e
    rw [← e] at hk
    exact absurd hk (by decide)
  rcases hx with h | h | h
  · rw [wireKey_fixed x h]
  · rw [wireKey_filter x h]
    constructor
    · intro e
      exact absurd e kf
    · intro e
      rw [e, fixed_not_synth_filter k hk] at h
      exact absurd h (by decide)
  · rw [wireKey_collapse x h]
    constructor
    · intro e
      exact absurd e kc
    · intro e
      rw [e, fixed_not_synth_collapse k hk] at h
      exact absurd h (by decide)

/-- The query written for a store of the maintained shape, read back pair by pair: a
fixed key has one pair, holding its stored value, when it is stored and none when it
is not; a `filter` or `collapse` pair holds the value stored under a key of the
corresponding list; and there are no other pairs. -/
theorem query_read_back (cdx : CDXAPI) (fs cs : List GoString)
    (h : Inv cdx.params cdx.regFilterKeys cdx.collapsingKeys fs cs) (q : GoString)
    (hq : splitOn 38 q =
      cdx.params.sortedKeys.map (fun k => wireKey k ++ 61 :: QueryEscape (cdx.params.Get k))) :
    (∀ k ∈ fixedKeys,
      ((splitOn 38 q).filter (fun p => decide (pairKey p = k))).map
          (fun p => QueryUnescape (pairValue p)) =
        if k ∈ cdx.params.entries.map Prod.fst then [some (cdx.params.Get k)] else []) ∧
    (∀ p ∈ splitOn 38 q, pairKey p = ascii "filter" →
      ∃ key ∈ cdx.regFilterKeys, QueryUnescape (pairValue p) = some (cdx.params.Get key) ∧
        cdx.params.Get key ∈ fs) ∧
    (∀ p ∈ splitOn 38 q, pairKey p = ascii "collapse" →
      ∃ key ∈ cdx.collapsingKeys, QueryUnescape (pairValue p) = some (cdx.params.Get key) ∧
        cdx.params.Get key ∈ cs) ∧
    (∀ p ∈ splitOn 38 q,
      (pairKey p ∈ fixedKeys ∧ pairKey p ∈ cdx.params.entries.map Prod.fst) ∨
        pairKey p = ascii "filter" ∨ pairKey p = ascii "collapse") := by
  have hall := allowed_of_inv h
  rw [hq]
  refine ⟨?_, ?_, ?_, ?_⟩
  · intro k hk
    rw [family_values _ k (fun x => decide (x = k)) hall
      (fun x hx => wireKey_eq_fixed_iff k x hk (hall x hx))]
    rw [filter_eq_key _ k (nodup_sortedKeys h)]
    have hiff : k ∈ cdx.params.sortedKeys ↔ k ∈ cdx.params.entries.map Prod.fst :=
      (perm_sortedKeys cdx.params).mem_iff
    by_cases hm : k ∈ cdx.params.sortedKeys
    · rw [if_pos hm, if_pos (hiff.mp hm)]
      rfl
    · rw [if_neg hm, if_neg (fun x => hm (hiff.mpr x))]
      rfl
  · intro p hp hkey
    obtain ⟨k, hk, rfl⟩ := List.mem_map.mp hp
    rw [pairKey_pair _ _ (wireKey_notSep k (hall k hk))] at hkey
    have hs := (wireKey_eq_filter_iff k (hall k hk)).mp hkey
    have hmem : k ∈ cdx.regFilterKeys :=
      (filter_keys_perm h).mem_iff.mp (List.mem_filter.mpr ⟨hk, hs⟩)
    refine ⟨k, hmem, ?_, ?_⟩
    · rw [pairValue_pair _ _ (wireKey_notSep k (hall k hk))]
      exact unescape_escape _
    · rw [← h.valsF]
      exact List.mem_map_of_mem _ hmem
  · intro p hp hkey
    obtain ⟨k, hk, rfl⟩ := List.mem_map.mp hp
    rw [pairKey_pair _ _ (wireKey_notSep k (hall k hk))] at hkey
    have hs := (wireKey_eq_collapse_iff k (hall k hk)).mp hkey
    have hmem : k ∈ cdx.collapsingKeys :=
      (collapse_keys_perm h).mem_iff.mp (List.mem_filter.mpr ⟨hk, hs⟩)
    refine ⟨k, hmem, ?_, ?_⟩
    · rw [pairValue_pair _ _ (wireKey_notSep k (hall k hk))]
      exact unescape_escape _
    · rw [← h.valsC]
      exact List.mem_map_of_mem _ hmem
  · intro p hp
    obtain ⟨k, hk, rfl⟩ := List.mem_map.mp hp
    rw [pairKey_pair _ _ (wireKey_notSep k (hall k hk))]
    rcases hall k hk with hf | hf | hf
    · rw [wireKey_fixed k hf]
      exact Or.inl ⟨hf, (perm_sortedKeys cdx.params).mem_iff.mp hk⟩
    · exact Or.inr (Or.inl (wireKey_filter k hf))
    · exact Or.inr (Or.inr (wireKey_collapse k hf))

/-- C31.  For every configuration reached from the empty one by any calls with any
arguments, and with a target stored, `buildURL` succeeds, and the query it writes,
split at `&` and `=` and unescaped, gives back the stored values: the one pair `url`
holds the target; each key that a method stores under its own name (`resumeKey`,
`from`, `limit`, ...) has exactly one pair, holding the stored value, when it is stored
and no pair when it is not; every `filter` pair holds the value of a stored filter
(an added one, not reset) and every `collapse` pair the value of a stored collapse
directive; and there are no other pairs. -/
theorem c31_rewrite_keeps_values (env : Env) (ops : List Op) (urlDst : GoString)
    (hurl : (applyOps env CDXAPI.empty ops).URL ≠ ascii "") :
    ∃ q, (applyOps env CDXAPI.empty ops).buildURL urlDst = (none, cdxURL ++ q) ∧
      ((splitOn 38 q).filter (fun p => decide (pairKey p = ascii "url"))).map
          (fun p => QueryUnescape (pairValue p)) = [some (applyOps env CDXAPI.empty ops).URL] ∧
      (∀ k ∈ fixedKeys,
        ((splitOn 38 q).filter (fun p => decide (pairKey p = k))).map
            (fun p => QueryUnescape (pairValue p)) =
          if k ∈ (applyOps env CDXAPI.empty ops).params.entries.map Prod.fst then
            [some ((applyOps env CDXAPI.empty ops).params.Get k)] else []) ∧
      (∀ p ∈ splitOn 38 q, pairKey p = ascii "filter" →
        ∃ key ∈ (applyOps env CDXAPI.empty ops).regFilterKeys,
          QueryUnescape (pairValue p) = some ((applyOps env CDXAPI.empty ops).params.Get key) ∧
          (applyOps env CDXAPI.empty ops).params.Get key ∈
            addedFilters env CDXAPI.empty [] ops) ∧
      (∀ p ∈ splitOn 38 q, pairKey p = ascii "collapse" →
        ∃ key ∈ (applyOps env CDXAPI.empty ops).collapsingKeys,
          QueryUnescape (pairValue p) = some ((applyOps env CDXAPI.empty ops).params.Get key) ∧
          (applyOps env CDXAPI.empty ops).params.Get key ∈
            addedCollapses env CDXAPI.empty [] ops) ∧
      (∀ p ∈ splitOn 38 q,
        (pairKey p ∈ fixedKeys ∧
          pairKey p ∈ (applyOps env CDXAPI.empty ops).params.entries.map Prod.fst) ∨
          pairKey p = ascii "filter" ∨ pairKey p = ascii "collapse") := by
  have hinv := reachable_inv env ops
  have hrb := query_read_back _ _ _ hinv _ (split_query _ _ _ hinv hurl)
  refine ⟨_, buildURL_normal_form _ _ _ urlDst hinv hurl, ?_, hrb.1, hrb.2.1, hrb.2.2.1,
    hrb.2.2.2⟩
  have hmem : ascii "url" ∈ (applyOps env CDXAPI.empty ops).params.entries.map Prod.fst := by
    by_contra hn
    exact hurl (get_not_mem _ _ hn)
  rw [hrb.1 (ascii "url") (by decide), if_pos hmem]
  rfl

/-- Witness for C31: a target, a filter pattern and a cursor that hold `filter1=`,
`collapse1=` and the like.  The query written has the five pairs expected, and the
pairs `url` and `resumeKey` give back the stored strings. -/
theorem c31_rewrite_keeps_values_witness :
    ((applyOps (fixedEnv []) CDXAPI.empty rewriteTestOps).buildURL []).2 =
      ascii "https://web.archive.org/cdx/search/cdx?collapse=digest%3A3&filter=original%3Afilter0%3D.%2A%26collapse1%3D&resumeKey=collapse0%3Dk%26filter7%3D&showResumeKey=true&url=archive.org%2F%3Ffilter1%3Da%26collapse2%3Db" ∧
    ∃ q, (applyOps (fixedEnv []) CDXAPI.empty rewriteTestOps).buildURL [] = (none, cdxURL ++ q) ∧
      ((splitOn 38 q).filter (fun p => decide (pairKey p = ascii "url"))).map
          (fun p => QueryUnescape (pairValue p)) = [some (ascii "archive.org/?filter1=a&collapse2=b")] ∧
      ((splitOn 38 q).filter (fun p => decide (pairKey p = ascii "resumeKey"))).map
          (fun p => QueryUnescape (pairValue p)) = [some (ascii "collapse0=k&filter7=")] := by
  refine ⟨by decide!, ?_⟩
  obtain ⟨q, hq, hu, hk, -⟩ :=
    c31_rewrite_keeps_values (fixedEnv []) rewriteTestOps [] (by decide!)
  refine ⟨q, hq, ?_, ?_⟩
  · rw [hu]
    decide!
  · rw [hk (ascii "resumeKey") (by decide)]
    decide!

end Simplewayback
